import Mathlib

/-!
# MDADM: a linear-address driver over a JBOD block device

A shallow embedding of `mdadm.c` (`op_construct`, `mdadm_mount`, `mdadm_unmount`, `seek`,
`mdadm_read`, `mdadm_write`) together with a model of the JBOD device the driver talks to, and
theorems about the driver.

Conventions of the embedding.

* `uint32_t` values are natural numbers below `2^32`; arithmetic on them is reduced modulo `2^32`
  explicitly.  `int` values are integers; a conversion between the two is written `toU32` /
  `toI32` (two's complement).  On every path that passes the initial checks of `mdadm_read` and
  `mdadm_write` the `int` variables stay within `[-1024, 1048576 + 256]`, so `int` arithmetic is
  exact there.
* C division and remainder on `int` truncate towards zero: `Int.tdiv`, `Int.tmod`.
* A pointer is a buffer (`none` for `NULL`) together with an offset; `memcpy` outside the bounds
  of either buffer is a fault.
* A `while` loop is a function with a fuel argument around the function of its body
  (`read_body`, `write_body`: one pass, from the values of the loop variables to a `return` or to
  their new values); running out of fuel is a fault of its own, and the theorems state how much
  fuel is enough.  `read_vars` and `write_vars` give the loop variables after `n` passes.
-/

namespace MDADM

/-- A byte of storage or of a caller buffer. Bytes are only ever copied, never computed with. -/
abbrev Byte := Nat

/-! ## Machine integers -/

/-- Conversion of an `int` to `uint32_t`: reduction modulo `2^32`. -/
def toU32 (x : Int) : Nat := (x % 4294967296).toNat

/-- Conversion of a `uint32_t` to `int`: two's complement. -/
def toI32 (n : Nat) : Int :=
  if n % 4294967296 < 2147483648 then ((n % 4294967296 : Nat) : Int)
  else ((n % 4294967296 : Nat) : Int) - 4294967296

/-! ## Constants of `jbod.h` -/

/-- Modelled from the spec: `JBOD_NUM_DISKS` of `jbod.h`, which is not under `src/`
(16 disks in the reference configuration). -/
def JBOD_NUM_DISKS : Int := 16

/-- Modelled from the spec: `JBOD_BLOCK_SIZE` of `jbod.h`, which is not under `src/`
(256 bytes per block). -/
def JBOD_BLOCK_SIZE : Int := 256

/-- Modelled from the spec: `JBOD_DISK_SIZE` of `jbod.h`, which is not under `src/`
(256 blocks of 256 bytes per disk). -/
def JBOD_DISK_SIZE : Int := 65536

/-- Modelled from the spec: the command `MOUNT` of `jbod_cmd_t` (`jbod.h` is not under `src/`);
the commands are numbered in the order of the command set of section 6. -/
def JBOD_MOUNT : Int := 0

/-- Modelled from the spec: the command `UNMOUNT` of `jbod_cmd_t`. -/
def JBOD_UNMOUNT : Int := 1

/-- Modelled from the spec: the command `SEEK_TO_DISK` of `jbod_cmd_t`. -/
def JBOD_SEEK_TO_DISK : Int := 2

/-- Modelled from the spec: the command `SEEK_TO_BLOCK` of `jbod_cmd_t`. -/
def JBOD_SEEK_TO_BLOCK : Int := 3

/-- Modelled from the spec: the command `READ_BLOCK` of `jbod_cmd_t`. -/
def JBOD_READ_BLOCK : Int := 4

/-- Modelled from the spec: the command `WRITE_BLOCK` of `jbod_cmd_t`. -/
def JBOD_WRITE_BLOCK : Int := 5

/-- The global `address_max` (`mdadm.c`, line 12); it is never assigned. -/
def address_max : Int := 1048575

/-! ## The opcode encoder -/

/-- The function `op_construct` (`mdadm.c`, lines 14-18): `(diskID << 28) | (blockID << 20) | (cmd << 14) |
reserved`, computed on `int` and converted to `uint32_t`.  Reduction modulo `2^32` commutes with
shifts and with bitwise or, so each field is shifted and reduced and the results are or-ed. -/
def op_construct (diskID blockID cmd reserved : Int) : Nat :=
  toU32 (diskID * 268435456) ||| toU32 (blockID * 1048576) ||| toU32 (cmd * 16384) |||
    toU32 reserved

/-! ## The device -/

/-- Modelled from the spec: the state of the JBOD device behind `jbod_operation` (`jbod.h` and
the device are not under `src/`).  The device is an array of disks of blocks of bytes with a
cursor (current disk and block).  `fails k` says whether the `k`-th operation the device receives
reports failure, and `log` records every operation received, oldest first, with its status. -/
structure Jbod where
  disk : Nat
  block : Nat
  data : Nat → Nat → Nat → Byte
  fails : Nat → Bool
  log : List (Nat × Int)

/-- The command field of an operation code (bits 14-19), as `op_construct` lays it out. -/
def cmdOf (op : Nat) : Nat := (op >>> 14) % 64

/-- The disk field of an operation code (bits 28-31), as `op_construct` lays it out. -/
def diskOf (op : Nat) : Nat := (op >>> 28) % 16

/-- The block field of an operation code (bits 20-27), as `op_construct` lays it out. -/
def blockOf (op : Nat) : Nat := (op >>> 20) % 256

/-- The 256 bytes of the block under the cursor. -/
def Jbod.current (d : Jbod) : List Byte := (List.range 256).map (d.data d.disk d.block)

/-- The device with one more entry in its log. -/
def Jbod.record (d : Jbod) (op : Nat) (status : Int) : Jbod :=
  { d with log := d.log ++ [(op, status)] }

/-- Modelled from the spec: `jbod_operation(op, block)` of the device interface (section 6), which
is not under `src/`.  The result is the status (`0` success, `-1` failure), the device afterwards
and the buffer afterwards.  An operation the failure plan marks, an unknown command, and a block
transfer without a buffer report failure and change nothing but the log.  The seeks move the
cursor; `READ_BLOCK` copies the block under the cursor into the first 256 bytes of the buffer and
`WRITE_BLOCK` stores the first 256 bytes of the buffer into the block under the cursor, and both
then advance the cursor to the next block. -/
def jbod_operation (d : Jbod) (op : Nat) (buf : Option (List Byte)) :
    Int × Jbod × Option (List Byte) :=
  if d.fails d.log.length = true then (-1, d.record op (-1), buf)
  else if cmdOf op = 0 ∨ cmdOf op = 1 then (0, d.record op 0, buf)
  else if cmdOf op = 2 then (0, { d.record op 0 with disk := diskOf op }, buf)
  else if cmdOf op = 3 then (0, { d.record op 0 with block := blockOf op }, buf)
  else if cmdOf op = 4 then
    match buf with
    | none => (-1, d.record op (-1), buf)
    | some b => (0, { d.record op 0 with block := (d.block + 1) % 256 },
        some (d.current ++ b.drop 256))
  else if cmdOf op = 5 then
    match buf with
    | none => (-1, d.record op (-1), buf)
    | some b => (0, { d.record op 0 with
          block := (d.block + 1) % 256
          data := fun dk bk off =>
            if dk = d.disk ∧ bk = d.block ∧ off < 256 then b.getD off 0 else d.data dk bk off },
        buf)
  else (-1, d.record op (-1), buf)

/-! ## The driver state -/

/-- The global `mount_state` (`mdadm.c`, line 11: 0 = unmounted, 1 = mounted) and the device. -/
structure Machine where
  mount_state : Int
  jbod : Jbod

/-- What a call leaves behind: the returned `int`, the machine and the caller buffer. -/
structure Ret where
  ret : Int
  m : Machine
  buf : Option (List Byte)

/-- The two ways a run has no defined result. -/
inductive Fault where
  | outOfBounds
  | outOfFuel
  deriving DecidableEq, Repr

/-- How one pass through the body of a `while` loop ends: with a `return` statement, or at the
end of the body, with the new values of the loop variables. -/
inductive Pass (σ : Type) where
  | returned (r : Ret)
  | again (v : σ)

/-! ## Mount and unmount -/

/-- The function `mdadm_mount` (`mdadm.c`, lines 20-38). -/
def mdadm_mount (m : Machine) : Int × Machine :=
  if m.mount_state = 1 then (-1, m)
  else
    let r := jbod_operation m.jbod (op_construct 0 0 JBOD_MOUNT 0) none
    if r.1 = 0 then (1, ⟨1, r.2.1⟩)
    else (-1, ⟨m.mount_state, r.2.1⟩)

/-- The function `mdadm_unmount` (`mdadm.c`, lines 40-58). -/
def mdadm_unmount (m : Machine) : Int × Machine :=
  if m.mount_state = 0 then (-1, m)
  else
    let r := jbod_operation m.jbod (op_construct 0 0 JBOD_UNMOUNT 0) none
    if r.1 = 0 then (1, ⟨0, r.2.1⟩)
    else (-1, ⟨m.mount_state, r.2.1⟩)

/-! ## Address translation -/

/-- The function `seek` (`mdadm.c`, lines 61-91): the returned `int` and the device afterwards. -/
def seek (d : Jbod) (addr : Int) : Int × Jbod :=
  let diskNumber := Int.tdiv addr JBOD_DISK_SIZE
  let addressInDisk := Int.tmod addr JBOD_DISK_SIZE
  let localBlockNum := Int.tdiv addressInDisk JBOD_BLOCK_SIZE
  let blockOffset := Int.tmod addressInDisk JBOD_BLOCK_SIZE
  let r1 := jbod_operation d (op_construct diskNumber 0 JBOD_SEEK_TO_DISK 0) none
  if r1.1 = -1 then (-1, r1.2.1)
  else
    let r2 := jbod_operation r1.2.1 (op_construct 0 localBlockNum JBOD_SEEK_TO_BLOCK 0) none
    if r2.1 = -1 then (-1, r2.2.1)
    else (blockOffset, r2.2.1)

/-! ## Buffers -/

/-- The call `memcpy(dst + d, src + s, n)`: the destination buffer afterwards, or `none` when a pointer is
`NULL` or the copy leaves the bounds of a buffer. -/
def memcpy (dst : Option (List Byte)) (d : Int) (src : Option (List Byte)) (s n : Int) :
    Option (List Byte) :=
  match dst, src with
  | some a, some b =>
    if 0 ≤ d ∧ 0 ≤ s ∧ 0 ≤ n ∧ d + n ≤ a.length ∧ s + n ≤ b.length then
      some (a.take d.toNat ++ ((b.drop s.toNat).take n.toNat ++ a.drop (d.toNat + n.toNat)))
    else none
  | _, _ => none

/-- The array `uint8_t loader[JBOD_BLOCK_SIZE]` as declared: 256 bytes of indeterminate content,
given by `junk`. -/
def loaderDecl (junk : Nat → Byte) : List Byte := (List.range 256).map junk

/-! ## The range reader -/

/-- The variables of the loop of `mdadm_read` that change from one pass to the next:
`currentAddr`, `dataSize`, the offset `bufP - buf`, and with them the device and the caller
buffer. -/
structure ReadVars where
  currentAddr : Int
  dataSize : Int
  bufP : Int
  dev : Jbod
  buf : Option (List Byte)

/-- The body of the `while` loop of `mdadm_read` (`mdadm.c`, lines 119-160), one pass.  `ms` is
the mount state (the loop does not touch it), `opcode` the `READ_BLOCK` code. -/
def read_body (junk : Nat → Byte) (ms : Int) (addr len : Nat) (opcode : Nat) (finalAddr : Int)
    (v : ReadVars) : Except Fault (Pass ReadVars) :=
  let s := seek v.dev v.currentAddr
  let blockOffset := s.1
  if blockOffset = -1 then .ok (.returned ⟨-1, ⟨ms, s.2⟩, v.buf⟩)
  else
    let r := jbod_operation s.2 opcode (some (loaderDecl junk))
    if r.1 = -1 then .ok (.returned ⟨-1, ⟨ms, r.2.1⟩, v.buf⟩)
    else
      let loader := r.2.2
      if toU32 v.currentAddr = addr then
        if (toU32 blockOffset + len) % 4294967296 ≤ toU32 JBOD_BLOCK_SIZE then
          let dataSize := toI32 len
          match memcpy v.buf v.bufP loader blockOffset dataSize with
          | none => .error .outOfBounds
          | some out => .ok (.again ⟨v.currentAddr + dataSize, dataSize, v.bufP, r.2.1, some out⟩)
        else
          let dataSize := JBOD_BLOCK_SIZE - blockOffset
          match memcpy v.buf v.bufP loader blockOffset dataSize with
          | none => .error .outOfBounds
          | some out => .ok (.again ⟨v.currentAddr + dataSize, dataSize, v.bufP, r.2.1, some out⟩)
      else if finalAddr - v.currentAddr ≥ JBOD_BLOCK_SIZE then
        let bufP := v.bufP + v.dataSize
        let dataSize := JBOD_BLOCK_SIZE
        match memcpy v.buf bufP loader 0 dataSize with
        | none => .error .outOfBounds
        | some out => .ok (.again ⟨v.currentAddr + dataSize, dataSize, bufP, r.2.1, some out⟩)
      else
        let bufP := v.bufP + v.dataSize
        let dataSize := finalAddr - v.currentAddr
        match memcpy v.buf bufP loader 0 dataSize with
        | none => .error .outOfBounds
        | some out => .ok (.again ⟨v.currentAddr + dataSize, dataSize, bufP, r.2.1, some out⟩)

/-- The `while` loop of `mdadm_read` (`mdadm.c`, lines 118-161) around its body `read_body`; the
loop variables are `currentAddr`, `dataSize`, the offset `bufP - buf`, the device and the caller
buffer.  When the condition fails the function returns `len`. -/
def read_loop (junk : Nat → Byte) (ms : Int) (addr len : Nat) (opcode : Nat) (finalAddr : Int) :
    Nat → Int → Int → Int → Jbod → Option (List Byte) → Except Fault Ret
  | 0, currentAddr, _, _, dev, buf =>
    if currentAddr < finalAddr then .error .outOfFuel
    else .ok ⟨toI32 len, ⟨ms, dev⟩, buf⟩
  | fuel + 1, currentAddr, dataSize, bufP, dev, buf =>
    if currentAddr < finalAddr then
      match read_body junk ms addr len opcode finalAddr ⟨currentAddr, dataSize, bufP, dev, buf⟩
        with
      | .error e => .error e
      | .ok (.returned r) => .ok r
      | .ok (.again v) =>
        read_loop junk ms addr len opcode finalAddr fuel v.currentAddr v.dataSize v.bufP v.dev
          v.buf
    else .ok ⟨toI32 len, ⟨ms, dev⟩, buf⟩

/-- The values of the loop variables of `mdadm_read` after `n` passes through the body that
started from the values `v`: `none` when the loop ended before (the condition failed, or a pass
returned or had no defined result). -/
def read_vars (junk : Nat → Byte) (ms : Int) (addr len : Nat) (opcode : Nat) (finalAddr : Int) :
    Nat → ReadVars → Option ReadVars
  | 0, v => some v
  | n + 1, v =>
    if v.currentAddr < finalAddr then
      match read_body junk ms addr len opcode finalAddr v with
      | .ok (.again v2) => read_vars junk ms addr len opcode finalAddr n v2
      | _ => none
    else none

/-- The function `mdadm_read` (`mdadm.c`, lines 93-164).  `addr` and `len` are `uint32_t`; `dataSize` is
declared without a value and is assigned in the first iteration before it is read, so its
initial value (here 0) is never observed. -/
def mdadm_read (junk : Nat → Byte) (fuel : Nat) (m : Machine) (addr len : Nat)
    (buf : Option (List Byte)) : Except Fault Ret :=
  let body : Except Fault Ret :=
    read_loop junk m.mount_state addr len (op_construct 0 0 JBOD_READ_BLOCK 0)
      (toI32 ((addr + len) % 4294967296)) fuel (toI32 addr) 0 0 m.jbod buf
  if m.mount_state = 0 then .ok ⟨-1, m, buf⟩
  else if len > 1024 then .ok ⟨-1, m, buf⟩
  else if len = 0 ∧ buf = none then body
  else if (addr + toU32 ((len : Int) - 1)) % 4294967296 > toU32 address_max then
    .ok ⟨-1, m, buf⟩
  else if len ≠ 0 ∧ buf = none then .ok ⟨-1, m, buf⟩
  else body

/-! ## The range writer -/

/-- The case analysis of one iteration of `mdadm_write` (`mdadm.c`, lines 197-231): the value of
`dataSize`, the device afterwards and the array `loader` afterwards.  The value returned by the
nested `mdadm_read` is not looked at. -/
def write_fill (junk : Nat → Byte) (fuel : Nat) (ms : Int) (len : Nat) (finalAddr : Int)
    (currentAddr blockOffset bufP : Int) (dev : Jbod) (buf : Option (List Byte)) :
    Except Fault (Int × Jbod × List Byte) :=
  if blockOffset = 0 then
    if finalAddr - currentAddr < JBOD_BLOCK_SIZE then
      let dataSize := finalAddr - currentAddr
      match mdadm_read junk fuel ⟨ms, dev⟩ (toU32 currentAddr) (toU32 JBOD_BLOCK_SIZE)
          (some (loaderDecl junk)) with
      | .error e => .error e
      | .ok rr =>
        match memcpy rr.buf 0 buf bufP dataSize with
        | none => .error .outOfBounds
        | some loader => .ok (dataSize, rr.m.jbod, loader)
    else
      let dataSize := JBOD_BLOCK_SIZE
      match memcpy (some (loaderDecl junk)) 0 buf bufP dataSize with
      | none => .error .outOfBounds
      | some loader => .ok (dataSize, dev, loader)
  else
    if (toU32 blockOffset + len) % 4294967296 > toU32 JBOD_BLOCK_SIZE then
      let dataSize := JBOD_BLOCK_SIZE - blockOffset
      match mdadm_read junk fuel ⟨ms, dev⟩ (toU32 (currentAddr - blockOffset))
          (toU32 JBOD_BLOCK_SIZE) (some (loaderDecl junk)) with
      | .error e => .error e
      | .ok rr =>
        match memcpy rr.buf blockOffset buf bufP dataSize with
        | none => .error .outOfBounds
        | some loader => .ok (dataSize, rr.m.jbod, loader)
    else
      let dataSize := toI32 len
      match mdadm_read junk fuel ⟨ms, dev⟩ (toU32 (currentAddr - blockOffset))
          (toU32 JBOD_BLOCK_SIZE) (some (loaderDecl junk)) with
      | .error e => .error e
      | .ok rr =>
        match memcpy rr.buf blockOffset buf bufP dataSize with
        | none => .error .outOfBounds
        | some loader => .ok (dataSize, rr.m.jbod, loader)

/-- The variables of the loop of `mdadm_write` that change from one pass to the next:
`currentAddr`, the offset `bufP - buf`, and with them the device. -/
structure WriteVars where
  currentAddr : Int
  bufP : Int
  dev : Jbod

/-- The body of the `while` loop of `mdadm_write` (`mdadm.c`, lines 191-246), one pass.  `fuelR`
is the fuel handed to the nested `mdadm_read`.  The caller buffer is `const` and is returned as
it came. -/
def write_body (junk : Nat → Byte) (fuelR : Nat) (ms : Int) (len : Nat) (opcode : Nat)
    (finalAddr : Int) (buf : Option (List Byte)) (v : WriteVars) :
    Except Fault (Pass WriteVars) :=
  let s := seek v.dev v.currentAddr
  if s.1 = -1 then .ok (.returned ⟨-1, ⟨ms, s.2⟩, buf⟩)
  else
    match write_fill junk fuelR ms len finalAddr v.currentAddr s.1 v.bufP s.2 buf with
    | .error e => .error e
    | .ok (dataSize, dev1, loader) =>
      let s2 := seek dev1 v.currentAddr
      if s2.1 = -1 then .ok (.returned ⟨-1, ⟨ms, s2.2⟩, buf⟩)
      else
        let w := jbod_operation s2.2 opcode (some loader)
        if w.1 = -1 then .ok (.returned ⟨-1, ⟨ms, w.2.1⟩, buf⟩)
        else .ok (.again ⟨v.currentAddr + dataSize, v.bufP + dataSize, w.2.1⟩)

/-- The `while` loop of `mdadm_write` (`mdadm.c`, lines 190-247) around its body `write_body`;
the loop variables are `currentAddr`, the offset `bufP - buf` and the device.  When the
condition fails the function returns `len`. -/
def write_loop (junk : Nat → Byte) (fuelR : Nat) (ms : Int) (len : Nat) (opcode : Nat)
    (finalAddr : Int) (buf : Option (List Byte)) :
    Nat → Int → Int → Jbod → Except Fault Ret
  | 0, currentAddr, _, dev =>
    if currentAddr < finalAddr then .error .outOfFuel
    else .ok ⟨toI32 len, ⟨ms, dev⟩, buf⟩
  | fuel + 1, currentAddr, bufP, dev =>
    if currentAddr < finalAddr then
      match write_body junk fuelR ms len opcode finalAddr buf ⟨currentAddr, bufP, dev⟩ with
      | .error e => .error e
      | .ok (.returned r) => .ok r
      | .ok (.again v) =>
        write_loop junk fuelR ms len opcode finalAddr buf fuel v.currentAddr v.bufP v.dev
    else .ok ⟨toI32 len, ⟨ms, dev⟩, buf⟩

/-- The values of the loop variables of `mdadm_write` after `n` passes through the body that
started from the values `v`: `none` when the loop ended before (the condition failed, or a pass
returned or had no defined result). -/
def write_vars (junk : Nat → Byte) (fuelR : Nat) (ms : Int) (len : Nat) (opcode : Nat)
    (finalAddr : Int) (buf : Option (List Byte)) : Nat → WriteVars → Option WriteVars
  | 0, v => some v
  | n + 1, v =>
    if v.currentAddr < finalAddr then
      match write_body junk fuelR ms len opcode finalAddr buf v with
      | .ok (.again v2) => write_vars junk fuelR ms len opcode finalAddr buf n v2
      | _ => none
    else none

/-- The function `mdadm_write` (`mdadm.c`, lines 166-250). -/
def mdadm_write (junk : Nat → Byte) (fuel : Nat) (m : Machine) (addr len : Nat)
    (buf : Option (List Byte)) : Except Fault Ret :=
  let body : Except Fault Ret :=
    write_loop junk fuel m.mount_state len (op_construct 0 0 JBOD_WRITE_BLOCK 0)
      (toI32 ((addr + len) % 4294967296)) buf fuel (toI32 addr) 0 m.jbod
  if m.mount_state = 0 then .ok ⟨-1, m, buf⟩
  else if len > 1024 then .ok ⟨-1, m, buf⟩
  else if len = 0 ∧ buf = none then body
  else if (addr + toU32 ((len : Int) - 1)) % 4294967296 > toU32 address_max then
    .ok ⟨-1, m, buf⟩
  else if len ≠ 0 ∧ buf = none then .ok ⟨-1, m, buf⟩
  else body

/-! ## The loop variables of a call -/

/-- The loop variables of the call `mdadm_read(addr, len, buf)` after `n` passes through the
loop body, when the call gets to its loop and the loop is still running then: the loop starts
with `currentAddr = addr` and `bufP = buf` and runs to `finalAddr = addr + len`. -/
def mdadm_read_vars (junk : Nat → Byte) (m : Machine) (addr len : Nat)
    (buf : Option (List Byte)) (n : Nat) : Option ReadVars :=
  read_vars junk m.mount_state addr len (op_construct 0 0 JBOD_READ_BLOCK 0)
    (toI32 ((addr + len) % 4294967296)) n ⟨toI32 addr, 0, 0, m.jbod, buf⟩

/-- The loop variables of the call `mdadm_write(addr, len, buf)` after `n` passes through the
loop body; `fuel` is the fuel of the nested reads. -/
def mdadm_write_vars (junk : Nat → Byte) (fuel : Nat) (m : Machine) (addr len : Nat)
    (buf : Option (List Byte)) (n : Nat) : Option WriteVars :=
  write_vars junk fuel m.mount_state len (op_construct 0 0 JBOD_WRITE_BLOCK 0)
    (toI32 ((addr + len) % 4294967296)) buf n ⟨toI32 addr, 0, m.jbod⟩

/-! ## Vocabulary of the statements -/

/-- The code `seek` sends to position the device on the disk of `a`. -/
def seekDiskOp (a : Int) : Nat := op_construct (Int.tdiv a JBOD_DISK_SIZE) 0 JBOD_SEEK_TO_DISK 0

/-- The code `seek` sends to position the device on the block of `a`. -/
def seekBlockOp (a : Int) : Nat :=
  op_construct 0 (Int.tdiv (Int.tmod a JBOD_DISK_SIZE) JBOD_BLOCK_SIZE) JBOD_SEEK_TO_BLOCK 0

/-- The code of a block read. -/
def readOp : Nat := op_construct 0 0 JBOD_READ_BLOCK 0

/-- The code of a block write. -/
def writeOp : Nat := op_construct 0 0 JBOD_WRITE_BLOCK 0

/-- The stored byte at a linear address: disk `a / 65536`, block `(a mod 65536) / 256`,
offset `(a mod 65536) mod 256`. -/
def Jbod.byteAt (d : Jbod) (a : Nat) : Byte :=
  d.data (a / 65536) (a % 65536 / 256) (a % 65536 % 256)

/-- The device after a seek to the linear address `a` that succeeded. -/
def Jbod.sought (d : Jbod) (a : Nat) : Jbod :=
  { disk := a / 65536, block := a % 65536 / 256, data := d.data, fails := d.fails,
    log := d.log ++ [(seekDiskOp a, 0), (seekBlockOp a, 0)] }

/-- The device after a seek to `a` and a block read that both succeeded. -/
def Jbod.fetched (d : Jbod) (a : Nat) : Jbod :=
  { disk := a / 65536, block := (a % 65536 / 256 + 1) % 256, data := d.data, fails := d.fails,
    log := d.log ++ [(seekDiskOp a, 0), (seekBlockOp a, 0), (readOp, 0)] }

/-- The 256 bytes of the block that holds the linear address `a`. -/
def Jbod.blockAt (d : Jbod) (a : Nat) : List Byte :=
  (List.range 256).map (d.data (a / 65536) (a % 65536 / 256))

/-- A device reached from `d` by operations of which the last one failed and the earlier ones
succeeded; the stored bytes and the failure plan are those of `d`. -/
def FailedFrom (d e : Jbod) : Prop :=
  e.data = d.data ∧ e.fails = d.fails ∧
    ∃ new, e.log = d.log ++ new ∧ (∀ x ∈ new.dropLast, x.2 = 0) ∧ (∃ x ∈ new, x.2 = -1) ∧
      ∃ j, d.fails j = true

/-- What a run of the read loop started on device `d` with caller buffer `b` leaves behind, when
the bytes of the request before position `k` were delivered already: either every operation
succeeded, the call returns `len` and the buffer holds the stored bytes at the positions from
`k` on, or an operation failed, it was the last one, and the call returns `-1`. -/
def ReadPost (d : Jbod) (ms : Int) (addr len k : Nat) (b : List Byte) (r : Ret) : Prop :=
  r.m.mount_state = ms ∧ r.m.jbod.data = d.data ∧ r.m.jbod.fails = d.fails ∧
  ∃ new, r.m.jbod.log = d.log ++ new ∧ (∀ x ∈ new.dropLast, x.2 = 0) ∧
    ((r.ret = len ∧ (∀ x ∈ new, x.2 = 0) ∧ ∃ out, r.buf = some out ∧ out.length = b.length ∧
        ∀ i, out[i]? = if k ≤ i ∧ i < len then some (d.byteAt (addr + i)) else b[i]?) ∨
     (r.ret = -1 ∧ (∃ x ∈ new, x.2 = -1) ∧ ∃ j, d.fails j = true))

/-- A device none of whose operations is marked to fail. -/
def NeverFails (d : Jbod) : Prop := ∀ j, d.fails j = false

/-- What a run of the write loop started on device `d` leaves behind when every operation
succeeds and the bytes of the request before position `k` were stored already: the call returns
`len`, and the stored bytes are those of `d` except on `[addr + k, addr + len)`, where they are
the bytes of the caller buffer. -/
def WritePost (d : Jbod) (ms : Int) (addr len k : Nat) (b : List Byte) (r : Ret) : Prop :=
  r.ret = len ∧ r.m.mount_state = ms ∧ r.m.jbod.fails = d.fails ∧ r.buf = some b ∧
    ∀ a, r.m.jbod.byteAt a =
      if addr + k ≤ a ∧ a < addr + len then b.getD (a - addr) 0 else d.byteAt a

/-- The device after a seek to `a` and a write of the block `loader` that both succeeded. -/
def Jbod.stored (d : Jbod) (a : Nat) (loader : List Byte) : Jbod :=
  { disk := a / 65536, block := (a % 65536 / 256 + 1) % 256,
    data := fun dk bk off =>
      if dk = a / 65536 ∧ bk = a % 65536 / 256 ∧ off < 256 then loader.getD off 0
      else d.data dk bk off,
    fails := d.fails,
    log := d.log ++ [(seekDiskOp a, 0), (seekBlockOp a, 0), (writeOp, 0)] }

/-- A device for the concrete instances: the byte at disk `dk`, block `bk`, offset `off` is
`(dk + bk + off) mod 256`, no operation is marked to fail, and nothing was received yet. -/
def sampleDevice : Jbod :=
  { disk := 0, block := 0, data := fun dk bk off => (dk + bk + off) % 256,
    fails := fun _ => false, log := [] }

/-- The mounted driver over `sampleDevice`. -/
def sampleMachine : Machine := ⟨1, sampleDevice⟩

/-- Initial content of the arrays declared without a value, for the concrete instances. -/
def sampleJunk : Nat → Byte := fun _ => 170

/-- The returned `int` of a run, when the run has a result. -/
def retOf (x : Except Fault Ret) : Option Int :=
  match x with
  | .ok r => some r.ret
  | .error _ => none

/-- The sample device with its fifth operation (index 4) marked to fail. -/
def sampleDeviceFailingFifth : Jbod :=
  { sampleDevice with fails := fun j => decide (j = 4) }

/-- The code `mdadm_mount` sends. -/
def mountOp : Nat := op_construct 0 0 JBOD_MOUNT 0

/-- The unmounted driver over `sampleDevice`. -/
def sampleUnmounted : Machine := ⟨0, sampleDevice⟩

/-- The code `mdadm_unmount` sends. -/
def unmountOp : Nat := op_construct 0 0 JBOD_UNMOUNT 0

/-- A call of the public surface of the driver. -/
inductive Call where
  | mount
  | unmount
  | read (addr len : Nat) (buf : Option (List Byte))
  | write (addr len : Nat) (buf : Option (List Byte))

/-- The machine after one call.  A read or write that has no result (a fault) leaves no state to
go on from; the machine is then taken as it was before the call. -/
def afterCall (junk : Nat → Byte) (fuel : Nat) (m : Machine) : Call → Machine
  | .mount => (mdadm_mount m).2
  | .unmount => (mdadm_unmount m).2
  | .read addr len buf =>
    match mdadm_read junk fuel m addr len buf with
    | .ok r => r.m
    | .error _ => m
  | .write addr len buf =>
    match mdadm_write junk fuel m addr len buf with
    | .ok r => r.m
    | .error _ => m

/-- The machine after a sequence of calls. -/
def afterCalls (junk : Nat → Byte) (fuel : Nat) (m : Machine) (calls : List Call) : Machine :=
  calls.foldl (afterCall junk fuel) m

/-- The sample device with its first operation (index 0) marked to fail. -/
def sampleDeviceFailingFirst : Jbod :=
  { sampleDevice with fails := fun j => decide (j = 0) }

/-- The sample device with its second operation (index 1) marked to fail. -/
def sampleDeviceFailingSecond : Jbod :=
  { sampleDevice with fails := fun j => decide (j = 1) }

/-- The number of iterations a transfer loop has left when its current address is `cur` and the
request ends at `final`: one per block from the block of `cur` to the block of `final - 1`. -/
def iters (final cur : Nat) : Nat :=
  if cur < final then (final - 1) / 256 - cur / 256 + 1 else 0

/-- The current addresses of the iterations left from `cur`: `cur` itself, then the starts of
the following blocks up to the block of `final - 1`. -/
def cursorsFrom (final cur : Nat) : List Nat :=
  (List.range (iters final cur)).map (fun i => max cur ((cur / 256 + i) * 256))

/-- The log entries of one iteration of the reader at the current address `cur` when its
operations succeed: seek-to-disk, seek-to-block, `READ_BLOCK`. -/
def readGroup (cur : Nat) : List (Nat × Int) :=
  [(seekDiskOp cur, 0), (seekBlockOp cur, 0), (readOp, 0)]

/-- The request `[addr, addr + len)` covers the whole 256-byte block that holds `cur`. -/
abbrev covers (addr len cur : Nat) : Prop :=
  addr ≤ cur / 256 * 256 ∧ cur / 256 * 256 + 256 ≤ addr + len

/-- The log entries of one iteration of the writer at the current address `cur` when its
operations succeed: the seek to `cur`; for a block the request does not cover wholly, the nested
read of the block (seeks to the start of the block and `READ_BLOCK`); the seek to `cur` again and
`WRITE_BLOCK`. -/
def writeGroup (addr len cur : Nat) : List (Nat × Int) :=
  [(seekDiskOp cur, 0), (seekBlockOp cur, 0)] ++
    ((if covers addr len cur then [] else readGroup (cur - cur % 256)) ++
      [(seekDiskOp cur, 0), (seekBlockOp cur, 0), (writeOp, 0)])

/-- Every block transfer of the log `l` is positioned: an entry whose command is `READ_BLOCK` or
`WRITE_BLOCK` has, right before it, a successful seek-to-disk and then a successful
seek-to-block for an address `a` of `[lo, hi)`. -/
def Positioned (lo hi : Nat) (l : List (Nat × Int)) : Prop :=
  ∀ i, (∃ e, l[i]? = some e ∧ (cmdOf e.1 = 4 ∨ cmdOf e.1 = 5)) →
    2 ≤ i ∧ ∃ a, lo ≤ a ∧ a < hi ∧ l[i - 2]? = some (seekDiskOp a, 0) ∧
      l[i - 1]? = some (seekBlockOp a, 0)

/-- The log entries of a seek to `a` that fails, or of a seek to `a` followed by a transfer
`op` that fails. -/
def FailGroup (a : Nat) (op : Nat) (g : List (Nat × Int)) : Prop :=
  g = [(seekDiskOp a, -1)] ∨ g = [(seekDiskOp a, 0), (seekBlockOp a, -1)] ∨
    g = [(seekDiskOp a, 0), (seekBlockOp a, 0), (op, -1)]

/-- The log of a run of the reader whose passes have the current addresses `cur :: rest`, in
this order: for each pass the group `readGroup cur` (seek-to-disk and seek-to-block for `cur`,
then `READ_BLOCK`, all successful) followed by the log of the later passes, or, for the pass
that stops the run, the group cut at its first failing operation, with nothing after it. -/
def ReadTrace : List Nat → List (Nat × Int) → Prop
  | [], l => l = []
  | cur :: rest, l => FailGroup cur readOp l ∨ ∃ l2, l = readGroup cur ++ l2 ∧ ReadTrace rest l2

/-- What the nested read of a pass of the writer at the current address `cur` adds to the log:
nothing when the request covers the whole block of `cur`; otherwise the group of a read at the
start of that block, `cur - cur % 256`, complete or cut at its first failing operation (the
writer goes on either way). -/
def NestedGroup (addr len cur : Nat) (g : List (Nat × Int)) : Prop :=
  (covers addr len cur ∧ g = []) ∨
    (¬ covers addr len cur ∧
      (g = readGroup (cur - cur % 256) ∨ FailGroup (cur - cur % 256) readOp g))

/-- The log of a pass of the writer at the current address `cur` that goes through: the two
seeks for `cur`, the entries of the nested read, the two seeks for `cur` again and then
`WRITE_BLOCK`, the seeks and the write successful. -/
def WritePass (addr len cur : Nat) (g : List (Nat × Int)) : Prop :=
  ∃ nested, NestedGroup addr len cur nested ∧
    g = [(seekDiskOp cur, 0), (seekBlockOp cur, 0)] ++ nested ++
      [(seekDiskOp cur, 0), (seekBlockOp cur, 0), (writeOp, 0)]

/-- The log of a pass of the writer at the current address `cur` that returns `-1`: the first
seek for `cur` cut at its failing operation, or the first seek, the entries of the nested read
and then the second seek for `cur` with `WRITE_BLOCK`, cut at the first failing operation. -/
def WriteStop (addr len cur : Nat) (g : List (Nat × Int)) : Prop :=
  g = [(seekDiskOp cur, -1)] ∨ g = [(seekDiskOp cur, 0), (seekBlockOp cur, -1)] ∨
    ∃ nested h, NestedGroup addr len cur nested ∧ FailGroup cur writeOp h ∧
      g = [(seekDiskOp cur, 0), (seekBlockOp cur, 0)] ++ nested ++ h

/-- The log of a run of the writer whose passes have the current addresses `cur :: rest`, in
this order: for each pass a `WritePass` group for `cur` followed by the log of the later passes,
or, for the pass that stops the run, a `WriteStop` group for `cur`, with nothing after it. -/
def WriteTrace (addr len : Nat) : List Nat → List (Nat × Int) → Prop
  | [], l => l = []
  | cur :: rest, l =>
    WriteStop addr len cur l ∨
      ∃ g l2, WritePass addr len cur g ∧ l = g ++ l2 ∧ WriteTrace addr len rest l2

/-- The case analysis of one iteration of the writer as the specification words it (section 4.5,
cases A to D): the tests of cases C and D are on the remaining length
`finalAddr - currentAddr`, where `write_fill` (the code) tests the original length `len`.
Case A: offset 0 and remaining span below the block size.  Case B: offset 0 and remaining span
at least the block size.  Case C: offset above 0 and offset plus remaining length beyond the
block size.  Case D: offset above 0 and the write fits in the rest of the block; the bytes it
overwrites are the remaining ones. -/
def write_fill_spec (junk : Nat → Byte) (fuel : Nat) (ms : Int) (finalAddr : Int)
    (currentAddr blockOffset bufP : Int) (dev : Jbod) (buf : Option (List Byte)) :
    Except Fault (Int × Jbod × List Byte) :=
  let remaining := finalAddr - currentAddr
  if blockOffset = 0 then
    if remaining < JBOD_BLOCK_SIZE then
      let dataSize := remaining
      match mdadm_read junk fuel ⟨ms, dev⟩ (toU32 currentAddr) (toU32 JBOD_BLOCK_SIZE)
          (some (loaderDecl junk)) with
      | .error e => .error e
      | .ok rr =>
        match memcpy rr.buf 0 buf bufP dataSize with
        | none => .error .outOfBounds
        | some loader => .ok (dataSize, rr.m.jbod, loader)
    else
      let dataSize := JBOD_BLOCK_SIZE
      match memcpy (some (loaderDecl junk)) 0 buf bufP dataSize with
      | none => .error .outOfBounds
      | some loader => .ok (dataSize, dev, loader)
  else
    if blockOffset + remaining > JBOD_BLOCK_SIZE then
      let dataSize := JBOD_BLOCK_SIZE - blockOffset
      match mdadm_read junk fuel ⟨ms, dev⟩ (toU32 (currentAddr - blockOffset))
          (toU32 JBOD_BLOCK_SIZE) (some (loaderDecl junk)) with
      | .error e => .error e
      | .ok rr =>
        match memcpy rr.buf blockOffset buf bufP dataSize with
        | none => .error .outOfBounds
        | some loader => .ok (dataSize, rr.m.jbod, loader)
    else
      let dataSize := remaining
      match mdadm_read junk fuel ⟨ms, dev⟩ (toU32 (currentAddr - blockOffset))
          (toU32 JBOD_BLOCK_SIZE) (some (loaderDecl junk)) with
      | .error e => .error e
      | .ok rr =>
        match memcpy rr.buf blockOffset buf bufP dataSize with
        | none => .error .outOfBounds
        | some loader => .ok (dataSize, rr.m.jbod, loader)

/-- The loop of the writer with the case analysis of the specification, `write_fill_spec`, in
the place of `write_fill`; everything else is as in `write_loop`. -/
def write_loop_spec (junk : Nat → Byte) (fuelR : Nat) (ms : Int) (len : Nat) (opcode : Nat)
    (finalAddr : Int) (buf : Option (List Byte)) :
    Nat → Int → Int → Jbod → Except Fault Ret
  | 0, currentAddr, _, dev =>
    if currentAddr < finalAddr then .error .outOfFuel
    else .ok ⟨toI32 len, ⟨ms, dev⟩, buf⟩
  | fuel + 1, currentAddr, bufP, dev =>
    if currentAddr < finalAddr then
      let s := seek dev currentAddr
      if s.1 = -1 then .ok ⟨-1, ⟨ms, s.2⟩, buf⟩
      else
        match write_fill_spec junk fuelR ms finalAddr currentAddr s.1 bufP s.2 buf with
        | .error e => .error e
        | .ok (dataSize, dev1, loader) =>
          let s2 := seek dev1 currentAddr
          if s2.1 = -1 then .ok ⟨-1, ⟨ms, s2.2⟩, buf⟩
          else
            let w := jbod_operation s2.2 opcode (some loader)
            if w.1 = -1 then .ok ⟨-1, ⟨ms, w.2.1⟩, buf⟩
            else
              write_loop_spec junk fuelR ms len opcode finalAddr buf fuel
                (currentAddr + dataSize) (bufP + dataSize) w.2.1
    else .ok ⟨toI32 len, ⟨ms, dev⟩, buf⟩

/-- The writer with the case analysis of the specification: `mdadm_write` with
`write_loop_spec` in the place of `write_loop`. -/
def mdadm_write_spec (junk : Nat → Byte) (fuel : Nat) (m : Machine) (addr len : Nat)
    (buf : Option (List Byte)) : Except Fault Ret :=
  let body : Except Fault Ret :=
    write_loop_spec junk fuel m.mount_state len (op_construct 0 0 JBOD_WRITE_BLOCK 0)
      (toI32 ((addr + len) % 4294967296)) buf fuel (toI32 addr) 0 m.jbod
  if m.mount_state = 0 then .ok ⟨-1, m, buf⟩
  else if len > 1024 then .ok ⟨-1, m, buf⟩
  else if len = 0 ∧ buf = none then body
  else if (addr + toU32 ((len : Int) - 1)) % 4294967296 > toU32 address_max then
    .ok ⟨-1, m, buf⟩
  else if len ≠ 0 ∧ buf = none then .ok ⟨-1, m, buf⟩
  else body

/-! ## The loops, unfolded by one pass -/

theorem read_loop_zero (junk : Nat → Byte) (ms : Int) (addr len : Nat) (opcode : Nat)
    (finalAddr : Int) (currentAddr dataSize bufP : Int) (dev : Jbod) (buf : Option (List Byte)) :
    read_loop junk ms addr len opcode finalAddr 0 currentAddr dataSize bufP dev buf =
      if currentAddr < finalAddr then .error .outOfFuel
      else .ok ⟨toI32 len, ⟨ms, dev⟩, buf⟩ := by
  rw [read_loop]

/-- One more unit of fuel: the loop of the reader with the body written out. -/
theorem read_loop_succ (junk : Nat → Byte) (ms : Int) (addr len : Nat) (opcode : Nat)
    (finalAddr : Int) (fuel : Nat) (currentAddr dataSize bufP : Int) (dev : Jbod)
    (buf : Option (List Byte)) :
    read_loop junk ms addr len opcode finalAddr (fuel + 1) currentAddr dataSize bufP dev buf =
      if currentAddr < finalAddr then
        let s := seek dev currentAddr
        let blockOffset := s.1
        if blockOffset = -1 then .ok ⟨-1, ⟨ms, s.2⟩, buf⟩
        else
          let r := jbod_operation s.2 opcode (some (loaderDecl junk))
          if r.1 = -1 then .ok ⟨-1, ⟨ms, r.2.1⟩, buf⟩
          else
            let loader := r.2.2
            if toU32 currentAddr = addr then
              if (toU32 blockOffset + len) % 4294967296 ≤ toU32 JBOD_BLOCK_SIZE then
                let dataSize := toI32 len
                match memcpy buf bufP loader blockOffset dataSize with
                | none => .error .outOfBounds
                | some out =>
                  read_loop junk ms addr len opcode finalAddr fuel (currentAddr + dataSize)
                    dataSize bufP r.2.1 (some out)
              else
                let dataSize := JBOD_BLOCK_SIZE - blockOffset
                match memcpy buf bufP loader blockOffset dataSize with
                | none => .error .outOfBounds
                | some out =>
                  read_loop junk ms addr len opcode finalAddr fuel (currentAddr + dataSize)
                    dataSize bufP r.2.1 (some out)
            else if finalAddr - currentAddr ≥ JBOD_BLOCK_SIZE then
              let bufP := bufP + dataSize
              let dataSize := JBOD_BLOCK_SIZE
              match memcpy buf bufP loader 0 dataSize with
              | none => .error .outOfBounds
              | some out =>
                read_loop junk ms addr len opcode finalAddr fuel (currentAddr + dataSize)
                  dataSize bufP r.2.1 (some out)
            else
              let bufP := bufP + dataSize
              let dataSize := finalAddr - currentAddr
              match memcpy buf bufP loader 0 dataSize with
              | none => .error .outOfBounds
              | some out =>
                read_loop junk ms addr len opcode finalAddr fuel (currentAddr + dataSize)
                  dataSize bufP r.2.1 (some out)
      else .ok ⟨toI32 len, ⟨ms, dev⟩, buf⟩ := by
  rw [read_loop]
  unfold read_body
  dsimp only
  split_ifs <;> first | rfl | (generalize memcpy _ _ _ _ _ = q; cases q <;> rfl)

theorem write_loop_zero (junk : Nat → Byte) (fuelR : Nat) (ms : Int) (len : Nat) (opcode : Nat)
    (finalAddr : Int) (buf : Option (List Byte)) (currentAddr bufP : Int) (dev : Jbod) :
    write_loop junk fuelR ms len opcode finalAddr buf 0 currentAddr bufP dev =
      if currentAddr < finalAddr then .error .outOfFuel
      else .ok ⟨toI32 len, ⟨ms, dev⟩, buf⟩ := by
  rw [write_loop]

/-- One more unit of fuel: the loop of the writer with the body written out. -/
theorem write_loop_succ (junk : Nat → Byte) (fuelR : Nat) (ms : Int) (len : Nat) (opcode : Nat)
    (finalAddr : Int) (buf : Option (List Byte)) (fuel : Nat) (currentAddr bufP : Int)
    (dev : Jbod) :
    write_loop junk fuelR ms len opcode finalAddr buf (fuel + 1) currentAddr bufP dev =
      if currentAddr < finalAddr then
        let s := seek dev currentAddr
        if s.1 = -1 then .ok ⟨-1, ⟨ms, s.2⟩, buf⟩
        else
          match write_fill junk fuelR ms len finalAddr currentAddr s.1 bufP s.2 buf with
          | .error e => .error e
          | .ok (dataSize, dev1, loader) =>
            let s2 := seek dev1 currentAddr
            if s2.1 = -1 then .ok ⟨-1, ⟨ms, s2.2⟩, buf⟩
            else
              let w := jbod_operation s2.2 opcode (some loader)
              if w.1 = -1 then .ok ⟨-1, ⟨ms, w.2.1⟩, buf⟩
              else
                write_loop junk fuelR ms len opcode finalAddr buf fuel (currentAddr + dataSize)
                  (bufP + dataSize) w.2.1
      else .ok ⟨toI32 len, ⟨ms, dev⟩, buf⟩ := by
  rw [write_loop]
  unfold write_body
  dsimp only
  split_ifs
  · rfl
  · generalize write_fill _ _ _ _ _ _ _ _ _ _ = q
    rcases q with e | ⟨ds, dev1, loader⟩
    · rfl
    · dsimp only
      split_ifs <;> rfl
  · rfl

/-! ## Machine integers and opcodes: basic facts -/

theorem toU32_ofNat (n : Nat) (h : n < 4294967296) : toU32 (n : Int) = n := by
  unfold toU32; omega

theorem toI32_small (n : Nat) (h : n < 2147483648) : toI32 n = (n : Int) := by
  unfold toI32; split <;> omega

theorem op_construct_fields (d b c r : Nat) (hd : d < 16) (hb : b < 256) (hc : c < 64)
    (hr : r < 16384) :
    op_construct d b c r = d * 268435456 + b * 1048576 + c * 16384 + r := by
  unfold op_construct
  have e1 : toU32 ((d : Int) * 268435456) = 2 ^ 28 * d := by unfold toU32; omega
  have e2 : toU32 ((b : Int) * 1048576) = 2 ^ 20 * b := by unfold toU32; omega
  have e3 : toU32 ((c : Int) * 16384) = 2 ^ 14 * c := by unfold toU32; omega
  have e4 : toU32 (r : Int) = r := by unfold toU32; omega
  rw [e1, e2, e3, e4]
  have h1 : 2 ^ 28 * d ||| 2 ^ 20 * b = 2 ^ 20 * (256 * d + b) := by
    rw [← Nat.mul_add_lt_is_or (by omega) d]; omega
  have h2 : 2 ^ 20 * (256 * d + b) ||| 2 ^ 14 * c = 2 ^ 14 * (64 * (256 * d + b) + c) := by
    have : 2 ^ 20 * (256 * d + b) = 2 ^ 20 * (256 * d + b) := rfl
    rw [← Nat.mul_add_lt_is_or (by omega) (256 * d + b)]; omega
  rw [h1, h2, ← Nat.mul_add_lt_is_or (by omega)]; omega

/-! ## Copies -/

theorem memcpy_some (a b : List Byte) (d s n : Nat) (hd : d + n ≤ a.length)
    (hs : s + n ≤ b.length) :
    ∃ res, memcpy (some a) (d : Int) (some b) (s : Int) (n : Int) = some res ∧
      res.length = a.length ∧
      ∀ i, res[i]? = if d ≤ i ∧ i < d + n then b[s + (i - d)]? else a[i]? := by
  refine ⟨a.take d ++ ((b.drop s).take n ++ a.drop (d + n)), ?_, ?_, ?_⟩
  · unfold memcpy
    have hc : (0 : Int) ≤ d ∧ (0 : Int) ≤ s ∧ (0 : Int) ≤ n ∧ (d : Int) + n ≤ a.length ∧
        (s : Int) + n ≤ b.length := by omega
    simp only [hc, and_self, if_true, Int.toNat_ofNat]
  · simp only [List.length_append, List.length_take, List.length_drop]; omega
  · intro i
    by_cases h1 : i < d
    · rw [List.getElem?_append_left (by simp only [List.length_take]; omega)]
      rw [List.getElem?_take_of_lt h1]
      rw [if_neg (by omega)]
    · rw [List.getElem?_append_right (by simp only [List.length_take]; omega)]
      have hl : (List.take d a).length = d := by simp only [List.length_take]; omega
      rw [hl]
      by_cases h2 : i < d + n
      · rw [List.getElem?_append_left (by simp only [List.length_take, List.length_drop]; omega)]
        rw [List.getElem?_take_of_lt (by omega), List.getElem?_drop]
        rw [if_pos (by omega)]
      · rw [List.getElem?_append_right (by simp only [List.length_take, List.length_drop]; omega)]
        have hl2 : (List.take n (List.drop s b)).length = n := by
          simp only [List.length_take, List.length_drop]; omega
        rw [hl2, List.getElem?_drop]
        rw [if_neg (by omega)]
        congr 1; omega

/-! ## The fields of an operation code -/

theorem cmdOf_fields (d b c r : Nat) (hc : c < 64) (hr : r < 16384) :
    cmdOf (d * 268435456 + b * 1048576 + c * 16384 + r) = c := by
  unfold cmdOf; rw [Nat.shiftRight_eq_div_pow]; omega

theorem diskOf_fields (d b c r : Nat) (hd : d < 16) (hb : b < 256) (hc : c < 64)
    (hr : r < 16384) : diskOf (d * 268435456 + b * 1048576 + c * 16384 + r) = d := by
  unfold diskOf; rw [Nat.shiftRight_eq_div_pow]; omega

theorem blockOf_fields (d b c r : Nat) (hb : b < 256) (hc : c < 64) (hr : r < 16384) :
    blockOf (d * 268435456 + b * 1048576 + c * 16384 + r) = b := by
  unfold blockOf; rw [Nat.shiftRight_eq_div_pow]; omega

theorem tdiv_ofNat (a b : Nat) : Int.tdiv (a : Int) (b : Int) = ((a / b : Nat) : Int) := by
  rw [Int.tdiv_eq_ediv (by omega) (by omega)]; norm_cast

theorem tmod_ofNat (a b : Nat) : Int.tmod (a : Int) (b : Int) = ((a % b : Nat) : Int) := by
  rw [Int.tmod_eq_emod (by omega) (by omega)]; norm_cast

theorem seekDiskOp_eq (a : Nat) (ha : a < 1048576) :
    seekDiskOp (a : Int) = (a / 65536) * 268435456 + 0 * 1048576 + 2 * 16384 + 0 := by
  unfold seekDiskOp JBOD_DISK_SIZE JBOD_SEEK_TO_DISK
  have h := tdiv_ofNat a 65536
  simp only [Nat.cast_ofNat] at h
  rw [h]
  exact op_construct_fields (a / 65536) 0 2 0 (by omega) (by omega) (by omega) (by omega)

theorem seekBlockOp_eq (a : Nat) :
    seekBlockOp (a : Int) = 0 * 268435456 + (a % 65536 / 256) * 1048576 + 3 * 16384 + 0 := by
  unfold seekBlockOp JBOD_DISK_SIZE JBOD_BLOCK_SIZE JBOD_SEEK_TO_BLOCK
  have h := tmod_ofNat a 65536
  simp only [Nat.cast_ofNat] at h
  have h2 := tdiv_ofNat (a % 65536) 256
  simp only [Nat.cast_ofNat] at h2
  rw [h, h2]
  exact op_construct_fields 0 (a % 65536 / 256) 3 0 (by omega) (by omega) (by omega) (by omega)

theorem readOp_eq : readOp = 65536 := by decide
theorem writeOp_eq : writeOp = 81920 := by decide

/-! ## The device operations and `seek` -/

theorem jbod_operation_failing (d : Jbod) (op : Nat) (buf : Option (List Byte))
    (h : d.fails d.log.length = true) :
    jbod_operation d op buf = (-1, d.record op (-1), buf) := by
  simp [jbod_operation, h]

theorem jbod_operation_seek_disk (d : Jbod) (op : Nat) (buf : Option (List Byte))
    (h : d.fails d.log.length = false) (hc : cmdOf op = 2) :
    jbod_operation d op buf = (0, { d.record op 0 with disk := diskOf op }, buf) := by
  simp [jbod_operation, h, hc]

theorem jbod_operation_seek_block (d : Jbod) (op : Nat) (buf : Option (List Byte))
    (h : d.fails d.log.length = false) (hc : cmdOf op = 3) :
    jbod_operation d op buf = (0, { d.record op 0 with block := blockOf op }, buf) := by
  simp [jbod_operation, h, hc]

theorem jbod_operation_read (d : Jbod) (b : List Byte)
    (h : d.fails d.log.length = false) :
    jbod_operation d readOp (some b) =
      (0, { d.record readOp 0 with block := (d.block + 1) % 256 },
        some (d.current ++ b.drop 256)) := by
  have hc : cmdOf readOp = 4 := by decide
  simp [jbod_operation, h, hc]

theorem jbod_operation_write (d : Jbod) (b : List Byte)
    (h : d.fails d.log.length = false) :
    jbod_operation d writeOp (some b) =
      (0, { d.record writeOp 0 with
          block := (d.block + 1) % 256
          data := fun dk bk off =>
            if dk = d.disk ∧ bk = d.block ∧ off < 256 then b.getD off 0 else d.data dk bk off },
        some b) := by
  have hc : cmdOf writeOp = 5 := by decide
  simp [jbod_operation, h, hc]

theorem cmdOf_seekDiskOp (a : Nat) (ha : a < 1048576) : cmdOf (seekDiskOp a) = 2 := by
  rw [seekDiskOp_eq a ha]; exact cmdOf_fields _ 0 2 0 (by omega) (by omega)

theorem diskOf_seekDiskOp (a : Nat) (ha : a < 1048576) : diskOf (seekDiskOp a) = a / 65536 := by
  rw [seekDiskOp_eq a ha]
  exact diskOf_fields _ 0 2 0 (by omega) (by omega) (by omega) (by omega)

theorem cmdOf_seekBlockOp (a : Nat) : cmdOf (seekBlockOp a) = 3 := by
  rw [seekBlockOp_eq a]; exact cmdOf_fields 0 _ 3 0 (by omega) (by omega)

theorem blockOf_seekBlockOp (a : Nat) : blockOf (seekBlockOp a) = a % 65536 / 256 := by
  rw [seekBlockOp_eq a]; exact blockOf_fields 0 _ 3 0 (by omega) (by omega) (by omega)

theorem seek_unfold (d : Jbod) (a : Int) :
    seek d a =
      if (jbod_operation d (seekDiskOp a) none).1 = -1 then
        (-1, (jbod_operation d (seekDiskOp a) none).2.1)
      else if (jbod_operation (jbod_operation d (seekDiskOp a) none).2.1 (seekBlockOp a) none).1
          = -1 then
        (-1, (jbod_operation (jbod_operation d (seekDiskOp a) none).2.1 (seekBlockOp a) none).2.1)
      else (Int.tmod (Int.tmod a JBOD_DISK_SIZE) JBOD_BLOCK_SIZE,
        (jbod_operation (jbod_operation d (seekDiskOp a) none).2.1 (seekBlockOp a) none).2.1) :=
  rfl

/-- A seek whose first operation fails. -/
theorem seek_fail_disk (d : Jbod) (a : Int) (h : d.fails d.log.length = true) :
    seek d a = (-1, d.record (seekDiskOp a) (-1)) := by
  rw [seek_unfold, jbod_operation_failing d _ _ h]; simp

/-- A seek whose second operation fails. -/
theorem seek_fail_block (d : Jbod) (a : Nat) (ha : a < 1048576)
    (h0 : d.fails d.log.length = false) (h1 : d.fails (d.log.length + 1) = true) :
    seek d a = (-1, { d with
      disk := a / 65536
      log := d.log ++ [(seekDiskOp a, 0), (seekBlockOp a, -1)] }) := by
  rw [seek_unfold, jbod_operation_seek_disk d _ _ h0 (cmdOf_seekDiskOp a ha)]
  rw [jbod_operation_failing _ _ _ (by simpa [Jbod.record] using h1)]
  simp [Jbod.record, diskOf_seekDiskOp a ha]

/-- A seek that succeeds. -/
theorem seek_ok (d : Jbod) (a : Nat) (ha : a < 1048576)
    (h0 : d.fails d.log.length = false) (h1 : d.fails (d.log.length + 1) = false) :
    seek d a = (((a % 256 : Nat) : Int), d.sought a) := by
  rw [seek_unfold, jbod_operation_seek_disk d _ _ h0 (cmdOf_seekDiskOp a ha)]
  rw [jbod_operation_seek_block _ _ _ (by simpa [Jbod.record] using h1) (cmdOf_seekBlockOp a)]
  have hm : Int.tmod (Int.tmod (a : Int) JBOD_DISK_SIZE) JBOD_BLOCK_SIZE = ((a % 256 : Nat) : Int) := by
    unfold JBOD_DISK_SIZE JBOD_BLOCK_SIZE
    have h := tmod_ofNat a 65536
    simp only [Nat.cast_ofNat] at h
    have h2 := tmod_ofNat (a % 65536) 256
    simp only [Nat.cast_ofNat] at h2
    rw [h, h2]; congr 1; omega
  simp [Jbod.record, Jbod.sought, diskOf_seekDiskOp a ha, blockOf_seekBlockOp a, hm]

/-! ## Positioning the device and reading a block -/

theorem loaderDecl_length (junk : Nat → Byte) : (loaderDecl junk).length = 256 := by
  simp [loaderDecl]

theorem blockAt_length (d : Jbod) (a : Nat) : (d.blockAt a).length = 256 := by
  simp [Jbod.blockAt]

theorem blockAt_getElem? (d : Jbod) (a j : Nat) (hj : j < 256) (ha : a % 256 = 0) :
    (d.blockAt a)[j]? = some (d.byteAt (a + j)) := by
  unfold Jbod.blockAt Jbod.byteAt
  rw [List.getElem?_map, List.getElem?_range hj]
  simp only [Option.map_some']
  have e1 : (a + j) / 65536 = a / 65536 := by omega
  have e2 : (a + j) % 65536 / 256 = a % 65536 / 256 := by omega
  have e3 : (a + j) % 65536 % 256 = j := by omega
  rw [e1, e2, e3]

theorem blockAt_congr (d : Jbod) (a a' : Nat) (h : a / 256 = a' / 256) :
    d.blockAt a = d.blockAt a' := by
  unfold Jbod.blockAt
  have e1 : a / 65536 = a' / 65536 := by omega
  have e2 : a % 65536 / 256 = a' % 65536 / 256 := by omega
  rw [e1, e2]

/-- Positioning the device on `a` and reading the block there: the three ways it can fail. -/
theorem fetch_cases (junk : Nat → Byte) (d : Jbod) (a : Nat) (ha : a < 1048576) :
    ((seek d a).1 = -1 ∧ FailedFrom d (seek d a).2) ∨
    ((seek d a).1 = ((a % 256 : Nat) : Int) ∧
      (jbod_operation (seek d a).2 readOp (some (loaderDecl junk))).1 = -1 ∧
      FailedFrom d (jbod_operation (seek d a).2 readOp (some (loaderDecl junk))).2.1) ∨
    ((seek d a).1 = ((a % 256 : Nat) : Int) ∧
      jbod_operation (seek d a).2 readOp (some (loaderDecl junk)) =
        (0, d.fetched a, some (d.blockAt a))) := by
  by_cases h0 : d.fails d.log.length = true
  · left
    rw [seek_fail_disk d a h0]
    refine ⟨rfl, rfl, rfl, [(seekDiskOp a, -1)], rfl, ?_, ?_, _, h0⟩ <;> simp
  have h0f : d.fails d.log.length = false := by simpa using h0
  by_cases h1 : d.fails (d.log.length + 1) = true
  · left
    rw [seek_fail_block d a ha h0f h1]
    refine ⟨rfl, rfl, rfl, [(seekDiskOp a, 0), (seekBlockOp a, -1)], rfl, ?_, ?_, _, h1⟩ <;> simp
  have h1f : d.fails (d.log.length + 1) = false := by simpa using h1
  right
  rw [seek_ok d a ha h0f h1f]
  by_cases h2 : d.fails (d.log.length + 2) = true
  · left
    rw [jbod_operation_failing _ _ _ (by simpa [Jbod.sought] using h2)]
    refine ⟨rfl, rfl, rfl, rfl, [(seekDiskOp a, 0), (seekBlockOp a, 0), (readOp, -1)], ?_, ?_, ?_,
      _, h2⟩ <;> simp [Jbod.record, Jbod.sought]
  have h2f : d.fails (d.log.length + 2) = false := by simpa using h2
  right
  rw [jbod_operation_read _ _ (by simpa [Jbod.sought] using h2f)]
  refine ⟨rfl, ?_⟩
  have hl : List.drop 256 (loaderDecl junk) = [] :=
    List.drop_eq_nil_of_le (by rw [loaderDecl_length])
  simp [Jbod.record, Jbod.sought, Jbod.fetched, Jbod.current, Jbod.blockAt, hl]

/-! ## The read loop -/

theorem memcpy_int (a b : List Byte) (d s n : Int) (dn sn nn : Nat) (hd : d = dn) (hs : s = sn)
    (hn : n = nn) (hda : dn + nn ≤ a.length) (hsb : sn + nn ≤ b.length) :
    ∃ res, memcpy (some a) d (some b) s n = some res ∧
      res.length = a.length ∧
      ∀ i, res[i]? = if dn ≤ i ∧ i < dn + nn then b[sn + (i - dn)]? else a[i]? := by
  subst hd hs hn
  exact memcpy_some a b dn sn nn hda hsb

theorem dropLast_append_ok (l1 l2 : List (Nat × Int)) (h1 : ∀ x ∈ l1, x.2 = 0)
    (h2 : ∀ x ∈ l2.dropLast, x.2 = 0) : ∀ x ∈ (l1 ++ l2).dropLast, x.2 = 0 := by
  intro x hx
  by_cases hn : l2 = []
  · subst hn
    rw [List.append_nil] at hx
    exact h1 x (List.mem_of_mem_dropLast hx)
  · rw [List.dropLast_append_of_ne_nil _ hn, List.mem_append] at hx
    rcases hx with hx | hx
    · exact h1 x hx
    · exact h2 x hx

theorem readPost_done (d : Jbod) (ms : Int) (addr len : Nat) (b : List Byte)
    (hl : len < 2147483648) :
    ReadPost d ms addr len len b ⟨toI32 len, ⟨ms, d⟩, some b⟩ := by
  refine ⟨rfl, rfl, rfl, [], by simp, by simp, Or.inl ⟨toI32_small len hl, by simp, b, rfl, rfl, ?_⟩⟩
  intro i
  rw [if_neg (by omega)]

theorem readPost_of_failed (d e : Jbod) (ms : Int) (addr len k : Nat) (b : List Byte)
    (buf : Option (List Byte)) (h : FailedFrom d e) :
    ReadPost d ms addr len k b ⟨-1, ⟨ms, e⟩, buf⟩ := by
  obtain ⟨h1, h2, new, h3, h4, h5, h6⟩ := h
  exact ⟨rfl, h1, h2, new, h3, h4, Or.inr ⟨rfl, h5, h6⟩⟩

theorem readPost_step (d : Jbod) (ms : Int) (addr len k k2 a : Nat) (b b2 : List Byte) (r : Ret)
    (hk : k ≤ k2) (hk2 : k2 ≤ len) (hlen : b2.length = b.length)
    (hb2 : ∀ i, b2[i]? = if k ≤ i ∧ i < k2 then some (d.byteAt (addr + i)) else b[i]?)
    (h : ReadPost (d.fetched a) ms addr len k2 b2 r) : ReadPost d ms addr len k b r := by
  obtain ⟨h1, h2, h3, new, h4, h5, h6⟩ := h
  refine ⟨h1, h2, h3, [(seekDiskOp a, 0), (seekBlockOp a, 0), (readOp, 0)] ++ new, ?_, ?_, ?_⟩
  · rw [h4]; simp [Jbod.fetched]
  · exact dropLast_append_ok _ _ (by simp) h5
  · rcases h6 with ⟨e1, e2, out, e3, e4, e5⟩ | ⟨e1, ⟨x, hx, hx2⟩, e3⟩
    · refine Or.inl ⟨e1, ?_, out, e3, e4.trans hlen, ?_⟩
      · intro x hx
        rw [List.mem_append] at hx
        rcases hx with hx | hx
        · simp at hx; rcases hx with hx | hx | hx <;> simp [hx]
        · exact e2 x hx
      · intro i
        rw [e5 i, hb2 i]
        have hbyte : (d.fetched a).byteAt (addr + i) = d.byteAt (addr + i) := rfl
        rw [hbyte]
        by_cases c1 : k2 ≤ i ∧ i < len
        · rw [if_pos c1, if_pos (by omega)]
        · rw [if_neg c1]
          by_cases c2 : k ≤ i ∧ i < k2
          · rw [if_pos c2]
            by_cases c3 : k ≤ i ∧ i < len
            · rw [if_pos c3]
            · rw [if_neg c3]
              omega
          · rw [if_neg c2, if_neg (by omega)]
    · exact Or.inr ⟨e1, ⟨x, List.mem_append_right _ hx, hx2⟩, e3⟩

theorem read_loop_tail (junk : Nat → Byte) (ms : Int) (addr len : Nat)
    (hrange : addr + len ≤ 1048576) :
    ∀ (fuel k : Nat) (dataSize bufP : Int) (d : Jbod) (b : List Byte),
      0 < k → k ≤ len → ((addr + k) % 256 = 0 ∨ k = len) → bufP + dataSize = (k : Int) →
      len ≤ b.length → len - k ≤ 256 * fuel →
      ∃ r, read_loop junk ms addr len readOp ((addr + len : Nat) : Int) fuel
          ((addr + k : Nat) : Int) dataSize bufP d (some b) = .ok r ∧
        ReadPost d ms addr len k b r := by
  intro fuel
  induction fuel with
  | zero =>
    intro k dataSize bufP d b hk hkl hal hbp hb hf
    have hkk : k = len := by omega
    subst hkk
    exact ⟨_, by simp [read_loop_zero], readPost_done d ms addr k b (by omega)⟩
  | succ fuel ih =>
    intro k dataSize bufP d b hk hkl hal hbp hb hf
    by_cases hend : k = len
    · subst hend
      exact ⟨_, by simp [read_loop_succ], readPost_done d ms addr k b (by omega)⟩
    have hal2 : (addr + k) % 256 = 0 := by omega
    have hcond : ((addr + k : Nat) : Int) < ((addr + len : Nat) : Int) := by omega
    have hoff : ¬ (((addr + k) % 256 : Nat) : Int) = -1 := by omega
    have hfirst : ¬ toU32 ((addr + k : Nat) : Int) = addr := by
      rw [toU32_ofNat _ (by omega)]; omega
    rw [read_loop_succ, if_pos hcond]
    rcases fetch_cases junk d (addr + k) (by omega) with ⟨h1, hF⟩ | ⟨h1, h2, hF⟩ | ⟨h1, h2⟩
    · exact ⟨_, by simp only [h1, if_true], readPost_of_failed d _ ms addr len k b (some b) hF⟩
    · exact ⟨_, by simp only [h1, hoff, if_false, h2, if_true],
        readPost_of_failed d _ ms addr len k b (some b) hF⟩
    · simp only [h1, hoff, if_false, h2, hfirst, JBOD_BLOCK_SIZE]
      rw [if_neg (by decide)]
      by_cases hfull : ((addr + len : Nat) : Int) - ((addr + k : Nat) : Int) ≥ 256
      · rw [if_pos hfull]
        obtain ⟨out, hm, hlen, hget⟩ := memcpy_int b (d.blockAt (addr + k)) (bufP + dataSize) 0 256
          k 0 256 hbp rfl rfl (by omega) (by rw [blockAt_length])
        have hcur : ((addr + k : Nat) : Int) + 256 = ((addr + (k + 256) : Nat) : Int) := by
          push_cast; ring
        simp only [hm, hcur]
        obtain ⟨r, hr, hpost⟩ := ih (k + 256) 256 (bufP + dataSize) (d.fetched (addr + k)) out
          (by omega) (by omega) (by omega) (by rw [hbp]; push_cast; ring) (by omega) (by omega)
        refine ⟨r, hr, readPost_step d ms addr len k (k + 256) (addr + k) b out r (by omega)
          (by omega) hlen ?_ hpost⟩
        intro i
        rw [hget i]
        by_cases c : k ≤ i ∧ i < k + 256
        · rw [if_pos c, if_pos c, blockAt_getElem? d (addr + k) _ (by omega) hal2]
          congr 2; omega
        · rw [if_neg c, if_neg c]
      · rw [if_neg hfull]
        obtain ⟨out, hm, hlen, hget⟩ := memcpy_int b (d.blockAt (addr + k)) (bufP + dataSize) 0
          (((addr + len : Nat) : Int) - ((addr + k : Nat) : Int))
          k 0 (len - k) hbp rfl (by omega) (by omega) (by rw [blockAt_length]; omega)
        have hcur : ((addr + k : Nat) : Int) + (((addr + len : Nat) : Int) - ((addr + k : Nat) : Int))
            = ((addr + len : Nat) : Int) := by ring
        simp only [hm, hcur]
        obtain ⟨r, hr, hpost⟩ := ih len (((addr + len : Nat) : Int) - ((addr + k : Nat) : Int))
          (bufP + dataSize) (d.fetched (addr + k)) out
          (by omega) (by omega) (Or.inr rfl) (by omega) (by omega) (by omega)
        refine ⟨r, hr, readPost_step d ms addr len k len (addr + k) b out r (by omega)
          (by omega) hlen ?_ hpost⟩
        intro i
        rw [hget i]
        by_cases c : k ≤ i ∧ i < len
        · rw [if_pos (by omega), if_pos c, blockAt_getElem? d (addr + k) _ (by omega) hal2]
          congr 2; omega
        · rw [if_neg (by omega), if_neg c]

theorem blockAt_getElem?_off (d : Jbod) (a j : Nat) (hj : j < 256) :
    (d.blockAt a)[j]? = some (d.byteAt (a - a % 256 + j)) := by
  rw [blockAt_congr d a (a - a % 256) (by omega)]
  exact blockAt_getElem? d (a - a % 256) j hj (by omega)

theorem read_loop_first (junk : Nat → Byte) (ms : Int) (addr len : Nat) (h1 : 1 ≤ len)
    (h2 : len ≤ 1024) (hrange : addr + len ≤ 1048576) (fuel : Nat) (hfuel : 5 ≤ fuel)
    (d : Jbod) (b : List Byte) (hb : len ≤ b.length) :
    ∃ r, read_loop junk ms addr len readOp ((addr + len : Nat) : Int) fuel (addr : Int) 0 0 d
        (some b) = .ok r ∧ ReadPost d ms addr len 0 b r := by
  obtain ⟨fuel, rfl⟩ : ∃ f, fuel = f + 1 := ⟨fuel - 1, by omega⟩
  have hcond : (addr : Int) < ((addr + len : Nat) : Int) := by omega
  have hoff : ¬ ((addr % 256 : Nat) : Int) = -1 := by omega
  have hfirst : toU32 (addr : Int) = addr := toU32_ofNat _ (by omega)
  have hu : toU32 ((addr % 256 : Nat) : Int) = addr % 256 := toU32_ofNat _ (by omega)
  have h256 : toU32 256 = 256 := by decide
  have hlenI : toI32 len = (len : Int) := toI32_small len (by omega)
  rw [read_loop_succ, if_pos hcond]
  rcases fetch_cases junk d addr (by omega) with ⟨e1, hF⟩ | ⟨e1, e2, hF⟩ | ⟨e1, e2⟩
  · exact ⟨_, by simp only [e1, if_true], readPost_of_failed d _ ms addr len 0 b (some b) hF⟩
  · exact ⟨_, by simp only [e1, hoff, if_false, e2, if_true],
      readPost_of_failed d _ ms addr len 0 b (some b) hF⟩
  · simp only [e1, hoff, if_false, e2, hfirst, JBOD_BLOCK_SIZE, hu, h256, hlenI]
    rw [if_neg (by decide), if_pos trivial]
    by_cases hfit : (addr % 256 + len) % 4294967296 ≤ 256
    · rw [if_pos hfit]
      have hfit2 : addr % 256 + len ≤ 256 := by omega
      obtain ⟨out, hm, hlen, hget⟩ := memcpy_int b (d.blockAt addr) 0 ((addr % 256 : Nat) : Int)
        (len : Int) 0 (addr % 256) len rfl rfl rfl (by omega) (by rw [blockAt_length]; omega)
      have hcur : (addr : Int) + (len : Int) = ((addr + len : Nat) : Int) := by push_cast; ring
      simp only [hm, hcur]
      obtain ⟨r, hr, hpost⟩ := read_loop_tail junk ms addr len hrange fuel len (len : Int) 0
        (d.fetched addr) out (by omega) (by omega) (Or.inr rfl) (by omega) (by omega) (by omega)
      refine ⟨r, hr, readPost_step d ms addr len 0 len addr b out r (by omega)
        (by omega) hlen ?_ hpost⟩
      intro i
      rw [hget i]
      by_cases c : 0 ≤ i ∧ i < len
      · rw [if_pos (by omega), if_pos c, blockAt_getElem?_off d addr _ (by omega)]
        congr 2; omega
      · rw [if_neg (by omega), if_neg c]
    · rw [if_neg hfit]
      have hfit2 : 256 < addr % 256 + len := by omega
      obtain ⟨out, hm, hlen, hget⟩ := memcpy_int b (d.blockAt addr) 0 ((addr % 256 : Nat) : Int)
        (256 - ((addr % 256 : Nat) : Int)) 0 (addr % 256) (256 - addr % 256) rfl rfl (by omega)
        (by omega) (by rw [blockAt_length]; omega)
      have hcur : (addr : Int) + (256 - ((addr % 256 : Nat) : Int))
          = ((addr + (256 - addr % 256) : Nat) : Int) := by omega
      simp only [hm, hcur]
      obtain ⟨r, hr, hpost⟩ := read_loop_tail junk ms addr len hrange fuel (256 - addr % 256)
        (256 - ((addr % 256 : Nat) : Int)) 0
        (d.fetched addr) out (by omega) (by omega) (Or.inl (by omega)) (by omega) (by omega)
        (by omega)
      refine ⟨r, hr, readPost_step d ms addr len 0 (256 - addr % 256) addr b out r (by omega)
        (by omega) hlen ?_ hpost⟩
      intro i
      rw [hget i]
      by_cases c : 0 ≤ i ∧ i < 256 - addr % 256
      · rw [if_pos (by omega), if_pos c, blockAt_getElem?_off d addr _ (by omega)]
        congr 2; omega
      · rw [if_neg (by omega), if_neg c]

/-- The reader on a valid request: the checks pass and the loop runs to its end. -/
theorem mdadm_read_valid (junk : Nat → Byte) (fuel : Nat) (hfuel : 5 ≤ fuel) (m : Machine)
    (addr len : Nat) (b : List Byte) (hm : m.mount_state ≠ 0) (h1 : 1 ≤ len) (h2 : len ≤ 1024)
    (hrange : addr + len ≤ 1048576) (hb : len ≤ b.length) :
    ∃ r, mdadm_read junk fuel m addr len (some b) = .ok r ∧
      ReadPost m.jbod m.mount_state addr len 0 b r := by
  have hmax : toU32 address_max = 1048575 := by decide
  have hl1 : toU32 ((len : Int) - 1) = len - 1 := by unfold toU32; omega
  have hchk : ¬ (addr + (len - 1)) % 4294967296 > 1048575 := by omega
  have hfin : toI32 ((addr + len) % 4294967296) = ((addr + len : Nat) : Int) := by
    rw [Nat.mod_eq_of_lt (by omega)]; exact toI32_small _ (by omega)
  have hcur : toI32 addr = (addr : Int) := toI32_small _ (by omega)
  unfold mdadm_read
  simp only [hmax, hl1, hfin, hcur]
  rw [if_neg hm, if_neg (by omega), if_neg (by omega), if_neg hchk, if_neg (by simp)]
  exact read_loop_first junk m.mount_state addr len h1 h2 hrange fuel hfuel m.jbod b hb

/-! ## The reader and the writer on a device that never fails -/

/-- The reader on a valid request over a device that never fails. -/
theorem mdadm_read_ok (junk : Nat → Byte) (fuel : Nat) (hfuel : 5 ≤ fuel) (m : Machine)
    (addr len : Nat) (b : List Byte) (hm : m.mount_state ≠ 0) (h1 : 1 ≤ len) (h2 : len ≤ 1024)
    (hrange : addr + len ≤ 1048576) (hb : len ≤ b.length) (hnf : NeverFails m.jbod) :
    ∃ r out, mdadm_read junk fuel m addr len (some b) = .ok r ∧ r.ret = len ∧
      r.m.mount_state = m.mount_state ∧ r.m.jbod.data = m.jbod.data ∧
      r.m.jbod.fails = m.jbod.fails ∧ r.buf = some out ∧ out.length = b.length ∧
      ∀ i, out[i]? = if i < len then some (m.jbod.byteAt (addr + i)) else b[i]? := by
  obtain ⟨r, hr, h3, h4, h5, new, _, _, h8⟩ :=
    mdadm_read_valid junk fuel hfuel m addr len b hm h1 h2 hrange hb
  rcases h8 with ⟨e1, _, out, e3, e4, e5⟩ | ⟨_, _, j, hj⟩
  · refine ⟨r, out, hr, e1, h3, h4, h5, e3, e4, ?_⟩
    intro i
    rw [e5 i]
    by_cases c : i < len
    · rw [if_pos (by omega), if_pos c]
    · rw [if_neg (by omega), if_neg c]
  · rw [hnf j] at hj; exact absurd hj (by decide)

/-- The case analysis of one iteration of the writer on a device that never fails: the number of
bytes taken and the content of `loader`. -/
theorem write_fill_ok (junk : Nat → Byte) (fuel : Nat) (hfuel : 5 ≤ fuel) (ms : Int)
    (hms : ms ≠ 0) (addr len k : Nat) (d : Jbod) (b : List Byte) (hnf : NeverFails d)
    (hk : k < len) (h2 : len ≤ 1024) (hrange : addr + len ≤ 1048576)
    (hal : (addr + k) % 256 = 0 ∨ k = 0) (hb : len ≤ b.length) :
    ∃ dev1 loader, write_fill junk fuel ms len ((addr + len : Nat) : Int) ((addr + k : Nat) : Int)
        (((addr + k) % 256 : Nat) : Int) (k : Int) d (some b) =
          .ok (((min (256 - (addr + k) % 256) (len - k) : Nat) : Int), dev1, loader) ∧
      dev1.data = d.data ∧ dev1.fails = d.fails ∧ loader.length = 256 ∧
      ∀ j, j < 256 → loader[j]? =
        if (addr + k) % 256 ≤ j ∧ j < (addr + k) % 256 + min (256 - (addr + k) % 256) (len - k)
        then b[k + (j - (addr + k) % 256)]?
        else some (d.byteAt (addr + k - (addr + k) % 256 + j)) := by
  have h256 : toU32 JBOD_BLOCK_SIZE = 256 := by decide
  have hlenI : toI32 len = (len : Int) := toI32_small len (by omega)
  have hu : toU32 (((addr + k) % 256 : Nat) : Int) = (addr + k) % 256 := toU32_ofNat _ (by omega)
  have hbase : toU32 (((addr + k : Nat) : Int) - (((addr + k) % 256 : Nat) : Int)) =
      addr + k - (addr + k) % 256 := by unfold toU32; omega
  have hcur : toU32 ((addr + k : Nat) : Int) = addr + k := toU32_ofNat _ (by omega)
  generalize hn : min (256 - (addr + k) % 256) (len - k) = n
  unfold write_fill
  rw [h256, hlenI, hu, hbase, hcur, show JBOD_BLOCK_SIZE = 256 from rfl]
  by_cases hoff : (addr + k) % 256 = 0
  · rw [if_pos (by omega)]
    by_cases hshort : ((addr + len : Nat) : Int) - ((addr + k : Nat) : Int) < 256
    · rw [if_pos hshort]
      obtain ⟨rr, out, hr, -, -, e1, e2, e3, e4, e5⟩ := mdadm_read_ok junk fuel hfuel ⟨ms, d⟩
        (addr + k) 256 (loaderDecl junk) hms (by omega) (by omega) (by omega)
        (by rw [loaderDecl_length]) hnf
      rw [loaderDecl_length] at e4
      obtain ⟨loader, hm, hlen, hget⟩ := memcpy_int out b 0 (k : Int)
        (((addr + len : Nat) : Int) - ((addr + k : Nat) : Int)) 0 k n rfl rfl (by omega)
        (by omega) (by omega)
      simp only [hr, e3, hm]
      refine ⟨rr.m.jbod, loader, ?_, e1, e2, hlen.trans e4, ?_⟩
      · congr 2; omega
      · intro j hj
        rw [hget j, e5 j]
        by_cases c : 0 ≤ j ∧ j < 0 + n
        · rw [if_pos c, if_pos (by omega)]; congr 1; omega
        · rw [if_neg c, if_pos hj, if_neg (by omega)]
          show some (d.byteAt (addr + k + j)) = _
          congr 2; omega
    · rw [if_neg hshort]
      obtain ⟨loader, hm, hlen, hget⟩ := memcpy_int (loaderDecl junk) b 0 (k : Int) 256 0 k 256
        (by omega) rfl (by omega) (by rw [loaderDecl_length]) (by omega)
      simp only [hm]
      have hn256 : (256 : Int) = (n : Int) := by omega
      refine ⟨d, loader, by rw [hn256], rfl, rfl, hlen.trans (loaderDecl_length junk), ?_⟩
      intro j hj
      rw [hget j, if_pos (by omega), if_pos (by omega),
        show k + (j - 0) = k + (j - (addr + k) % 256) by omega]
  · have hk0 : k = 0 := by omega
    subst hk0
    rw [if_neg (by omega)]
    obtain ⟨rr, out, hr, -, -, e1, e2, e3, e4, e5⟩ := mdadm_read_ok junk fuel hfuel ⟨ms, d⟩
      (addr + 0 - (addr + 0) % 256) 256 (loaderDecl junk) hms (by omega) (by omega) (by omega)
      (by rw [loaderDecl_length]) hnf
    rw [loaderDecl_length] at e4
    by_cases hlong : ((addr + 0) % 256 + len) % 4294967296 > 256
    · rw [if_pos hlong]
      obtain ⟨loader, hm, hlen, hget⟩ := memcpy_int out b (((addr + 0) % 256 : Nat) : Int)
        ((0 : Nat) : Int) (256 - (((addr + 0) % 256 : Nat) : Int)) ((addr + 0) % 256) 0 n
        rfl rfl (by omega) (by omega) (by omega)
      simp only [hr, e3, hm]
      refine ⟨rr.m.jbod, loader, ?_, e1, e2, hlen.trans e4, ?_⟩
      · congr 2; omega
      · intro j hj
        rw [hget j, e5 j]
        by_cases c : (addr + 0) % 256 ≤ j ∧ j < (addr + 0) % 256 + n
        · rw [if_pos c, if_pos c]
        · rw [if_neg c, if_neg c, if_pos hj]
    · rw [if_neg hlong]
      obtain ⟨loader, hm, hlen, hget⟩ := memcpy_int out b (((addr + 0) % 256 : Nat) : Int)
        ((0 : Nat) : Int) (len : Int) ((addr + 0) % 256) 0 n
        rfl rfl (by omega) (by omega) (by omega)
      simp only [hr, e3, hm]
      refine ⟨rr.m.jbod, loader, ?_, e1, e2, hlen.trans e4, ?_⟩
      · congr 2; omega
      · intro j hj
        rw [hget j, e5 j]
        by_cases c : (addr + 0) % 256 ≤ j ∧ j < (addr + 0) % 256 + n
        · rw [if_pos c, if_pos c]
        · rw [if_neg c, if_neg c, if_pos hj]

theorem neverFails_of_fails_eq (d e : Jbod) (h : e.fails = d.fails) (hnf : NeverFails d) :
    NeverFails e := by
  intro j; rw [h]; exact hnf j

theorem seek_never (d : Jbod) (a : Nat) (ha : a < 1048576) (hnf : NeverFails d) :
    seek d a = (((a % 256 : Nat) : Int), d.sought a) :=
  seek_ok d a ha (hnf _) (hnf _)

theorem store_never (d : Jbod) (a : Nat) (loader : List Byte) (hnf : NeverFails d) :
    jbod_operation (d.sought a) writeOp (some loader) = (0, d.stored a loader, some loader) := by
  have h : (d.sought a).fails (d.sought a).log.length = false := hnf _
  rw [jbod_operation_write (d.sought a) loader h]
  simp [Jbod.record, Jbod.sought, Jbod.stored]

theorem byteAt_stored (d : Jbod) (cur : Nat) (loader : List Byte) (a : Nat) :
    (d.stored cur loader).byteAt a =
      if a / 256 = cur / 256 then loader.getD (a % 256) 0 else d.byteAt a := by
  unfold Jbod.byteAt Jbod.stored
  have e3 : a % 65536 % 256 = a % 256 := by omega
  by_cases c : a / 256 = cur / 256
  · rw [if_pos c]
    show (if _ then _ else _) = _
    rw [if_pos ⟨by omega, by omega, by omega⟩, e3]
  · rw [if_neg c]
    show (if _ then _ else _) = _
    rw [if_neg (by omega)]

theorem writePost_done (d : Jbod) (ms : Int) (addr len : Nat) (b : List Byte)
    (hl : len < 2147483648) :
    WritePost d ms addr len len b ⟨toI32 len, ⟨ms, d⟩, some b⟩ := by
  refine ⟨toI32_small len hl, rfl, rfl, rfl, ?_⟩
  intro a
  rw [if_neg (by omega)]

/-- The loop of the writer on a device that never fails. -/
theorem write_loop_ok (junk : Nat → Byte) (fuelR : Nat) (hfuelR : 5 ≤ fuelR) (ms : Int)
    (hms : ms ≠ 0) (addr len : Nat) (h2 : len ≤ 1024) (hrange : addr + len ≤ 1048576)
    (b : List Byte) (hb : len ≤ b.length) :
    ∀ (fuel k : Nat) (d : Jbod), NeverFails d → k ≤ len →
      ((addr + k) % 256 = 0 ∨ k = 0 ∨ k = len) →
      (k < len → (len - k) + (addr + k) % 256 ≤ 256 * fuel) →
      ∃ r, write_loop junk fuelR ms len writeOp ((addr + len : Nat) : Int) (some b) fuel
          ((addr + k : Nat) : Int) (k : Int) d = .ok r ∧ WritePost d ms addr len k b r := by
  intro fuel
  induction fuel with
  | zero =>
    intro k d _ hkl _ hf
    have hkk : k = len := by omega
    subst hkk
    exact ⟨_, by simp [write_loop_zero], writePost_done d ms addr k b (by omega)⟩
  | succ fuel ih =>
    intro k d hnf hkl hal hf
    by_cases hend : k = len
    · subst hend
      exact ⟨_, by simp [write_loop_succ], writePost_done d ms addr k b (by omega)⟩
    have hklt : k < len := by omega
    have hcond : ((addr + k : Nat) : Int) < ((addr + len : Nat) : Int) := by omega
    have hoff : ¬ (((addr + k) % 256 : Nat) : Int) = -1 := by omega
    have hnf1 : NeverFails (d.sought (addr + k)) := neverFails_of_fails_eq d _ rfl hnf
    obtain ⟨dev1, loader, hfill, e1, e2, e3, e4⟩ := write_fill_ok junk fuelR hfuelR ms hms addr
      len k (d.sought (addr + k)) b hnf1 hklt h2 hrange (by omega) hb
    have hnf2 : NeverFails dev1 := neverFails_of_fails_eq _ _ e2 hnf1
    generalize hn : min (256 - (addr + k) % 256) (len - k) = n at hfill e4
    rw [write_loop_succ, if_pos hcond]
    simp only [seek_never d (addr + k) (by omega) hnf, hoff, if_false, hfill,
      seek_never dev1 (addr + k) (by omega) hnf2, store_never dev1 (addr + k) loader hnf2]
    rw [if_neg (by decide)]
    have hc1 : ((addr + k : Nat) : Int) + (n : Int) = ((addr + (k + n) : Nat) : Int) := by
      push_cast; ring
    have hc2 : (k : Int) + (n : Int) = ((k + n : Nat) : Int) := by push_cast; rfl
    rw [hc1, hc2]
    have hnf3 : NeverFails (dev1.stored (addr + k) loader) :=
      neverFails_of_fails_eq dev1 _ rfl hnf2
    obtain ⟨r, hr, p1, p2, p3, p4, p5⟩ := ih (k + n) (dev1.stored (addr + k) loader) hnf3
      (by omega) (by omega) (by omega)
    have hdev1 : ∀ a, dev1.byteAt a = d.byteAt a := by
      intro a; unfold Jbod.byteAt; rw [e1]; rfl
    refine ⟨r, hr, p1, p2, ?_, p4, ?_⟩
    · rw [p3]; exact e2
    · intro a
      rw [p5 a, byteAt_stored]
      by_cases c1 : addr + (k + n) ≤ a ∧ a < addr + len
      · rw [if_pos c1, if_pos (by omega)]
      · rw [if_neg c1]
        by_cases c2 : a / 256 = (addr + k) / 256
        · rw [if_pos c2, List.getD_eq_getElem?_getD, e4 (a % 256) (by omega)]
          by_cases c3 : (addr + k) % 256 ≤ a % 256 ∧ a % 256 < (addr + k) % 256 + n
          · rw [if_pos c3, if_pos (by omega), List.getD_eq_getElem?_getD,
              show k + (a % 256 - (addr + k) % 256) = a - addr by omega]
          · rw [if_neg c3, if_neg (by omega), Option.getD_some]
            show d.byteAt _ = d.byteAt a
            rw [show addr + k - (addr + k) % 256 + a % 256 = a by omega]
        · rw [if_neg c2, if_neg (by omega)]
          exact hdev1 a

/-- The writer on a valid request over a device that never fails. -/
theorem mdadm_write_ok (junk : Nat → Byte) (fuel : Nat) (hfuel : 5 ≤ fuel) (m : Machine)
    (addr len : Nat) (b : List Byte) (hm : m.mount_state ≠ 0) (h1 : 1 ≤ len) (h2 : len ≤ 1024)
    (hrange : addr + len ≤ 1048576) (hb : len ≤ b.length) (hnf : NeverFails m.jbod) :
    ∃ r, mdadm_write junk fuel m addr len (some b) = .ok r ∧
      WritePost m.jbod m.mount_state addr len 0 b r := by
  have hmax : toU32 address_max = 1048575 := by decide
  have hl1 : toU32 ((len : Int) - 1) = len - 1 := by unfold toU32; omega
  have hchk : ¬ (addr + (len - 1)) % 4294967296 > 1048575 := by omega
  have hfin : toI32 ((addr + len) % 4294967296) = ((addr + len : Nat) : Int) := by
    rw [Nat.mod_eq_of_lt (by omega)]; exact toI32_small _ (by omega)
  have hcur : toI32 addr = ((addr + 0 : Nat) : Int) := toI32_small _ (by omega)
  unfold mdadm_write
  simp only [hmax, hl1, hfin, hcur]
  rw [if_neg hm, if_neg (by omega), if_neg (by omega), if_neg hchk, if_neg (by simp)]
  exact write_loop_ok junk fuel hfuel m.mount_state hm addr len h2 hrange b hb fuel 0 m.jbod hnf
    (by omega) (by omega) (by omega)

theorem buf_eq_of_getElem? (o out : List Byte) (f : Nat → Byte) (len : Nat)
    (h : ∀ i, o[i]? = if i < len then some (f i) else out[i]?) :
    o = (List.range len).map f ++ out.drop len := by
  apply List.ext_getElem?
  intro i
  rw [h i]
  by_cases c : i < len
  · rw [if_pos c, List.getElem?_append_left (by simpa using c), List.getElem?_map,
      List.getElem?_range c]
    rfl
  · rw [if_neg c, List.getElem?_append_right (by simpa using c), List.getElem?_drop]
    simp only [List.length_map, List.length_range]
    rw [show len + (i - len) = i by omega]

theorem map_getD_range (b : List Byte) : (List.range b.length).map (fun i => b.getD i 0) = b := by
  apply List.ext_getElem?
  intro i
  by_cases c : i < b.length
  · rw [List.getElem?_map, List.getElem?_range c, List.getElem?_eq_getElem c]
    simp [List.getD_eq_getElem?_getD, List.getElem?_eq_getElem c]
  · rw [List.getElem?_eq_none (by simpa using c), List.getElem?_eq_none (by simpa using c)]

/-! ## The initial checks -/

theorem read_loop_stop (junk : Nat → Byte) (ms : Int) (addr len opcode : Nat) (finalAddr : Int)
    (fuel : Nat) (cur dataSize bufP : Int) (d : Jbod) (buf : Option (List Byte))
    (h : ¬ cur < finalAddr) :
    read_loop junk ms addr len opcode finalAddr fuel cur dataSize bufP d buf =
      .ok ⟨toI32 len, ⟨ms, d⟩, buf⟩ := by
  cases fuel <;> simp [read_loop_zero, read_loop_succ, h]

theorem write_loop_stop (junk : Nat → Byte) (fuelR : Nat) (ms : Int) (len opcode : Nat)
    (finalAddr : Int) (buf : Option (List Byte)) (fuel : Nat) (cur bufP : Int) (d : Jbod)
    (h : ¬ cur < finalAddr) :
    write_loop junk fuelR ms len opcode finalAddr buf fuel cur bufP d =
      .ok ⟨toI32 len, ⟨ms, d⟩, buf⟩ := by
  cases fuel <;> simp [write_loop_zero, write_loop_succ, h]

theorem toI32_mod (n : Nat) : toI32 (n % 4294967296) = toI32 n := by
  unfold toI32; rw [Nat.mod_mod]

/-- A request of length 0 that passes the checks: the loop does not run. -/
theorem mdadm_read_zero_body (junk : Nat → Byte) (fuel : Nat) (m : Machine) (addr : Nat)
    (buf : Option (List Byte)) :
    read_loop junk m.mount_state addr 0 (op_construct 0 0 JBOD_READ_BLOCK 0)
      (toI32 ((addr + 0) % 4294967296)) fuel (toI32 addr) 0 0 m.jbod buf = .ok ⟨0, m, buf⟩ := by
  rw [read_loop_stop _ _ _ _ _ _ _ _ _ _ _ _ (by rw [Nat.add_zero, toI32_mod]; omega)]
  rfl

theorem mdadm_write_zero_body (junk : Nat → Byte) (fuel : Nat) (m : Machine) (addr : Nat)
    (buf : Option (List Byte)) :
    write_loop junk fuel m.mount_state 0 (op_construct 0 0 JBOD_WRITE_BLOCK 0)
      (toI32 ((addr + 0) % 4294967296)) buf fuel (toI32 addr) 0 m.jbod = .ok ⟨0, m, buf⟩ := by
  rw [write_loop_stop _ _ _ _ _ _ _ _ _ _ _ (by rw [Nat.add_zero, toI32_mod]; omega)]
  rfl

/-- The boundary check where the sum does not wrap: a mounted request with `1 ≤ len ≤ 1024`,
`addr + len - 1 < 2^32` and `addr + len - 1 > 1048575` is refused before any device command. -/
theorem boundary_check_without_wrap (junk : Nat → Byte) (fuel : Nat) (m : Machine)
    (addr len : Nat) (buf : Option (List Byte)) (hm : m.mount_state = 1) (h1 : 1 ≤ len)
    (h2 : len ≤ 1024) (h3 : addr + len - 1 < 4294967296) (h4 : 1048575 < addr + len - 1) :
    mdadm_read junk fuel m addr len buf = .ok ⟨-1, m, buf⟩ ∧
    mdadm_write junk fuel m addr len buf = .ok ⟨-1, m, buf⟩ := by
  have hm0 : m.mount_state ≠ 0 := by rw [hm]; decide
  have hmax : toU32 address_max = 1048575 := by decide
  have hl1 : toU32 ((len : Int) - 1) = len - 1 := by unfold toU32; omega
  have hchk : (addr + (len - 1)) % 4294967296 > 1048575 := by omega
  constructor
  · unfold mdadm_read
    simp only [hmax, hl1]
    rw [if_neg hm0, if_neg (by omega), if_neg (by omega), if_pos hchk]
  · unfold mdadm_write
    simp only [hmax, hl1]
    rw [if_neg hm0, if_neg (by omega), if_neg (by omega), if_pos hchk]

/-- A request of length 0 with a non-null buffer on a driver that is not unmounted. -/
theorem zero_length_with_buffer (junk : Nat → Byte) (fuel : Nat) (m : Machine) (addr : Nat)
    (b : List Byte) (hm0 : m.mount_state ≠ 0) (haddr : addr < 4294967296) :
    mdadm_read junk fuel m addr 0 (some b) =
      .ok ⟨if addr = 0 ∨ 1048576 < addr then -1 else 0, m, some b⟩ ∧
    mdadm_write junk fuel m addr 0 (some b) =
      .ok ⟨if addr = 0 ∨ 1048576 < addr then -1 else 0, m, some b⟩ := by
  have hmax : toU32 address_max = 1048575 := by decide
  have hl1 : toU32 (((0 : Nat) : Int) - 1) = 4294967295 := by decide
  by_cases c : addr = 0 ∨ 1048576 < addr
  · have hchk : (addr + 4294967295) % 4294967296 > 1048575 := by omega
    rw [if_pos c]
    constructor
    · unfold mdadm_read
      simp only [hmax, hl1]
      rw [if_neg hm0, if_neg (by omega), if_neg (by simp), if_pos hchk]
    · unfold mdadm_write
      simp only [hmax, hl1]
      rw [if_neg hm0, if_neg (by omega), if_neg (by simp), if_pos hchk]
  · have hchk : ¬ (addr + 4294967295) % 4294967296 > 1048575 := by omega
    rw [if_neg c]
    constructor
    · unfold mdadm_read
      simp only [hmax, hl1]
      rw [if_neg hm0, if_neg (by omega), if_neg (by simp), if_neg hchk, if_neg (by simp)]
      exact mdadm_read_zero_body junk fuel m addr (some b)
    · unfold mdadm_write
      simp only [hmax, hl1]
      rw [if_neg hm0, if_neg (by omega), if_neg (by simp), if_neg hchk, if_neg (by simp)]
      exact mdadm_write_zero_body junk fuel m addr (some b)


/-! ## The round trip, the frame of a write, and the correctness of a read -/

/-- C1. Write-then-read round trip: on a mounted driver over a device none of whose operations
fails, for a request with `1 ≤ len ≤ 1024` and `addr + len - 1 ≤ 1048575` and a buffer of `len`
bytes, `mdadm_write` returns `len`, and `mdadm_read` of the same range right afterwards returns
`len` and delivers exactly the bytes written (the rest of the output buffer keeps its content).
Five units of fuel are enough for either loop. -/
theorem C1_write_then_read_round_trip (junk : Nat → Byte) (fuel : Nat) (m : Machine)
    (addr len : Nat) (buf out : List Byte) (hfuel : 5 ≤ fuel) (hm : m.mount_state = 1)
    (hdev : NeverFails m.jbod) (h1 : 1 ≤ len) (h2 : len ≤ 1024)
    (h3 : addr + len - 1 ≤ 1048575) (hbuf : buf.length = len) (hout : len ≤ out.length) :
    ∃ w r, mdadm_write junk fuel m addr len (some buf) = .ok w ∧ w.ret = len ∧
      mdadm_read junk fuel w.m addr len (some out) = .ok r ∧ r.ret = len ∧
      r.buf = some (buf ++ out.drop len) := by
  have hm0 : m.mount_state ≠ 0 := by rw [hm]; decide
  obtain ⟨w, hw, w1, w2, w3, _, w5⟩ := mdadm_write_ok junk fuel hfuel m addr len buf hm0 h1 h2
    (by omega) (by omega) hdev
  obtain ⟨r, o, hr, r1, _, _, _, r5, _, r7⟩ := mdadm_read_ok junk fuel hfuel w.m addr len out
    (by rw [w2]; exact hm0) h1 h2 (by omega) hout (neverFails_of_fails_eq _ _ w3 hdev)
  refine ⟨w, r, hw, w1, hr, r1, ?_⟩
  rw [r5, buf_eq_of_getElem? o out (fun i => buf.getD i 0) len ?_, ← hbuf, map_getD_range]
  intro i
  rw [r7 i]
  by_cases c : i < len
  · rw [if_pos c, if_pos c, w5, if_pos (by omega), show addr + i - addr = i by omega]
  · rw [if_neg c, if_neg c]

/-- C1 at a concrete request: 10 bytes written at address 250 (across a block boundary) of the
sample device and read back. -/
theorem C1_write_then_read_round_trip_witness :
    ∃ w r, mdadm_write sampleJunk 5 sampleMachine 250 10 (some [1, 2, 3, 4, 5, 6, 7, 8, 9, 10])
        = .ok w ∧ w.ret = (10 : Nat) ∧
      mdadm_read sampleJunk 5 w.m 250 10 (some [0, 0, 0, 0, 0, 0, 0, 0, 0, 0, 77]) = .ok r ∧
      r.ret = (10 : Nat) ∧
      r.buf = some ([1, 2, 3, 4, 5, 6, 7, 8, 9, 10] ++ [0, 0, 0, 0, 0, 0, 0, 0, 0, 0, 77].drop 10) :=
  C1_write_then_read_round_trip sampleJunk 5 sampleMachine 250 10 [1, 2, 3, 4, 5, 6, 7, 8, 9, 10]
    [0, 0, 0, 0, 0, 0, 0, 0, 0, 0, 77] (by decide) rfl (fun _ => rfl) (by decide) (by decide)
    (by decide) rfl (by decide)

/-- C2. Surrounding-byte preservation: on a mounted driver over a device none of whose operations
fails, a valid `mdadm_write addr len buf` returns `len` and afterwards the stored byte at every
linear address `a` is `buf[a - addr]` when `addr ≤ a < addr + len` and is the byte stored before
the call otherwise.  In particular, for every range `[addr2, addr2 + len2)` inside
`[addr, addr + len)` (an empty one included), writing `inner` there next and then reading
`[addr, addr + len)` delivers `buf` with exactly the positions of the inner range replaced by
`inner`; the inner write returns `len2` when `len2 ≥ 1`. -/
theorem C2_write_preserves_surrounding_bytes (junk : Nat → Byte) (fuel : Nat) (m : Machine)
    (addr len : Nat) (buf : List Byte) (hfuel : 5 ≤ fuel) (hm : m.mount_state = 1)
    (hdev : NeverFails m.jbod) (h1 : 1 ≤ len) (h2 : len ≤ 1024)
    (h3 : addr + len - 1 ≤ 1048575) (hbuf : buf.length = len) :
    ∃ w, mdadm_write junk fuel m addr len (some buf) = .ok w ∧ w.ret = len ∧
      (∀ a, w.m.jbod.byteAt a =
        if addr ≤ a ∧ a < addr + len then buf.getD (a - addr) 0 else m.jbod.byteAt a) ∧
      ∀ (addr2 len2 : Nat) (inner out : List Byte), addr ≤ addr2 →
        addr2 + len2 ≤ addr + len → inner.length = len2 → len ≤ out.length →
        ∃ w2 r, mdadm_write junk fuel w.m addr2 len2 (some inner) = .ok w2 ∧
          (1 ≤ len2 → w2.ret = len2) ∧
          mdadm_read junk fuel w2.m addr len (some out) = .ok r ∧ r.ret = len ∧
          r.buf = some ((List.range len).map (fun i =>
            if addr2 ≤ addr + i ∧ addr + i < addr2 + len2 then inner.getD (addr + i - addr2) 0
            else buf.getD i 0) ++ out.drop len) := by
  have hm0 : m.mount_state ≠ 0 := by rw [hm]; decide
  obtain ⟨w, hw, w1, w2, w3, _, w5⟩ := mdadm_write_ok junk fuel hfuel m addr len buf hm0 h1 h2
    (by omega) (by omega) hdev
  have hwm : w.m.mount_state ≠ 0 := by rw [w2]; exact hm0
  have hwd : NeverFails w.m.jbod := neverFails_of_fails_eq _ _ w3 hdev
  refine ⟨w, hw, w1, ?_, ?_⟩
  · intro a
    rw [w5 a]
    by_cases c : addr ≤ a ∧ a < addr + len
    · rw [if_pos c, if_pos (by omega)]
    · rw [if_neg c, if_neg (by omega)]
  · intro addr2 len2 inner out g2 g3 g4 g5
    by_cases g1 : 1 ≤ len2
    · obtain ⟨v, hv, v1, v2, v3, _, v5⟩ := mdadm_write_ok junk fuel hfuel w.m addr2 len2 inner
        hwm g1 (by omega) (by omega) (by omega) hwd
      obtain ⟨r, o, hr, r1, _, _, _, r5, _, r7⟩ := mdadm_read_ok junk fuel hfuel v.m addr len out
        (by rw [v2]; exact hwm) h1 h2 (by omega) g5 (neverFails_of_fails_eq _ _ v3 hwd)
      refine ⟨v, r, hv, fun _ => v1, hr, r1, ?_⟩
      rw [r5]
      congr 1
      apply buf_eq_of_getElem?
      intro i
      rw [r7 i]
      by_cases c : i < len
      · rw [if_pos c, if_pos c, v5]
        by_cases c2 : addr2 ≤ addr + i ∧ addr + i < addr2 + len2
        · rw [if_pos (by omega), if_pos c2]
        · rw [if_neg (by omega), if_neg c2, w5, if_pos (by omega),
            show addr + i - addr = i by omega]
      · rw [if_neg c, if_neg c]
    · have hz : len2 = 0 := by omega
      subst hz
      obtain ⟨r, o, hr, r1, _, _, _, r5, _, r7⟩ := mdadm_read_ok junk fuel hfuel w.m addr len out
        hwm h1 h2 (by omega) g5 hwd
      refine ⟨_, r, (zero_length_with_buffer junk fuel w.m addr2 inner hwm (by omega)).2,
        fun h => absurd h (by decide), hr, r1, ?_⟩
      rw [r5]
      congr 1
      apply buf_eq_of_getElem?
      intro i
      rw [r7 i]
      by_cases c : i < len
      · rw [if_pos c, if_pos c, if_neg (by omega), w5, if_pos (by omega),
          show addr + i - addr = i by omega]
      · rw [if_neg c, if_neg c]

/-- C2 at the scenario of the specification: `write(100, 50, A)`, then `write(120, 10, B)`, then
`read(100, 50)`, with `A` fifty bytes `1` and `B` ten bytes `2`. -/
theorem C2_write_preserves_surrounding_bytes_witness :
    ∃ w w2 r, mdadm_write sampleJunk 5 sampleMachine 100 50 (some (List.replicate 50 1)) = .ok w ∧
      (∀ a, w.m.jbod.byteAt a =
        if 100 ≤ a ∧ a < 100 + 50 then (List.replicate 50 1).getD (a - 100) 0
        else sampleMachine.jbod.byteAt a) ∧
      mdadm_write sampleJunk 5 w.m 120 10 (some (List.replicate 10 2)) = .ok w2 ∧
      mdadm_read sampleJunk 5 w2.m 100 50 (some (List.replicate 50 0)) = .ok r ∧
      r.ret = (50 : Nat) ∧
      r.buf = some ((List.range 50).map (fun i =>
        if 120 ≤ 100 + i ∧ 100 + i < 120 + 10 then (List.replicate 10 2).getD (100 + i - 120) 0
        else (List.replicate 50 1).getD i 0) ++ (List.replicate 50 0).drop 50) := by
  obtain ⟨w, hw, _, hframe, hnest⟩ := C2_write_preserves_surrounding_bytes sampleJunk 5
    sampleMachine 100 50 (List.replicate 50 1) (by decide) rfl (fun _ => rfl) (by decide)
    (by decide) (by decide) (by decide)
  obtain ⟨w2, r, hw2, _, hr, hret, hbuf⟩ := hnest 120 10 (List.replicate 10 2)
    (List.replicate 50 0) (by decide) (by decide) (by decide) (by decide)
  exact ⟨w, w2, r, hw, hframe, hw2, hr, hret, hbuf⟩

/-- C3. Read correctness: on a mounted driver over a device none of whose operations fails, a
valid `mdadm_read addr len out` returns exactly `len` and fills `out[0 .. len)` with the stored
bytes at the linear addresses `addr, addr + 1, ..., addr + len - 1` in this order (the rest of
the buffer keeps its content), whatever block or disk boundaries the range crosses; the stored
bytes are not changed. -/
theorem C3_read_returns_stored_bytes (junk : Nat → Byte) (fuel : Nat) (m : Machine)
    (addr len : Nat) (out : List Byte) (hfuel : 5 ≤ fuel) (hm : m.mount_state = 1)
    (hdev : NeverFails m.jbod) (h1 : 1 ≤ len) (h2 : len ≤ 1024)
    (h3 : addr + len - 1 ≤ 1048575) (hout : len ≤ out.length) :
    ∃ r, mdadm_read junk fuel m addr len (some out) = .ok r ∧ r.ret = len ∧
      r.buf = some ((List.range len).map (fun i => m.jbod.byteAt (addr + i)) ++ out.drop len) ∧
      r.m.jbod.data = m.jbod.data := by
  have hm0 : m.mount_state ≠ 0 := by rw [hm]; decide
  obtain ⟨r, o, hr, r1, _, r3, _, r5, _, r7⟩ := mdadm_read_ok junk fuel hfuel m addr len out
    hm0 h1 h2 (by omega) hout hdev
  refine ⟨r, hr, r1, ?_, r3⟩
  rw [r5]
  congr 1
  exact buf_eq_of_getElem? o out _ len r7

/-- C3 at the request of the claim: 10 bytes at address 65531, across the boundary between
disk 0 and disk 1. -/
theorem C3_read_returns_stored_bytes_witness :
    ∃ r, mdadm_read sampleJunk 5 sampleMachine 65531 10 (some (List.replicate 10 0)) = .ok r ∧
      r.ret = (10 : Nat) ∧
      r.buf = some ((List.range 10).map (fun i => sampleMachine.jbod.byteAt (65531 + i)) ++
        (List.replicate 10 0).drop 10) ∧
      r.m.jbod.data = sampleMachine.jbod.data :=
  C3_read_returns_stored_bytes sampleJunk 5 sampleMachine 65531 10 (List.replicate 10 0)
    (by decide) rfl (fun _ => rfl) (by decide) (by decide) (by decide) (by decide)

/-! ## Claims about the initial checks -/

set_option maxRecDepth 20000 in
/-- C4, where the code departs from the claim.  On the mounted sample machine the request
`addr = 4294967295`, `len = 2` has `addr + len - 1 = 4294967296 > 1048575`, yet `addr + (len - 1)`
wraps to `0`, the check passes, and both `mdadm_read` and `mdadm_write` send the two seek commands
of `seek(-1)` to the device before they return `-1`.  With `addr = 4294967040`, `len = 257` the
check passes as well and `mdadm_read` returns `257`. -/
theorem C4_wrapped_range_passes_the_check :
    (∃ r, mdadm_read sampleJunk 5 sampleMachine 4294967295 2 (some [0, 0]) = .ok r ∧
      r.ret = -1 ∧ r.m.jbod.log = [(seekDiskOp (-1), 0), (seekBlockOp (-1), 0)]) ∧
    (∃ w, mdadm_write sampleJunk 5 sampleMachine 4294967295 2 (some [0, 0]) = .ok w ∧
      w.ret = -1 ∧ w.m.jbod.log = [(seekDiskOp (-1), 0), (seekBlockOp (-1), 0)]) ∧
    retOf (mdadm_read sampleJunk 5 sampleMachine 4294967040 257 (some (List.replicate 257 0)))
      = some 257 := by
  refine ⟨⟨_, rfl, rfl, rfl⟩, ⟨_, rfl, rfl, rfl⟩, ?_⟩
  decide

/-- C5, as the code has it: on a mounted driver, `mdadm_read` and `mdadm_write` with length 0 and
a non-null buffer send no device command and change nothing; they return `-1` when the 32-bit
address is `0` or greater than `1048576`, and `0` when `1 ≤ addr ≤ 1048576`. -/
theorem C5_zero_length_with_buffer (junk : Nat → Byte) (fuel : Nat) (m : Machine) (addr : Nat)
    (b : List Byte) (hm : m.mount_state = 1) (haddr : addr < 4294967296) :
    mdadm_read junk fuel m addr 0 (some b) =
      .ok ⟨if addr = 0 ∨ 1048576 < addr then -1 else 0, m, some b⟩ ∧
    mdadm_write junk fuel m addr 0 (some b) =
      .ok ⟨if addr = 0 ∨ 1048576 < addr then -1 else 0, m, some b⟩ :=
  zero_length_with_buffer junk fuel m addr b (by rw [hm]; decide) haddr

/-- C5 at a concrete request: address 1, length 0, a buffer of one byte. -/
theorem C5_zero_length_with_buffer_witness :
    (1 : Int) = 1 ∧ 1 < 4294967296 ∧
    mdadm_read sampleJunk 5 sampleMachine 1 0 (some [9]) =
      .ok ⟨if (1 : Nat) = 0 ∨ 1048576 < 1 then -1 else 0, sampleMachine, some [9]⟩ ∧
    mdadm_write sampleJunk 5 sampleMachine 1 0 (some [9]) =
      .ok ⟨if (1 : Nat) = 0 ∨ 1048576 < 1 then -1 else 0, sampleMachine, some [9]⟩ :=
  ⟨rfl, by decide, C5_zero_length_with_buffer sampleJunk 5 sampleMachine 1 (([9] : List Byte))
    rfl (by decide)⟩

/-- C5 as stated fails: on the mounted sample machine `mdadm_read(1, 0, buf)` and
`mdadm_write(1, 0, buf)` with a non-null buffer return `0`, not `-1`. -/
theorem C5_zero_length_with_buffer_counterexample :
    retOf (mdadm_read sampleJunk 5 sampleMachine 1 0 (some [9])) = some 0 ∧
    retOf (mdadm_write sampleJunk 5 sampleMachine 1 0 (some [9])) = some 0 := by
  decide

/-- C6. Zero-length/null-buffer carve-out: on a mounted driver, for every address (in range or
not), `mdadm_read(addr, 0, NULL)` and `mdadm_write(addr, 0, NULL)` return `0` and leave the
machine (mount state, device log, stored bytes) and the buffer as they were, whatever the fuel:
the carve-out is tested before the address-boundary check. -/
theorem C6_zero_length_null_carve_out (junk : Nat → Byte) (fuel : Nat) (m : Machine)
    (addr : Nat) (hm : m.mount_state = 1) :
    mdadm_read junk fuel m addr 0 none = .ok ⟨0, m, none⟩ ∧
    mdadm_write junk fuel m addr 0 none = .ok ⟨0, m, none⟩ := by
  have hm0 : m.mount_state ≠ 0 := by rw [hm]; decide
  constructor
  · unfold mdadm_read
    simp only []
    rw [if_neg hm0, if_neg (by omega), if_pos (by simp)]
    exact mdadm_read_zero_body junk fuel m addr none
  · unfold mdadm_write
    simp only []
    rw [if_neg hm0, if_neg (by omega), if_pos (by simp)]
    exact mdadm_write_zero_body junk fuel m addr none

/-- C6 at an address beyond `address_max`. -/
theorem C6_zero_length_null_carve_out_witness :
    (1 : Int) = 1 ∧
    mdadm_read sampleJunk 5 sampleMachine 5000000 0 none = .ok ⟨0, sampleMachine, none⟩ ∧
    mdadm_write sampleJunk 5 sampleMachine 5000000 0 none = .ok ⟨0, sampleMachine, none⟩ :=
  ⟨rfl, C6_zero_length_null_carve_out sampleJunk 5 sampleMachine 5000000 rfl⟩

/-- C8. The length and buffer checks come before any device call: on a mounted driver, for every
address, if `len > 1024`, or `len > 0` and the buffer is `NULL`, then `mdadm_read` and
`mdadm_write` return `-1` and leave the machine (device log, stored bytes, mount state) and the
caller buffer as they were, whatever the fuel. -/
theorem C8_length_and_buffer_checks (junk : Nat → Byte) (fuel : Nat) (m : Machine)
    (addr len : Nat) (buf : Option (List Byte)) (hm : m.mount_state = 1)
    (h : 1024 < len ∨ (0 < len ∧ buf = none)) :
    mdadm_read junk fuel m addr len buf = .ok ⟨-1, m, buf⟩ ∧
    mdadm_write junk fuel m addr len buf = .ok ⟨-1, m, buf⟩ := by
  have hm0 : m.mount_state ≠ 0 := by rw [hm]; decide
  by_cases hbig : len > 1024
  · constructor
    · unfold mdadm_read
      simp only []
      rw [if_neg hm0, if_pos hbig]
    · unfold mdadm_write
      simp only []
      rw [if_neg hm0, if_pos hbig]
  · have hnull : 0 < len ∧ buf = none := by
      rcases h with h | h
      · exact absurd h hbig
      · exact h
    have h3 : ¬ (len = 0 ∧ buf = none) := by omega
    have h5 : len ≠ 0 ∧ buf = none := ⟨by omega, hnull.2⟩
    constructor
    · unfold mdadm_read
      simp only []
      rw [if_neg hm0, if_neg hbig, if_neg h3]
      split <;> rfl
    · unfold mdadm_write
      simp only []
      rw [if_neg hm0, if_neg hbig, if_neg h3]
      split <;> rfl

/-- C8 at a request of 1025 bytes with a buffer. -/
theorem C8_length_and_buffer_checks_witness :
    (1 : Int) = 1 ∧ (1024 < 1025 ∨ (0 < 1025 ∧ (some [7] : Option (List Byte)) = none)) ∧
    mdadm_read sampleJunk 5 sampleMachine 0 1025 (some [7]) = .ok ⟨-1, sampleMachine, some [7]⟩ ∧
    mdadm_write sampleJunk 5 sampleMachine 0 1025 (some [7]) = .ok ⟨-1, sampleMachine, some [7]⟩ :=
  ⟨rfl, Or.inl (by decide),
    C8_length_and_buffer_checks sampleJunk 5 sampleMachine 0 1025 (some [7]) rfl
      (Or.inl (by decide))⟩

/-! ## The mount gate and device failures -/

theorem mdadm_mount_never (m : Machine) (hm : m.mount_state = 0) (hnf : NeverFails m.jbod) :
    mdadm_mount m = (1, ⟨1, m.jbod.record mountOp 0⟩) := by
  have hc : cmdOf (op_construct 0 0 JBOD_MOUNT 0) = 0 := by decide
  have hop : jbod_operation m.jbod (op_construct 0 0 JBOD_MOUNT 0) none =
      (0, m.jbod.record mountOp 0, none) := by
    simp [jbod_operation, hnf m.jbod.log.length, hc, mountOp]
  unfold mdadm_mount
  rw [if_neg (by rw [hm]; decide)]
  simp only [hop, if_true]

/-- C7, as the code has it.  Mount gate: while the driver is unmounted, `mdadm_read` and
`mdadm_write` return `-1` for every address, length and buffer (length 0 with `NULL` included)
and leave the machine (mount state, device log, stored bytes) and the buffer as they were; and
over a device none of whose operations fails, `mdadm_mount` then returns `1` and the same call,
when it is a valid request with `1 ≤ len ≤ 1024`, `addr + len - 1 ≤ 1048575` and a buffer of at
least `len` bytes, returns `len`. -/
theorem C7_mount_gate (junk : Nat → Byte) (fuel : Nat) (m : Machine) (addr len : Nat)
    (buf : Option (List Byte)) (hm : m.mount_state = 0) :
    mdadm_read junk fuel m addr len buf = .ok ⟨-1, m, buf⟩ ∧
    mdadm_write junk fuel m addr len buf = .ok ⟨-1, m, buf⟩ ∧
    (NeverFails m.jbod → 5 ≤ fuel → ∀ b, buf = some b → 1 ≤ len → len ≤ 1024 →
      addr + len - 1 ≤ 1048575 → len ≤ b.length →
      (mdadm_mount m).1 = 1 ∧
      (∃ r, mdadm_read junk fuel (mdadm_mount m).2 addr len buf = .ok r ∧ r.ret = len) ∧
      (∃ w, mdadm_write junk fuel (mdadm_mount m).2 addr len buf = .ok w ∧ w.ret = len)) := by
  refine ⟨?_, ?_, ?_⟩
  · unfold mdadm_read
    simp only []
    rw [if_pos hm]
  · unfold mdadm_write
    simp only []
    rw [if_pos hm]
  · intro hnf hfuel b hb h1 h2 h3 h4
    subst hb
    rw [mdadm_mount_never m hm hnf]
    have hnf2 : NeverFails (m.jbod.record mountOp 0) := neverFails_of_fails_eq m.jbod _ rfl hnf
    obtain ⟨r, _, hr, r1, _⟩ := mdadm_read_ok junk fuel hfuel ⟨1, m.jbod.record mountOp 0⟩ addr
      len b (by show (1 : Int) ≠ 0; decide) h1 h2 (by omega) h4 hnf2
    obtain ⟨w, hw, w1, _⟩ := mdadm_write_ok junk fuel hfuel ⟨1, m.jbod.record mountOp 0⟩ addr
      len b (by show (1 : Int) ≠ 0; decide) h1 h2 (by omega) h4 hnf2
    exact ⟨rfl, ⟨r, hr, r1⟩, ⟨w, hw, w1⟩⟩

/-- C7 at a concrete request: 4 bytes at address 254 of the unmounted sample machine. -/
theorem C7_mount_gate_witness :
    sampleUnmounted.mount_state = 0 ∧
    mdadm_read sampleJunk 5 sampleUnmounted 254 4 (some [1, 2, 3, 4]) =
      .ok ⟨-1, sampleUnmounted, some [1, 2, 3, 4]⟩ ∧
    mdadm_write sampleJunk 5 sampleUnmounted 254 4 (some [1, 2, 3, 4]) =
      .ok ⟨-1, sampleUnmounted, some [1, 2, 3, 4]⟩ ∧
    (mdadm_mount sampleUnmounted).1 = 1 ∧
    (∃ r, mdadm_read sampleJunk 5 (mdadm_mount sampleUnmounted).2 254 4 (some [1, 2, 3, 4])
      = .ok r ∧ r.ret = (4 : Nat)) ∧
    (∃ w, mdadm_write sampleJunk 5 (mdadm_mount sampleUnmounted).2 254 4 (some [1, 2, 3, 4])
      = .ok w ∧ w.ret = (4 : Nat)) := by
  obtain ⟨g1, g2, g3⟩ := C7_mount_gate sampleJunk 5 sampleUnmounted 254 4 (some [1, 2, 3, 4]) rfl
  exact ⟨rfl, g1, g2, g3 (fun _ => rfl) (by decide) [1, 2, 3, 4] rfl (by decide) (by decide)
    (by decide) (by decide)⟩

/-- C7 as stated fails for a request of length 0: on the sample machine, unmounted and then
mounted with success, the request `addr = 0`, `len = 0` with a non-null buffer has
`len ≤ 1024` and `addr + len - 1 = -1 ≤ 1048575`, yet `mdadm_read` and `mdadm_write` return `-1`
and not the length `0`. -/
theorem C7_mount_gate_counterexample :
    sampleUnmounted.mount_state = 0 ∧ (mdadm_mount sampleUnmounted).1 = 1 ∧
    retOf (mdadm_read sampleJunk 5 (mdadm_mount sampleUnmounted).2 0 0 (some [9])) = some (-1) ∧
    retOf (mdadm_write sampleJunk 5 (mdadm_mount sampleUnmounted).2 0 0 (some [9]))
      = some (-1) := by
  decide

set_option maxRecDepth 20000 in
/-- C9, where the code departs from the claim.  On the mounted sample machine whose fifth device
operation fails, `mdadm_write(0, 1, [7])` issues the seeks of its own `seek`, the seeks of the
nested `mdadm_read` and the `READ_BLOCK`, which fails; the value the nested `mdadm_read` returns is
not looked at, so the writer seeks again, issues a `WRITE_BLOCK` that succeeds and returns `1`.
The block written holds the byte `7` followed by the indeterminate content of `loader`: the
stored byte at address 1, which was `1`, is now the junk byte `170`. -/
theorem C9_failed_block_read_is_ignored :
    ∃ w, mdadm_write sampleJunk 5 ⟨1, sampleDeviceFailingFifth⟩ 0 1 (some [7]) = .ok w ∧
      w.ret = 1 ∧
      w.m.jbod.log = [(seekDiskOp 0, 0), (seekBlockOp 0, 0), (seekDiskOp 0, 0),
        (seekBlockOp 0, 0), (readOp, -1), (seekDiskOp 0, 0), (seekBlockOp 0, 0), (writeOp, 0)] ∧
      sampleDeviceFailingFifth.byteAt 1 = 1 ∧ w.m.jbod.byteAt 1 = 170 :=
  ⟨_, rfl, rfl, rfl, rfl, rfl⟩

/-- C10. Read is all-or-nothing: on a mounted driver, for a valid read request and whatever
operations the device fails, `mdadm_read` has a result (five units of fuel are enough), it
returns `len` or `-1`, it returns `len` exactly when every device operation it issued (the
entries `new` it added to the device log) reported success, and every operation it issued before
the last one reported success, so nothing is issued after a failure. -/
theorem C10_read_all_or_nothing (junk : Nat → Byte) (fuel : Nat) (m : Machine)
    (addr len : Nat) (out : List Byte) (hfuel : 5 ≤ fuel) (hm : m.mount_state = 1)
    (h1 : 1 ≤ len) (h2 : len ≤ 1024) (h3 : addr + len - 1 ≤ 1048575)
    (hout : len ≤ out.length) :
    ∃ r new, mdadm_read junk fuel m addr len (some out) = .ok r ∧
      r.m.jbod.log = m.jbod.log ++ new ∧
      (r.ret = len ∨ r.ret = -1) ∧
      (r.ret = len ↔ ∀ x ∈ new, x.2 = 0) ∧
      (∀ x ∈ new.dropLast, x.2 = 0) := by
  have hm0 : m.mount_state ≠ 0 := by rw [hm]; decide
  obtain ⟨r, hr, _, _, _, new, hlog, hstop, hcase⟩ :=
    mdadm_read_valid junk fuel hfuel m addr len out hm0 h1 h2 (by omega) hout
  refine ⟨r, new, hr, hlog, ?_, ?_, hstop⟩
  · rcases hcase with ⟨e, _⟩ | ⟨e, _⟩
    · exact Or.inl e
    · exact Or.inr e
  · rcases hcase with ⟨e, hall, _⟩ | ⟨e, ⟨x, hx, hx2⟩, _⟩
    · exact ⟨fun _ => hall, fun _ => e⟩
    · constructor
      · intro hret; rw [e] at hret; omega
      · intro hall
        have := hall x hx
        rw [hx2] at this
        exact absurd this (by decide)

/-- C10 at a concrete request: 600 bytes at address 0 over the sample device whose fifth
operation (the seek-to-block of the second iteration) fails. -/
theorem C10_read_all_or_nothing_witness :
    ∃ r new, mdadm_read sampleJunk 5 ⟨1, sampleDeviceFailingFifth⟩ 0 600
        (some (List.replicate 600 0)) = .ok r ∧
      r.m.jbod.log = sampleDeviceFailingFifth.log ++ new ∧
      (r.ret = (600 : Nat) ∨ r.ret = -1) ∧
      (r.ret = (600 : Nat) ↔ ∀ x ∈ new, x.2 = 0) ∧
      (∀ x ∈ new.dropLast, x.2 = 0) :=
  C10_read_all_or_nothing sampleJunk 5 ⟨1, sampleDeviceFailingFifth⟩ 0 600 (List.replicate 600 0)
    (by decide) rfl (by decide) (by decide) (by decide) (by rw [List.length_replicate])

/-! ## The mount flag is assigned by `mdadm_mount` and `mdadm_unmount` only -/

theorem read_loop_mount_state (junk : Nat → Byte) (ms : Int) (addr len opcode : Nat)
    (finalAddr : Int) :
    ∀ (fuel : Nat) (cur dataSize bufP : Int) (d : Jbod) (buf : Option (List Byte)) (r : Ret),
      read_loop junk ms addr len opcode finalAddr fuel cur dataSize bufP d buf = .ok r →
      r.m.mount_state = ms := by
  intro fuel
  induction fuel with
  | zero =>
    intro cur dataSize bufP d buf r h
    rw [read_loop_zero] at h
    split at h
    · cases h
    · cases h; rfl
  | succ fuel ih =>
    intro cur dataSize bufP d buf r h
    rw [read_loop_succ] at h
    simp only [] at h
    repeat' split at h
    all_goals first
      | (cases h; rfl)
      | cases h
      | exact ih _ _ _ _ _ _ h

theorem mdadm_read_mount_state (junk : Nat → Byte) (fuel : Nat) (m : Machine) (addr len : Nat)
    (buf : Option (List Byte)) (r : Ret) (h : mdadm_read junk fuel m addr len buf = .ok r) :
    r.m.mount_state = m.mount_state := by
  unfold mdadm_read at h
  simp only [] at h
  repeat' split at h
  all_goals first
    | (cases h; rfl)
    | exact read_loop_mount_state _ _ _ _ _ _ _ _ _ _ _ _ _ h

theorem write_loop_mount_state (junk : Nat → Byte) (fuelR : Nat) (ms : Int) (len opcode : Nat)
    (finalAddr : Int) (buf : Option (List Byte)) :
    ∀ (fuel : Nat) (cur bufP : Int) (d : Jbod) (r : Ret),
      write_loop junk fuelR ms len opcode finalAddr buf fuel cur bufP d = .ok r →
      r.m.mount_state = ms := by
  intro fuel
  induction fuel with
  | zero =>
    intro cur bufP d r h
    rw [write_loop_zero] at h
    split at h
    · cases h
    · cases h; rfl
  | succ fuel ih =>
    intro cur bufP d r h
    rw [write_loop_succ] at h
    simp only [] at h
    repeat' split at h
    all_goals first
      | (cases h; rfl)
      | cases h
      | exact ih _ _ _ _ h

theorem mdadm_write_mount_state (junk : Nat → Byte) (fuel : Nat) (m : Machine) (addr len : Nat)
    (buf : Option (List Byte)) (r : Ret) (h : mdadm_write junk fuel m addr len buf = .ok r) :
    r.m.mount_state = m.mount_state := by
  unfold mdadm_write at h
  simp only [] at h
  repeat' split at h
  all_goals first
    | (cases h; rfl)
    | exact write_loop_mount_state _ _ _ _ _ _ _ _ _ _ _ _ h

/-! ## The opcode encoder, address translation and the mount controller -/

theorem op_construct_lt (d b c r : Nat) (hd : d < 16) (hb : b < 256) (hc : c < 64)
    (hr : r < 16384) : op_construct d b c r < 4294967296 := by
  rw [op_construct_fields d b c r hd hb hc hr]; omega

theorem op_construct_decode (d b c r : Nat) (hd : d < 16) (hb : b < 256) (hc : c < 64)
    (hr : r < 16384) :
    op_construct d b c r >>> 28 = d ∧ (op_construct d b c r >>> 20) &&& 255 = b ∧
      (op_construct d b c r >>> 14) &&& 63 = c ∧ op_construct d b c r &&& 16383 = r := by
  rw [op_construct_fields d b c r hd hb hc hr]
  have e8 : (255 : Nat) = 2 ^ 8 - 1 := by norm_num
  have e6 : (63 : Nat) = 2 ^ 6 - 1 := by norm_num
  have e14 : (16383 : Nat) = 2 ^ 14 - 1 := by norm_num
  rw [e8, e6, e14, Nat.and_pow_two_sub_one_eq_mod, Nat.and_pow_two_sub_one_eq_mod,
    Nat.and_pow_two_sub_one_eq_mod, Nat.shiftRight_eq_div_pow, Nat.shiftRight_eq_div_pow,
    Nat.shiftRight_eq_div_pow]
  refine ⟨?_, ?_, ?_, ?_⟩ <;> omega

/-- C14. Opcode packing is lossless on in-range fields: for `disk < 16`, `block < 256`,
`command < 64` and `reserved < 2^14` the word `w = op_construct disk block command reserved` is
below `2^32` and satisfies `w >> 28 = disk`, `(w >> 20) & 0xFF = block`,
`(w >> 14) & 0x3F = command` and `w & 0x3FFF = reserved`; hence two in-range quadruples with the
same word are equal. -/
theorem C14_op_construct_lossless (disk block command reserved : Nat) (hd : disk < 16)
    (hb : block < 256) (hc : command < 64) (hr : reserved < 16384) :
    op_construct disk block command reserved < 4294967296 ∧
    op_construct disk block command reserved >>> 28 = disk ∧
    (op_construct disk block command reserved >>> 20) &&& 255 = block ∧
    (op_construct disk block command reserved >>> 14) &&& 63 = command ∧
    op_construct disk block command reserved &&& 16383 = reserved ∧
    ∀ (disk2 block2 command2 reserved2 : Nat), disk2 < 16 → block2 < 256 → command2 < 64 →
      reserved2 < 16384 →
      op_construct disk block command reserved = op_construct disk2 block2 command2 reserved2 →
      disk = disk2 ∧ block = block2 ∧ command = command2 ∧ reserved = reserved2 := by
  obtain ⟨h1, h2, h3, h4⟩ := op_construct_decode disk block command reserved hd hb hc hr
  refine ⟨op_construct_lt disk block command reserved hd hb hc hr, h1, h2, h3, h4, ?_⟩
  intro disk2 block2 command2 reserved2 gd gb gc gr heq
  obtain ⟨k1, k2, k3, k4⟩ := op_construct_decode disk2 block2 command2 reserved2 gd gb gc gr
  rw [← heq] at k1 k2 k3 k4
  exact ⟨h1.symm.trans k1, h2.symm.trans k2, h3.symm.trans k3, h4.symm.trans k4⟩

/-- C14 at the fields `disk = 15`, `block = 255`, `command = 5`, `reserved = 0`. -/
theorem C14_op_construct_lossless_witness :
    op_construct (15 : Nat) (255 : Nat) (5 : Nat) (0 : Nat) < 4294967296 ∧
    op_construct (15 : Nat) (255 : Nat) (5 : Nat) (0 : Nat) >>> 28 = 15 ∧
    (op_construct (15 : Nat) (255 : Nat) (5 : Nat) (0 : Nat) >>> 20) &&& 255 = 255 ∧
    (op_construct (15 : Nat) (255 : Nat) (5 : Nat) (0 : Nat) >>> 14) &&& 63 = 5 ∧
    op_construct (15 : Nat) (255 : Nat) (5 : Nat) (0 : Nat) &&& 16383 = 0 ∧
    ∀ (disk2 block2 command2 reserved2 : Nat), disk2 < 16 → block2 < 256 → command2 < 64 →
      reserved2 < 16384 →
      op_construct (15 : Nat) (255 : Nat) (5 : Nat) (0 : Nat) =
        op_construct disk2 block2 command2 reserved2 →
      15 = disk2 ∧ 255 = block2 ∧ 5 = command2 ∧ 0 = reserved2 :=
  C14_op_construct_lossless 15 255 5 0 (by decide) (by decide) (by decide) (by decide)

theorem jbod_operation_log (d : Jbod) (op : Nat) (buf : Option (List Byte)) :
    (jbod_operation d op buf).2.1.log = d.log ++ [(op, (jbod_operation d op buf).1)] := by
  unfold jbod_operation
  repeat' split
  all_goals rfl

/-- C13. Address translation: for `0 ≤ address ≤ 1048575`, over a device whose next two
operations succeed, `seek(address)` issues a seek-to-disk with disk `address / 65536` and then a
seek-to-block with block `(address mod 65536) / 256` (these two entries, with status 0, are what
it adds to the device log, and the device cursor is then on that disk and block), and it returns
the offset `(address mod 65536) mod 256`; the disk is below 16, the block and the offset are
below 256, so the result is not the failure value `-1`, and
`disk * 65536 + block * 256 + offset = address`. -/
theorem C13_address_translation (d : Jbod) (address : Nat) (ha : address ≤ 1048575)
    (h0 : d.fails d.log.length = false) (h1 : d.fails (d.log.length + 1) = false) :
    (seek d address).1 = ((address % 65536 % 256 : Nat) : Int) ∧
    (seek d address).2.log = d.log ++
      [(op_construct ((address / 65536 : Nat) : Int) 0 JBOD_SEEK_TO_DISK 0, 0),
       (op_construct 0 ((address % 65536 / 256 : Nat) : Int) JBOD_SEEK_TO_BLOCK 0, 0)] ∧
    cmdOf (op_construct ((address / 65536 : Nat) : Int) 0 JBOD_SEEK_TO_DISK 0) = 2 ∧
    diskOf (op_construct ((address / 65536 : Nat) : Int) 0 JBOD_SEEK_TO_DISK 0)
      = address / 65536 ∧
    cmdOf (op_construct 0 ((address % 65536 / 256 : Nat) : Int) JBOD_SEEK_TO_BLOCK 0) = 3 ∧
    blockOf (op_construct 0 ((address % 65536 / 256 : Nat) : Int) JBOD_SEEK_TO_BLOCK 0)
      = address % 65536 / 256 ∧
    (seek d address).2.disk = address / 65536 ∧
    (seek d address).2.block = address % 65536 / 256 ∧
    (seek d address).2.data = d.data ∧
    address / 65536 < 16 ∧ address % 65536 / 256 < 256 ∧ address % 65536 % 256 < 256 ∧
    (seek d address).1 ≠ -1 ∧
    address / 65536 * 65536 + address % 65536 / 256 * 256 + address % 65536 % 256 = address := by
  have hlt : address < 1048576 := by omega
  have hs := seek_ok d address hlt h0 h1
  have e1 : op_construct ((address / 65536 : Nat) : Int) 0 JBOD_SEEK_TO_DISK 0
      = seekDiskOp address := by
    unfold seekDiskOp JBOD_DISK_SIZE
    have h := tdiv_ofNat address 65536
    simp only [Nat.cast_ofNat] at h
    rw [h]
  have e2 : op_construct 0 ((address % 65536 / 256 : Nat) : Int) JBOD_SEEK_TO_BLOCK 0
      = seekBlockOp address := by
    unfold seekBlockOp JBOD_DISK_SIZE JBOD_BLOCK_SIZE
    have h := tmod_ofNat address 65536
    simp only [Nat.cast_ofNat] at h
    have h2 := tdiv_ofNat (address % 65536) 256
    simp only [Nat.cast_ofNat] at h2
    rw [h, h2]
  rw [hs, e1, e2]
  refine ⟨by show ((address % 256 : Nat) : Int) = _; omega, rfl, cmdOf_seekDiskOp address hlt,
    diskOf_seekDiskOp address hlt, cmdOf_seekBlockOp address, blockOf_seekBlockOp address, rfl,
    rfl, rfl, by omega, by omega, by omega, ?_, by omega⟩
  show ((address % 256 : Nat) : Int) ≠ -1
  omega

/-- C13 at the address 65531 (disk 0, block 255, offset 251) on the sample device. -/
theorem C13_address_translation_witness :
    (seek sampleDevice (65531 : Nat)).1 = ((65531 % 65536 % 256 : Nat) : Int) ∧
    (seek sampleDevice (65531 : Nat)).2.log = sampleDevice.log ++
      [(op_construct ((65531 / 65536 : Nat) : Int) 0 JBOD_SEEK_TO_DISK 0, 0),
       (op_construct 0 ((65531 % 65536 / 256 : Nat) : Int) JBOD_SEEK_TO_BLOCK 0, 0)] ∧
    cmdOf (op_construct ((65531 / 65536 : Nat) : Int) 0 JBOD_SEEK_TO_DISK 0) = 2 ∧
    diskOf (op_construct ((65531 / 65536 : Nat) : Int) 0 JBOD_SEEK_TO_DISK 0)
      = 65531 / 65536 ∧
    cmdOf (op_construct 0 ((65531 % 65536 / 256 : Nat) : Int) JBOD_SEEK_TO_BLOCK 0) = 3 ∧
    blockOf (op_construct 0 ((65531 % 65536 / 256 : Nat) : Int) JBOD_SEEK_TO_BLOCK 0)
      = 65531 % 65536 / 256 ∧
    (seek sampleDevice (65531 : Nat)).2.disk = 65531 / 65536 ∧
    (seek sampleDevice (65531 : Nat)).2.block = 65531 % 65536 / 256 ∧
    (seek sampleDevice (65531 : Nat)).2.data = sampleDevice.data ∧
    65531 / 65536 < 16 ∧ 65531 % 65536 / 256 < 256 ∧ 65531 % 65536 % 256 < 256 ∧
    (seek sampleDevice (65531 : Nat)).1 ≠ -1 ∧
    65531 / 65536 * 65536 + 65531 % 65536 / 256 * 256 + 65531 % 65536 % 256 = 65531 :=
  C13_address_translation sampleDevice 65531 (by decide) rfl rfl

/-- C18. Seek short-circuits on failure: for every address, if the seek-to-disk operation
reports `-1`, `seek` returns `-1` and the seek-to-disk is the only operation it issued; if the
seek-to-disk does not report `-1` and the seek-to-block does, `seek` returns `-1` having issued
these two operations; and for `0 ≤ addr ≤ 1048575`, `seek` returns `-1` only if one of its two
operations reported `-1`. -/
theorem C18_seek_short_circuits (d : Jbod) (addr : Int) :
    ((jbod_operation d (seekDiskOp addr) none).1 = -1 →
      (seek d addr).1 = -1 ∧ (seek d addr).2.log = d.log ++ [(seekDiskOp addr, -1)]) ∧
    ((jbod_operation d (seekDiskOp addr) none).1 ≠ -1 →
      (jbod_operation (jbod_operation d (seekDiskOp addr) none).2.1 (seekBlockOp addr) none).1
        = -1 →
      (seek d addr).1 = -1 ∧
      (seek d addr).2.log = d.log ++
        [(seekDiskOp addr, (jbod_operation d (seekDiskOp addr) none).1),
         (seekBlockOp addr, -1)]) ∧
    (0 ≤ addr → addr ≤ 1048575 → (seek d addr).1 = -1 →
      (jbod_operation d (seekDiskOp addr) none).1 = -1 ∨
      (jbod_operation (jbod_operation d (seekDiskOp addr) none).2.1 (seekBlockOp addr) none).1
        = -1) := by
  refine ⟨?_, ?_, ?_⟩
  · intro h
    rw [seek_unfold, if_pos h]
    refine ⟨rfl, ?_⟩
    show (jbod_operation d (seekDiskOp addr) none).2.1.log = _
    rw [jbod_operation_log, h]
  · intro h1 h2
    rw [seek_unfold, if_neg h1, if_pos h2]
    refine ⟨rfl, ?_⟩
    show (jbod_operation (jbod_operation d (seekDiskOp addr) none).2.1 (seekBlockOp addr)
      none).2.1.log = _
    rw [jbod_operation_log, jbod_operation_log, h2, List.append_assoc]
    rfl
  · intro h0 h1 hs
    by_cases c1 : (jbod_operation d (seekDiskOp addr) none).1 = -1
    · exact Or.inl c1
    · by_cases c2 : (jbod_operation (jbod_operation d (seekDiskOp addr) none).2.1
          (seekBlockOp addr) none).1 = -1
      · exact Or.inr c2
      · exfalso
        rw [seek_unfold, if_neg c1, if_neg c2] at hs
        have hm : Int.tmod (Int.tmod addr JBOD_DISK_SIZE) JBOD_BLOCK_SIZE = -1 := hs
        unfold JBOD_DISK_SIZE JBOD_BLOCK_SIZE at hm
        rw [Int.tmod_eq_emod h0 (by decide),
          Int.tmod_eq_emod (Int.emod_nonneg _ (by decide)) (by decide)] at hm
        omega

/-- C18 on the sample device with its first operation failing, and with its second operation
failing: the seek to address 700 returns `-1` after one, respectively two, operations. -/
theorem C18_seek_short_circuits_witness :
    ((seek sampleDeviceFailingFirst 700).1 = -1 ∧
      (seek sampleDeviceFailingFirst 700).2.log =
        sampleDeviceFailingFirst.log ++ [(seekDiskOp 700, -1)]) ∧
    ((seek sampleDeviceFailingSecond 700).1 = -1 ∧
      (seek sampleDeviceFailingSecond 700).2.log = sampleDeviceFailingSecond.log ++
        [(seekDiskOp 700, (jbod_operation sampleDeviceFailingSecond (seekDiskOp 700) none).1),
         (seekBlockOp 700, -1)]) :=
  ⟨(C18_seek_short_circuits sampleDeviceFailingFirst 700).1 (by decide),
    (C18_seek_short_circuits sampleDeviceFailingSecond 700).2.1 (by decide) (by decide)⟩

theorem neg_one_ne_one : ¬ ((-1 : Int) = 1) := by decide

theorem one_ne_zero_int : ¬ ((1 : Int) = 0) := by decide

theorem mdadm_mount_flag (m : Machine) (h : m.mount_state = 0 ∨ m.mount_state = 1) :
    (mdadm_mount m).2.mount_state = 0 ∨ (mdadm_mount m).2.mount_state = 1 := by
  unfold mdadm_mount
  by_cases c1 : m.mount_state = 1
  · rw [if_pos c1]; exact h
  · rw [if_neg c1]
    simp only []
    by_cases c2 : (jbod_operation m.jbod (op_construct 0 0 JBOD_MOUNT 0) none).1 = 0
    · rw [if_pos c2]; exact Or.inr rfl
    · rw [if_neg c2]; exact h

theorem mdadm_unmount_flag (m : Machine) (h : m.mount_state = 0 ∨ m.mount_state = 1) :
    (mdadm_unmount m).2.mount_state = 0 ∨ (mdadm_unmount m).2.mount_state = 1 := by
  unfold mdadm_unmount
  by_cases c1 : m.mount_state = 0
  · rw [if_pos c1]; exact h
  · rw [if_neg c1]
    simp only []
    by_cases c2 : (jbod_operation m.jbod (op_construct 0 0 JBOD_UNMOUNT 0) none).1 = 0
    · rw [if_pos c2]; exact Or.inl rfl
    · rw [if_neg c2]; exact h

theorem afterCall_flag (junk : Nat → Byte) (fuel : Nat) (m : Machine) (call : Call)
    (h : m.mount_state = 0 ∨ m.mount_state = 1) :
    (afterCall junk fuel m call).mount_state = 0 ∨
      (afterCall junk fuel m call).mount_state = 1 := by
  cases call with
  | mount => exact mdadm_mount_flag m h
  | unmount => exact mdadm_unmount_flag m h
  | read addr len buf =>
    simp only [afterCall]
    split
    · rename_i r hr
      rw [mdadm_read_mount_state junk fuel m addr len buf r hr]; exact h
    · exact h
  | write addr len buf =>
    simp only [afterCall]
    split
    · rename_i r hr
      rw [mdadm_write_mount_state junk fuel m addr len buf r hr]; exact h
    · exact h

/-- Every machine reached from an unmounted one by calls of the driver has its flag 0 or 1. -/
theorem afterCalls_flag (junk : Nat → Byte) (fuel : Nat) (calls : List Call) :
    ∀ (m : Machine), (m.mount_state = 0 ∨ m.mount_state = 1) →
      ((afterCalls junk fuel m calls).mount_state = 0 ∨
        (afterCalls junk fuel m calls).mount_state = 1) := by
  induction calls with
  | nil => intro m h; exact h
  | cons call rest ih =>
    intro m h
    exact ih (afterCall junk fuel m call) (afterCall_flag junk fuel m call h)

theorem mount_cases (m : Machine) (h : m.mount_state = 0 ∨ m.mount_state = 1) :
    ((mdadm_mount m).1 = 1 ↔
      (m.mount_state = 0 ∧ (jbod_operation m.jbod mountOp none).1 = 0)) ∧
    ((mdadm_mount m).1 = 1 →
      (mdadm_mount m).2 = ⟨1, (jbod_operation m.jbod mountOp none).2.1⟩) ∧
    ((mdadm_mount m).1 ≠ 1 →
      (mdadm_mount m).1 = -1 ∧ (mdadm_mount m).2.mount_state = m.mount_state) ∧
    (m.mount_state = 1 → mdadm_mount m = (-1, m)) := by
  unfold mdadm_mount mountOp
  rcases h with h | h
  · have h1 : ¬ m.mount_state = 1 := by rw [h]; decide
    rw [if_neg h1]
    by_cases c : (jbod_operation m.jbod (op_construct 0 0 JBOD_MOUNT 0) none).1 = 0
    · simp only [c, if_true]
      exact ⟨⟨fun _ => ⟨h, trivial⟩, fun _ => trivial⟩, fun _ => trivial,
        fun hne => absurd rfl hne, fun h2 => absurd h2 h1⟩
    · simp only [c, if_false]
      exact ⟨⟨fun h2 => absurd h2 neg_one_ne_one, fun h2 => absurd h2.2 (by simp)⟩,
        fun h2 => absurd h2 neg_one_ne_one, fun _ => ⟨trivial, trivial⟩,
        fun h2 => absurd h2 h1⟩
  · rw [if_pos h]
    exact ⟨⟨fun h2 => absurd h2 neg_one_ne_one,
        fun h2 => absurd (h.symm.trans h2.1) one_ne_zero_int⟩,
      fun h2 => absurd h2 neg_one_ne_one, fun _ => ⟨rfl, rfl⟩, fun _ => rfl⟩

theorem unmount_cases (m : Machine) (h : m.mount_state = 0 ∨ m.mount_state = 1) :
    ((mdadm_unmount m).1 = 1 ↔
      (m.mount_state = 1 ∧ (jbod_operation m.jbod unmountOp none).1 = 0)) ∧
    ((mdadm_unmount m).1 = 1 →
      (mdadm_unmount m).2 = ⟨0, (jbod_operation m.jbod unmountOp none).2.1⟩) ∧
    ((mdadm_unmount m).1 ≠ 1 →
      (mdadm_unmount m).1 = -1 ∧ (mdadm_unmount m).2.mount_state = m.mount_state) ∧
    (m.mount_state = 0 → mdadm_unmount m = (-1, m)) := by
  unfold mdadm_unmount unmountOp
  rcases h with h | h
  · rw [if_pos h]
    exact ⟨⟨fun h2 => absurd h2 neg_one_ne_one,
        fun h2 => absurd (h2.1.symm.trans h) one_ne_zero_int⟩,
      fun h2 => absurd h2 neg_one_ne_one, fun _ => ⟨rfl, rfl⟩, fun _ => rfl⟩
  · have h1 : ¬ m.mount_state = 0 := by rw [h]; decide
    rw [if_neg h1]
    by_cases c : (jbod_operation m.jbod (op_construct 0 0 JBOD_UNMOUNT 0) none).1 = 0
    · simp only [c, if_true]
      exact ⟨⟨fun _ => ⟨h, trivial⟩, fun _ => trivial⟩, fun _ => trivial,
        fun hne => absurd rfl hne, fun h2 => absurd h2 h1⟩
    · simp only [c, if_false]
      exact ⟨⟨fun h2 => absurd h2 neg_one_ne_one, fun h2 => absurd h2.2 (by simp)⟩,
        fun h2 => absurd h2 neg_one_ne_one, fun _ => ⟨trivial, trivial⟩,
        fun h2 => absurd h2 h1⟩

/-- C12. Mount state machine: in every state `m` reached from the initial unmounted state by
calls of the driver, the flag is 0 or 1; `mdadm_mount` returns `1` exactly when the state is
unmounted and the device's `MOUNT` command reports success, and then the state is mounted;
`mdadm_unmount` returns `1` exactly when the state is mounted and the device's `UNMOUNT` command
reports success, and then the state is unmounted; in every other case the call returns `-1` and
leaves the flag as it was, and a call made in the wrong state leaves the whole machine, device log
included, as it was.  Hence a second mount after a successful mount returns `-1`, and a second
unmount after a successful unmount returns `-1`. -/
theorem C12_mount_state_machine (junk : Nat → Byte) (fuel : Nat) (dev : Jbod)
    (calls : List Call) (m : Machine) (hm : m = afterCalls junk fuel ⟨0, dev⟩ calls) :
    (m.mount_state = 0 ∨ m.mount_state = 1) ∧
    ((mdadm_mount m).1 = 1 ↔
      (m.mount_state = 0 ∧ (jbod_operation m.jbod mountOp none).1 = 0)) ∧
    ((mdadm_mount m).1 = 1 →
      (mdadm_mount m).2 = ⟨1, (jbod_operation m.jbod mountOp none).2.1⟩) ∧
    ((mdadm_mount m).1 ≠ 1 →
      (mdadm_mount m).1 = -1 ∧ (mdadm_mount m).2.mount_state = m.mount_state) ∧
    (m.mount_state = 1 → mdadm_mount m = (-1, m)) ∧
    ((mdadm_unmount m).1 = 1 ↔
      (m.mount_state = 1 ∧ (jbod_operation m.jbod unmountOp none).1 = 0)) ∧
    ((mdadm_unmount m).1 = 1 →
      (mdadm_unmount m).2 = ⟨0, (jbod_operation m.jbod unmountOp none).2.1⟩) ∧
    ((mdadm_unmount m).1 ≠ 1 →
      (mdadm_unmount m).1 = -1 ∧ (mdadm_unmount m).2.mount_state = m.mount_state) ∧
    (m.mount_state = 0 → mdadm_unmount m = (-1, m)) ∧
    ((mdadm_mount m).1 = 1 → mdadm_mount (mdadm_mount m).2 = (-1, (mdadm_mount m).2)) ∧
    ((mdadm_unmount m).1 = 1 →
      mdadm_unmount (mdadm_unmount m).2 = (-1, (mdadm_unmount m).2)) := by
  have hflag : m.mount_state = 0 ∨ m.mount_state = 1 := by
    rw [hm]; exact afterCalls_flag junk fuel calls ⟨0, dev⟩ (Or.inl rfl)
  obtain ⟨a1, a2, a3, a4⟩ := mount_cases m hflag
  obtain ⟨b1, b2, b3, b4⟩ := unmount_cases m hflag
  refine ⟨hflag, a1, a2, a3, a4, b1, b2, b3, b4, ?_, ?_⟩
  · intro h
    have hs : (mdadm_mount m).2.mount_state = 1 := by rw [a2 h]
    exact (mount_cases (mdadm_mount m).2 (Or.inr hs)).2.2.2 hs
  · intro h
    have hs : (mdadm_unmount m).2.mount_state = 0 := by rw [b2 h]
    exact (unmount_cases (mdadm_unmount m).2 (Or.inl hs)).2.2.2 hs

set_option maxRecDepth 20000 in
/-- C12 on the state reached from the unmounted sample machine by a mount, a write of 3 bytes
at address 255 and an unmount. -/
theorem C12_mount_state_machine_witness :
    ∃ m, m = afterCalls sampleJunk 5 ⟨0, sampleDevice⟩
        [Call.mount, Call.write 255 3 (some [1, 2, 3]), Call.unmount] ∧
      m.mount_state = 0 ∧
      ((mdadm_mount m).1 = 1 ↔
        (m.mount_state = 0 ∧ (jbod_operation m.jbod mountOp none).1 = 0)) ∧
      ((mdadm_mount m).1 = 1 → mdadm_mount (mdadm_mount m).2 = (-1, (mdadm_mount m).2)) ∧
      (m.mount_state = 0 → mdadm_unmount m = (-1, m)) := by
  obtain ⟨_, a1, _, _, _, _, _, _, b4, c1, _⟩ := C12_mount_state_machine sampleJunk 5
    sampleDevice [Call.mount, Call.write 255 3 (some [1, 2, 3]), Call.unmount] _ rfl
  exact ⟨_, rfl, rfl, a1, c1, b4⟩

/-! ## Splitting a request -/

theorem byteAt_of_data_eq (d e : Jbod) (h : e.data = d.data) (x : Nat) :
    e.byteAt x = d.byteAt x := by
  unfold Jbod.byteAt; rw [h]

/-- C11. Split equivalence: on a mounted driver over a device none of whose operations fails,
for a valid request `[a, a + len)` and a split point `b` with `a < b < a + len` (in particular
the block boundary of a request that spans two blocks), `mdadm_write(a, len, buf)` leaves the
same stored byte at every linear address as `mdadm_write(a, b - a, buf)` followed by
`mdadm_write(b, a + len - b, buf + (b - a))`, and `mdadm_read(a, len, out)` leaves the same
output buffer as `mdadm_read(a, b - a, out)` followed by
`mdadm_read(b, a + len - b, out + (b - a))`.  The pointer `p + (b - a)` is the buffer `p` without
its first `b - a` bytes, and the output of the second read is put back behind them. -/
theorem C11_split_equivalence (junk : Nat → Byte) (fuel : Nat) (m : Machine)
    (a len b : Nat) (buf out : List Byte) (hfuel : 5 ≤ fuel) (hm : m.mount_state = 1)
    (hdev : NeverFails m.jbod) (h2 : len ≤ 1024) (h3 : a + len - 1 ≤ 1048575)
    (hab : a < b) (hbl : b < a + len) (hbuf : buf.length = len) (hout : len ≤ out.length) :
    (∃ w w1 w2, mdadm_write junk fuel m a len (some buf) = .ok w ∧ w.ret = len ∧
      mdadm_write junk fuel m a (b - a) (some buf) = .ok w1 ∧ w1.ret = (b - a : Nat) ∧
      mdadm_write junk fuel w1.m b (a + len - b) (some (buf.drop (b - a))) = .ok w2 ∧
      w2.ret = (a + len - b : Nat) ∧
      ∀ x, w2.m.jbod.byteAt x = w.m.jbod.byteAt x) ∧
    (∃ r r1 r2 o1 o2, mdadm_read junk fuel m a len (some out) = .ok r ∧ r.ret = len ∧
      mdadm_read junk fuel m a (b - a) (some out) = .ok r1 ∧ r1.ret = (b - a : Nat) ∧
      r1.buf = some o1 ∧
      mdadm_read junk fuel r1.m b (a + len - b) (some (o1.drop (b - a))) = .ok r2 ∧
      r2.ret = (a + len - b : Nat) ∧ r2.buf = some o2 ∧
      r.buf = some (o1.take (b - a) ++ o2)) := by
  have hm0 : m.mount_state ≠ 0 := by rw [hm]; decide
  constructor
  · obtain ⟨w, hw, w1, _, _, _, w5⟩ := mdadm_write_ok junk fuel hfuel m a len buf hm0
      (by omega) h2 (by omega) (by omega) hdev
    obtain ⟨v, hv, v1, v2, v3, _, v5⟩ := mdadm_write_ok junk fuel hfuel m a (b - a) buf hm0
      (by omega) (by omega) (by omega) (by omega) hdev
    obtain ⟨u, hu, u1, _, _, _, u5⟩ := mdadm_write_ok junk fuel hfuel v.m b (a + len - b)
      (buf.drop (b - a)) (by rw [v2]; exact hm0) (by omega) (by omega) (by omega)
      (by rw [List.length_drop]; omega) (neverFails_of_fails_eq _ _ v3 hdev)
    refine ⟨w, v, u, hw, w1, hv, v1, hu, u1, ?_⟩
    intro x
    rw [u5 x, w5 x, v5 x]
    by_cases c1 : b + 0 ≤ x ∧ x < b + (a + len - b)
    · rw [if_pos c1, if_pos (by omega), List.getD_eq_getElem?_getD, List.getD_eq_getElem?_getD,
        List.getElem?_drop, show b - a + (x - b) = x - a by omega]
    · rw [if_neg c1]
      by_cases c2 : a + 0 ≤ x ∧ x < a + (b - a)
      · rw [if_pos c2, if_pos (by omega)]
      · rw [if_neg c2, if_neg (by omega)]
  · obtain ⟨r, o, hr, r1, _, _, _, r5, _, r7⟩ := mdadm_read_ok junk fuel hfuel m a len out hm0
      (by omega) h2 (by omega) hout hdev
    obtain ⟨s, o1, hs, s1, s2, s3, s4, s5, s6, s7⟩ := mdadm_read_ok junk fuel hfuel m a (b - a)
      out hm0 (by omega) (by omega) (by omega) (by omega) hdev
    obtain ⟨t, o2, ht, t1, _, _, _, t5, _, t7⟩ := mdadm_read_ok junk fuel hfuel s.m b
      (a + len - b) (o1.drop (b - a)) (by rw [s2]; exact hm0) (by omega) (by omega) (by omega)
      (by rw [List.length_drop]; omega) (neverFails_of_fails_eq _ _ s4 hdev)
    refine ⟨r, s, t, o1, o2, hr, r1, hs, s1, s5, ht, t1, t5, ?_⟩
    rw [r5]
    congr 1
    apply List.ext_getElem?
    intro i
    have hl : (o1.take (b - a)).length = b - a := by
      rw [List.length_take]; omega
    rw [r7 i]
    by_cases c1 : i < b - a
    · rw [List.getElem?_append_left (by omega), List.getElem?_take_of_lt c1, s7 i, if_pos c1,
        if_pos (by omega)]
    · rw [List.getElem?_append_right (by omega), hl, t7 (i - (b - a))]
      by_cases c2 : i < len
      · rw [if_pos c2, if_pos (by omega), byteAt_of_data_eq _ _ s3,
          show b + (i - (b - a)) = a + i by omega]
      · rw [if_neg c2, if_neg (by omega), List.getElem?_drop,
          show b - a + (i - (b - a)) = i by omega, s7 i, if_neg (by omega)]

/-- C11 at the request of the claim: `a = 251`, `len = 10`, split at the block boundary 256. -/
theorem C11_split_equivalence_witness :
    (∃ w w1 w2, mdadm_write sampleJunk 5 sampleMachine 251 10
        (some [1, 2, 3, 4, 5, 6, 7, 8, 9, 10]) = .ok w ∧ w.ret = (10 : Nat) ∧
      mdadm_write sampleJunk 5 sampleMachine 251 (256 - 251)
        (some [1, 2, 3, 4, 5, 6, 7, 8, 9, 10]) = .ok w1 ∧ w1.ret = (256 - 251 : Nat) ∧
      mdadm_write sampleJunk 5 w1.m 256 (251 + 10 - 256)
        (some ([1, 2, 3, 4, 5, 6, 7, 8, 9, 10].drop (256 - 251))) = .ok w2 ∧
      w2.ret = (251 + 10 - 256 : Nat) ∧
      ∀ x, w2.m.jbod.byteAt x = w.m.jbod.byteAt x) ∧
    (∃ r r1 r2 o1 o2, mdadm_read sampleJunk 5 sampleMachine 251 10
        (some (List.replicate 10 0)) = .ok r ∧ r.ret = (10 : Nat) ∧
      mdadm_read sampleJunk 5 sampleMachine 251 (256 - 251) (some (List.replicate 10 0))
        = .ok r1 ∧ r1.ret = (256 - 251 : Nat) ∧
      r1.buf = some o1 ∧
      mdadm_read sampleJunk 5 r1.m 256 (251 + 10 - 256) (some (o1.drop (256 - 251))) = .ok r2 ∧
      r2.ret = (251 + 10 - 256 : Nat) ∧ r2.buf = some o2 ∧
      r.buf = some (o1.take (256 - 251) ++ o2)) :=
  C11_split_equivalence sampleJunk 5 sampleMachine 251 10 256 [1, 2, 3, 4, 5, 6, 7, 8, 9, 10]
    (List.replicate 10 0) (by decide) rfl (fun _ => rfl) (by decide) (by decide) (by decide)
    (by decide) (by decide) (by decide)

/-! ## Logs: positioned transfers -/

theorem positioned_nil (lo hi : Nat) : Positioned lo hi [] := by
  intro i h
  obtain ⟨e, he, _⟩ := h
  simp at he

theorem positioned_append (lo hi : Nat) (l1 l2 : List (Nat × Int)) (h1 : Positioned lo hi l1)
    (h2 : Positioned lo hi l2) : Positioned lo hi (l1 ++ l2) := by
  intro i h
  obtain ⟨e, he, hc⟩ := h
  by_cases c : i < l1.length
  · rw [List.getElem?_append_left c] at he
    obtain ⟨g1, a, g2, g3, g4, g5⟩ := h1 i ⟨e, he, hc⟩
    refine ⟨g1, a, g2, g3, ?_, ?_⟩
    · rw [List.getElem?_append_left (by omega)]; exact g4
    · rw [List.getElem?_append_left (by omega)]; exact g5
  · rw [List.getElem?_append_right (by omega)] at he
    obtain ⟨g1, a, g2, g3, g4, g5⟩ := h2 (i - l1.length) ⟨e, he, hc⟩
    refine ⟨by omega, a, g2, g3, ?_, ?_⟩
    · rw [List.getElem?_append_right (by omega),
        show i - 2 - l1.length = i - l1.length - 2 by omega]
      exact g4
    · rw [List.getElem?_append_right (by omega),
        show i - 1 - l1.length = i - l1.length - 1 by omega]
      exact g5

theorem positioned_of_no_transfer (lo hi : Nat) (l : List (Nat × Int))
    (h : ∀ e ∈ l, cmdOf e.1 = 2 ∨ cmdOf e.1 = 3) : Positioned lo hi l := by
  intro i hi2
  obtain ⟨e, he, hc⟩ := hi2
  have hmem : e ∈ l := List.getElem?_mem he
  rcases h e hmem with h | h <;> rcases hc with hc | hc <;> omega

theorem positioned_transfer (lo hi a op : Nat) (st : Int) (h1 : lo ≤ a) (h2 : a < hi)
    (h3 : a < 1048576) :
    Positioned lo hi [(seekDiskOp a, 0), (seekBlockOp a, 0), (op, st)] := by
  intro i hi2
  obtain ⟨e, he, hc⟩ := hi2
  have c1 := cmdOf_seekDiskOp a h3
  have c2 := cmdOf_seekBlockOp a
  rcases i with _ | _ | _ | i
  · simp at he; rw [← he] at hc; simp only [] at hc; omega
  · simp at he; rw [← he] at hc; simp only [] at hc; omega
  · exact ⟨by omega, a, h1, h2, rfl, rfl⟩
  · simp at he

theorem positioned_seeks (lo hi a : Nat) (s1 s2 : Int) (h3 : a < 1048576) :
    Positioned lo hi [(seekDiskOp a, s1), (seekBlockOp a, s2)] := by
  apply positioned_of_no_transfer
  intro e he
  simp at he
  rcases he with he | he
  · rw [he]; exact Or.inl (cmdOf_seekDiskOp a h3)
  · rw [he]; exact Or.inr (cmdOf_seekBlockOp a)

theorem positioned_seek_disk (lo hi a : Nat) (s1 : Int) (h3 : a < 1048576) :
    Positioned lo hi [(seekDiskOp a, s1)] := by
  apply positioned_of_no_transfer
  intro e he
  simp at he
  rw [he]; exact Or.inl (cmdOf_seekDiskOp a h3)

theorem positioned_failGroup (lo hi a op : Nat) (g : List (Nat × Int)) (h1 : lo ≤ a)
    (h2 : a < hi) (h3 : a < 1048576) (hg : FailGroup a op g) : Positioned lo hi g := by
  rcases hg with hg | hg | hg
  · rw [hg]; exact positioned_seek_disk lo hi a _ h3
  · rw [hg]; exact positioned_seeks lo hi a _ _ h3
  · rw [hg]; exact positioned_transfer lo hi a op _ h1 h2 h3

theorem seekOps_congr (a b : Nat) (ha : a < 1048576) (hb : b < 1048576)
    (h : a / 256 = b / 256) :
    seekDiskOp (a : Int) = seekDiskOp (b : Int) ∧ seekBlockOp (a : Int) = seekBlockOp (b : Int) := by
  rw [seekDiskOp_eq a ha, seekDiskOp_eq b hb, seekBlockOp_eq a, seekBlockOp_eq b]
  have e1 : a / 65536 = b / 65536 := by omega
  have e2 : a % 65536 / 256 = b % 65536 / 256 := by omega
  rw [e1, e2]
  exact ⟨rfl, rfl⟩

/-- A log positioned for addresses of one block is positioned for any address of that block. -/
theorem positioned_block (lo hi lo2 hi2 cur : Nat) (l : List (Nat × Int))
    (hblk : ∀ a, lo ≤ a → a < hi → a / 256 = cur / 256 ∧ a < 1048576)
    (h1 : lo2 ≤ cur) (h2 : cur < hi2) (h3 : cur < 1048576) (h : Positioned lo hi l) :
    Positioned lo2 hi2 l := by
  intro i hi3
  obtain ⟨g1, a, g2, g3, g4, g5⟩ := h i hi3
  obtain ⟨k1, k2⟩ := hblk a g2 g3
  obtain ⟨e1, e2⟩ := seekOps_congr a cur k2 h3 k1
  exact ⟨g1, cur, h1, h2, by rw [g4, e1], by rw [g5, e2]⟩

/-! ## The traces of whole runs -/

theorem readTrace_nil : ReadTrace [] [] := by
  rw [ReadTrace]

theorem readTrace_fail (cur : Nat) (rest : List Nat) (g : List (Nat × Int))
    (h : FailGroup cur readOp g) : ReadTrace (cur :: rest) g := by
  rw [ReadTrace]; exact Or.inl h

theorem readTrace_cons (cur : Nat) (rest : List Nat) (l2 : List (Nat × Int))
    (h : ReadTrace rest l2) : ReadTrace (cur :: rest) (readGroup cur ++ l2) := by
  rw [ReadTrace]; exact Or.inr ⟨l2, rfl, h⟩

theorem writeTrace_nil (addr len : Nat) : WriteTrace addr len [] [] := by
  rw [WriteTrace]

theorem writeTrace_stop (addr len cur : Nat) (rest : List Nat) (g : List (Nat × Int))
    (h : WriteStop addr len cur g) : WriteTrace addr len (cur :: rest) g := by
  rw [WriteTrace]; exact Or.inl h

theorem writeTrace_cons (addr len cur : Nat) (rest : List Nat) (g l2 : List (Nat × Int))
    (hg : WritePass addr len cur g) (h : WriteTrace addr len rest l2) :
    WriteTrace addr len (cur :: rest) (g ++ l2) := by
  rw [WriteTrace]; exact Or.inr ⟨g, l2, hg, rfl, h⟩

/-! ## One iteration of the reader, whatever the device does -/

/-- Positioning the device on `a` and reading the block there, with the log entries of each of
the three ways it can fail. -/
theorem fetch_log_cases (junk : Nat → Byte) (d : Jbod) (a : Nat) (ha : a < 1048576) :
    ((seek d a).1 = -1 ∧ (∃ g, (seek d a).2.log = d.log ++ g ∧ FailGroup a readOp g) ∧
      (seek d a).2.fails = d.fails ∧ ∃ j, d.fails j = true) ∨
    ((seek d a).1 = ((a % 256 : Nat) : Int) ∧
      (jbod_operation (seek d a).2 readOp (some (loaderDecl junk))).1 = -1 ∧
      (∃ g, (jbod_operation (seek d a).2 readOp (some (loaderDecl junk))).2.1.log = d.log ++ g ∧
        FailGroup a readOp g) ∧
      (jbod_operation (seek d a).2 readOp (some (loaderDecl junk))).2.1.fails = d.fails ∧
      ∃ j, d.fails j = true) ∨
    ((seek d a).1 = ((a % 256 : Nat) : Int) ∧
      jbod_operation (seek d a).2 readOp (some (loaderDecl junk)) =
        (0, d.fetched a, some (d.blockAt a))) := by
  by_cases h0 : d.fails d.log.length = true
  · left
    rw [seek_fail_disk d a h0]
    exact ⟨rfl, ⟨_, rfl, Or.inl rfl⟩, rfl, _, h0⟩
  have h0f : d.fails d.log.length = false := by simpa using h0
  by_cases h1 : d.fails (d.log.length + 1) = true
  · left
    rw [seek_fail_block d a ha h0f h1]
    exact ⟨rfl, ⟨_, rfl, Or.inr (Or.inl rfl)⟩, rfl, _, h1⟩
  have h1f : d.fails (d.log.length + 1) = false := by simpa using h1
  right
  rw [seek_ok d a ha h0f h1f]
  by_cases h2 : d.fails (d.log.length + 2) = true
  · left
    rw [jbod_operation_failing _ _ _ (by simpa [Jbod.sought] using h2)]
    refine ⟨rfl, rfl, ⟨_, ?_, Or.inr (Or.inr rfl)⟩, rfl, _, h2⟩
    simp [Jbod.record, Jbod.sought]
  have h2f : d.fails (d.log.length + 2) = false := by simpa using h2
  right
  rw [jbod_operation_read _ _ (by simpa [Jbod.sought] using h2f)]
  refine ⟨rfl, ?_⟩
  have hl : List.drop 256 (loaderDecl junk) = [] :=
    List.drop_eq_nil_of_le (by rw [loaderDecl_length])
  simp [Jbod.record, Jbod.sought, Jbod.fetched, Jbod.current, Jbod.blockAt, hl]

/-- One pass through the body of the reader at a state of a valid request, whatever the device
does: either an operation fails and the pass returns `-1`, the log cut at the failing operation,
or the pass ends with `currentAddr` advanced by `min (256 - offset) remaining` bytes. -/
theorem read_body_cases (junk : Nat → Byte) (ms : Int) (addr len : Nat) (h2 : len ≤ 1024)
    (hrange : addr + len ≤ 1048576) (k : Nat) (ds bufP : Int) (d : Jbod) (b : List Byte)
    (hk : k < len) (hal : (addr + k) % 256 = 0 ∨ k = 0) (hbp : bufP + ds = (k : Int))
    (hb0 : k = 0 → bufP = 0) (hb : len ≤ b.length) :
    (∃ e g, read_body junk ms addr len readOp ((addr + len : Nat) : Int)
        ⟨((addr + k : Nat) : Int), ds, bufP, d, some b⟩ =
          .ok (.returned ⟨-1, ⟨ms, e⟩, some b⟩) ∧
      e.log = d.log ++ g ∧ FailGroup (addr + k) readOp g ∧ e.fails = d.fails ∧
      ∃ j, d.fails j = true) ∨
    (∃ b2, read_body junk ms addr len readOp ((addr + len : Nat) : Int)
        ⟨((addr + k : Nat) : Int), ds, bufP, d, some b⟩ =
      .ok (.again ⟨((addr + (k + min (256 - (addr + k) % 256) (len - k)) : Nat) : Int),
        ((min (256 - (addr + k) % 256) (len - k) : Nat) : Int), (k : Int),
        d.fetched (addr + k), some b2⟩) ∧ b2.length = b.length) := by
  have hcond : ((addr + k : Nat) : Int) < ((addr + len : Nat) : Int) := by omega
  have hoff : ¬ (((addr + k) % 256 : Nat) : Int) = -1 := by omega
  have hcur : toU32 ((addr + k : Nat) : Int) = addr + k := toU32_ofNat _ (by omega)
  have hu : toU32 (((addr + k) % 256 : Nat) : Int) = (addr + k) % 256 :=
    toU32_ofNat _ (by omega)
  have h256 : toU32 256 = 256 := by decide
  have hlenI : toI32 len = (len : Int) := toI32_small len (by omega)
  generalize hn : min (256 - (addr + k) % 256) (len - k) = n
  unfold read_body
  dsimp only
  rcases fetch_log_cases junk d (addr + k) (by omega) with
    ⟨e1, ⟨g, hg, hf⟩, hfl, hj⟩ | ⟨e1, e2, ⟨g, hg, hf⟩, hfl, hj⟩ | ⟨e1, e2⟩
  · exact Or.inl ⟨_, g, by simp only [e1, if_true], hg, hf, hfl, hj⟩
  · exact Or.inl ⟨_, g, by simp only [e1, hoff, if_false, e2, if_true], hg, hf, hfl, hj⟩
  · right
    simp only [e1, hoff, if_false, e2, hcur, JBOD_BLOCK_SIZE, hu, h256, hlenI]
    rw [if_neg (by decide)]
    by_cases hk0 : k = 0
    · subst hk0
      have hbp0 : bufP = 0 := hb0 rfl
      subst hbp0
      rw [if_pos (by omega)]
      by_cases hfit : ((addr + 0) % 256 + len) % 4294967296 ≤ 256
      · rw [if_pos hfit]
        obtain ⟨out, hm, hlen, _⟩ := memcpy_int b (d.blockAt (addr + 0)) 0
          (((addr + 0) % 256 : Nat) : Int) (len : Int) 0 ((addr + 0) % 256) len rfl rfl rfl
          (by omega) (by rw [blockAt_length]; omega)
        have hc2 : ((addr + 0 : Nat) : Int) + (len : Int) = ((addr + (0 + n) : Nat) : Int) := by
          omega
        have hn2 : (len : Int) = (n : Int) := by omega
        simp only [hm, hc2]
        rw [hn2]
        exact ⟨out, rfl, hlen⟩
      · rw [if_neg hfit]
        obtain ⟨out, hm, hlen, _⟩ := memcpy_int b (d.blockAt (addr + 0)) 0
          (((addr + 0) % 256 : Nat) : Int) (256 - (((addr + 0) % 256 : Nat) : Int)) 0
          ((addr + 0) % 256) (256 - (addr + 0) % 256) rfl rfl (by omega) (by omega)
          (by rw [blockAt_length]; omega)
        have hc2 : ((addr + 0 : Nat) : Int) + (256 - (((addr + 0) % 256 : Nat) : Int))
            = ((addr + (0 + n) : Nat) : Int) := by omega
        have hn2 : (256 - (((addr + 0) % 256 : Nat) : Int)) = (n : Int) := by omega
        simp only [hm, hc2]
        rw [hn2]
        exact ⟨out, rfl, hlen⟩
    · rw [if_neg (by omega)]
      by_cases hfull : ((addr + len : Nat) : Int) - ((addr + k : Nat) : Int) ≥ 256
      · rw [if_pos hfull]
        obtain ⟨out, hm, hlen, _⟩ := memcpy_int b (d.blockAt (addr + k)) (k : Int) 0 256
          k 0 256 rfl rfl (by omega) (by omega) (by rw [blockAt_length])
        have hc2 : ((addr + k : Nat) : Int) + 256 = ((addr + (k + n) : Nat) : Int) := by omega
        have hn2 : (256 : Int) = (n : Int) := by omega
        simp only [hbp, hm, hc2]
        rw [hn2]
        exact ⟨out, rfl, hlen⟩
      · rw [if_neg hfull]
        obtain ⟨out, hm, hlen, _⟩ := memcpy_int b (d.blockAt (addr + k)) (k : Int) 0
          (((addr + len : Nat) : Int) - ((addr + k : Nat) : Int))
          k 0 (len - k) rfl rfl (by omega) (by omega) (by rw [blockAt_length]; omega)
        have hc2 : ((addr + k : Nat) : Int) + (((addr + len : Nat) : Int) -
            ((addr + k : Nat) : Int)) = ((addr + (k + n) : Nat) : Int) := by omega
        have hn2 : (((addr + len : Nat) : Int) - ((addr + k : Nat) : Int)) = (n : Int) := by
          omega
        simp only [hbp, hm, hc2]
        rw [hn2]
        exact ⟨out, rfl, hlen⟩

/-- One iteration of the reader at a state of a valid request: either an operation fails and the
call returns `-1`, or the loop goes on `min (256 - offset) remaining` bytes further. -/
theorem read_step (junk : Nat → Byte) (ms : Int) (addr len : Nat) (h2 : len ≤ 1024)
    (hrange : addr + len ≤ 1048576) (fuel k : Nat) (ds bufP : Int) (d : Jbod) (b : List Byte)
    (hk : k < len) (hal : (addr + k) % 256 = 0 ∨ k = 0) (hbp : bufP + ds = (k : Int))
    (hb0 : k = 0 → bufP = 0) (hb : len ≤ b.length) :
    (∃ e g, read_loop junk ms addr len readOp ((addr + len : Nat) : Int) (fuel + 1)
        ((addr + k : Nat) : Int) ds bufP d (some b) = .ok ⟨-1, ⟨ms, e⟩, some b⟩ ∧
      e.log = d.log ++ g ∧ FailGroup (addr + k) readOp g ∧ e.fails = d.fails ∧
      ∃ j, d.fails j = true) ∨
    (∃ b2, read_loop junk ms addr len readOp ((addr + len : Nat) : Int) (fuel + 1)
        ((addr + k : Nat) : Int) ds bufP d (some b) =
      read_loop junk ms addr len readOp ((addr + len : Nat) : Int) fuel
        ((addr + (k + min (256 - (addr + k) % 256) (len - k)) : Nat) : Int)
        ((min (256 - (addr + k) % 256) (len - k) : Nat) : Int) (k : Int)
        (d.fetched (addr + k)) (some b2) ∧ b2.length = b.length) := by
  have hcond : ((addr + k : Nat) : Int) < ((addr + len : Nat) : Int) := by omega
  rcases read_body_cases junk ms addr len h2 hrange k ds bufP d b hk hal hbp hb0 hb with
    ⟨e, g, hbody, hrest⟩ | ⟨b2, hbody, hlen⟩
  · exact Or.inl ⟨e, g, by rw [read_loop, if_pos hcond, hbody], hrest⟩
  · exact Or.inr ⟨b2, by rw [read_loop, if_pos hcond, hbody], hlen⟩

/-! ## Counting iterations -/

theorem iters_done (final cur : Nat) (h : ¬ cur < final) : iters final cur = 0 := by
  unfold iters; rw [if_neg h]

theorem iters_step (addr len k : Nat) (hk : k < len) :
    iters (addr + len) (addr + k) =
      iters (addr + len) (addr + (k + min (256 - (addr + k) % 256) (len - k))) + 1 := by
  unfold iters
  rw [if_pos (by omega)]
  split <;> omega

theorem iters_pos (addr len k : Nat) (hk : k < len) : 0 < iters (addr + len) (addr + k) := by
  rw [iters_step addr len k hk]; omega

theorem cursorsFrom_done (final cur : Nat) (h : ¬ cur < final) : cursorsFrom final cur = [] := by
  unfold cursorsFrom; rw [iters_done final cur h]; rfl

theorem cursorsFrom_step (addr len k : Nat) (hk : k < len) :
    cursorsFrom (addr + len) (addr + k) =
      (addr + k) ::
        cursorsFrom (addr + len) (addr + (k + min (256 - (addr + k) % 256) (len - k))) := by
  unfold cursorsFrom
  rw [iters_step addr len k hk, List.range_succ_eq_map, List.map_cons, List.map_map]
  congr 1
  · omega
  · apply List.map_congr_left
    intro i hi
    rw [List.mem_range] at hi
    have hlt : addr + (k + min (256 - (addr + k) % 256) (len - k)) < addr + len := by
      by_contra hc
      rw [iters_done _ _ hc] at hi
      omega
    show max (addr + k) (((addr + k) / 256 + (i + 1)) * 256) = _
    omega

/-! ## The run of the reader -/

/-- The loop of the reader from a state of a valid request, whatever the device does and
whatever the fuel: it runs out of fuel only when the fuel is less than the number of iterations
left; otherwise it has a result, the caller buffer keeps its length, every block transfer in the
log it adds is positioned, and over a device that never fails the fuel was enough, the call
returns `len` and the log it adds is one `readGroup` per current address. -/
theorem read_loop_run (junk : Nat → Byte) (ms : Int) (addr len : Nat) (h2 : len ≤ 1024)
    (hrange : addr + len ≤ 1048576) :
    ∀ (fuel k : Nat) (ds bufP : Int) (d : Jbod) (b : List Byte),
      k ≤ len → ((addr + k) % 256 = 0 ∨ k = 0 ∨ k = len) → bufP + ds = (k : Int) →
      (k = 0 → bufP = 0) → len ≤ b.length →
      (read_loop junk ms addr len readOp ((addr + len : Nat) : Int) fuel
          ((addr + k : Nat) : Int) ds bufP d (some b) = .error .outOfFuel ∧
        fuel < iters (addr + len) (addr + k)) ∨
      (∃ r o new, read_loop junk ms addr len readOp ((addr + len : Nat) : Int) fuel
          ((addr + k : Nat) : Int) ds bufP d (some b) = .ok r ∧
        r.buf = some o ∧ o.length = b.length ∧ r.m.jbod.log = d.log ++ new ∧
        r.m.jbod.fails = d.fails ∧ Positioned addr (addr + len) new ∧
        ReadTrace (cursorsFrom (addr + len) (addr + k)) new ∧
        (NeverFails d → iters (addr + len) (addr + k) ≤ fuel ∧ r.ret = len ∧
          new = (cursorsFrom (addr + len) (addr + k)).flatMap readGroup)) := by
  intro fuel
  induction fuel with
  | zero =>
    intro k ds bufP d b hkl hal hbp hb0 hb
    by_cases hend : k = len
    · subst hend
      right
      refine ⟨_, b, [], read_loop_stop _ _ _ _ _ _ _ _ _ _ _ _ (by omega), rfl, rfl,
        by simp, rfl, positioned_nil _ _,
        by rw [cursorsFrom_done _ _ (by omega)]; exact readTrace_nil, ?_⟩
      intro _
      rw [iters_done _ _ (by omega), cursorsFrom_done _ _ (by omega)]
      exact ⟨by omega, toI32_small k (by omega), rfl⟩
    · left
      have hcond : ((addr + k : Nat) : Int) < ((addr + len : Nat) : Int) := by omega
      exact ⟨by rw [read_loop_zero, if_pos hcond], iters_pos addr len k (by omega)⟩
  | succ fuel ih =>
    intro k ds bufP d b hkl hal hbp hb0 hb
    by_cases hend : k = len
    · subst hend
      right
      refine ⟨_, b, [], read_loop_stop _ _ _ _ _ _ _ _ _ _ _ _ (by omega), rfl, rfl,
        by simp, rfl, positioned_nil _ _,
        by rw [cursorsFrom_done _ _ (by omega)]; exact readTrace_nil, ?_⟩
      intro _
      rw [iters_done _ _ (by omega), cursorsFrom_done _ _ (by omega)]
      exact ⟨by omega, toI32_small k (by omega), rfl⟩
    have hk : k < len := by omega
    rcases read_step junk ms addr len h2 hrange fuel k ds bufP d b hk (by omega) hbp hb0 hb
      with ⟨e, g, he, hlog, hg, hfl, j, hj⟩ | ⟨b2, hstep, hb2⟩
    · right
      refine ⟨_, b, g, he, rfl, rfl, hlog, hfl,
        positioned_failGroup _ _ _ _ g (by omega) (by omega) (by omega) hg,
        by rw [cursorsFrom_step addr len k hk]; exact readTrace_fail _ _ _ hg, ?_⟩
      intro hnf
      rw [hnf j] at hj
      exact absurd hj (by decide)
    · rw [hstep, iters_step addr len k hk, cursorsFrom_step addr len k hk]
      generalize hn : min (256 - (addr + k) % 256) (len - k) = n at *
      rcases ih (k + n) (n : Int) (k : Int) (d.fetched (addr + k)) b2 (by omega) (by omega)
        (by push_cast; ring) (by omega) (by omega) with ⟨herr, hlt⟩ | ⟨r, o, new, hr, ho, hol,
          hlog, hfl, hpos, htr, hnever⟩
      · exact Or.inl ⟨herr, by omega⟩
      · right
        refine ⟨r, o, readGroup (addr + k) ++ new, hr, ho, hol.trans hb2, ?_, hfl,
          positioned_append _ _ _ _
            (positioned_transfer _ _ _ _ _ (by omega) (by omega) (by omega)) hpos,
          readTrace_cons _ _ _ htr, ?_⟩
        · rw [hlog]; simp [Jbod.fetched, readGroup]
        · intro hnf
          obtain ⟨q1, q2, q3⟩ := hnever (neverFails_of_fails_eq d _ rfl hnf)
          refine ⟨by omega, q2, ?_⟩
          rw [List.flatMap_cons, q3]

/-- The reader on a valid request, whatever the device does and whatever the fuel. -/
theorem mdadm_read_run (junk : Nat → Byte) (fuel : Nat) (m : Machine) (addr len : Nat)
    (b : List Byte) (hm : m.mount_state ≠ 0) (h1 : 1 ≤ len) (h2 : len ≤ 1024)
    (hrange : addr + len ≤ 1048576) (hb : len ≤ b.length) :
    (mdadm_read junk fuel m addr len (some b) = .error .outOfFuel ∧
      fuel < iters (addr + len) addr) ∨
    (∃ r o new, mdadm_read junk fuel m addr len (some b) = .ok r ∧
      r.buf = some o ∧ o.length = b.length ∧ r.m.jbod.log = m.jbod.log ++ new ∧
      r.m.jbod.fails = m.jbod.fails ∧ Positioned addr (addr + len) new ∧
      ReadTrace (cursorsFrom (addr + len) addr) new ∧
      (NeverFails m.jbod → iters (addr + len) addr ≤ fuel ∧ r.ret = len ∧
        new = (cursorsFrom (addr + len) addr).flatMap readGroup)) := by
  have hmax : toU32 address_max = 1048575 := by decide
  have hl1 : toU32 ((len : Int) - 1) = len - 1 := by unfold toU32; omega
  have hchk : ¬ (addr + (len - 1)) % 4294967296 > 1048575 := by omega
  have hfin : toI32 ((addr + len) % 4294967296) = ((addr + len : Nat) : Int) := by
    rw [Nat.mod_eq_of_lt (by omega)]; exact toI32_small _ (by omega)
  have hcur : toI32 addr = ((addr + 0 : Nat) : Int) := toI32_small _ (by omega)
  unfold mdadm_read
  simp only [hmax, hl1, hfin, hcur]
  rw [if_neg hm, if_neg (by omega), if_neg (by omega), if_neg hchk, if_neg (by simp)]
  exact read_loop_run junk m.mount_state addr len h2 hrange fuel 0 0 0 m.jbod b (by omega)
    (by omega) (by simp) (fun _ => rfl) hb

/-! ## The loop variables of the reader, pass by pass -/

/-- The loop variables of the reader after `n` passes from a state of a valid request, whatever
the device does: when the loop is still running, `n` is at most the number of iterations left
and `currentAddr` is the `n`-th current address of `cursorsFrom` (the end of the request after
the last one); over a device that never fails the loop does run that long. -/
theorem read_vars_run (junk : Nat → Byte) (ms : Int) (addr len : Nat) (h2 : len ≤ 1024)
    (hrange : addr + len ≤ 1048576) :
    ∀ (n k : Nat) (ds bufP : Int) (d : Jbod) (b : List Byte),
      k ≤ len → ((addr + k) % 256 = 0 ∨ k = 0 ∨ k = len) → bufP + ds = (k : Int) →
      (k = 0 → bufP = 0) → len ≤ b.length →
      (∀ v, read_vars junk ms addr len readOp ((addr + len : Nat) : Int) n
          ⟨((addr + k : Nat) : Int), ds, bufP, d, some b⟩ = some v →
        n ≤ iters (addr + len) (addr + k) ∧
        v.currentAddr =
          (((cursorsFrom (addr + len) (addr + k))[n]?.getD (addr + len) : Nat) : Int)) ∧
      (NeverFails d → n ≤ iters (addr + len) (addr + k) →
        ∃ v, read_vars junk ms addr len readOp ((addr + len : Nat) : Int) n
          ⟨((addr + k : Nat) : Int), ds, bufP, d, some b⟩ = some v) := by
  intro n
  induction n with
  | zero =>
    intro k ds bufP d b hkl hal hbp hb0 hb
    refine ⟨?_, fun _ _ => ⟨_, rfl⟩⟩
    intro v hv
    rw [read_vars] at hv
    cases hv
    refine ⟨Nat.zero_le _, ?_⟩
    by_cases hk : k < len
    · rw [cursorsFrom_step addr len k hk, List.getElem?_cons_zero]; rfl
    · rw [cursorsFrom_done _ _ (by omega)]
      show ((addr + k : Nat) : Int) = ((addr + len : Nat) : Int)
      omega
  | succ n ih =>
    intro k ds bufP d b hkl hal hbp hb0 hb
    rw [read_vars]
    by_cases hk : k < len
    · have hcond : ((addr + k : Nat) : Int) < ((addr + len : Nat) : Int) := by omega
      rw [if_pos hcond, iters_step addr len k hk, cursorsFrom_step addr len k hk]
      rcases read_body_cases junk ms addr len h2 hrange k ds bufP d b hk (by omega) hbp hb0 hb
        with ⟨e, g, hbody, _, _, _, j, hj⟩ | ⟨b2, hbody, hlen⟩
      · rw [hbody]
        refine ⟨fun v hv => absurd hv (by simp), ?_⟩
        intro hnf
        rw [hnf j] at hj
        exact absurd hj (by decide)
      · rw [hbody]
        generalize hn : min (256 - (addr + k) % 256) (len - k) = m at *
        obtain ⟨q1, q2⟩ := ih (k + m) (m : Int) (k : Int) (d.fetched (addr + k)) b2 (by omega)
          (by omega) (by push_cast; ring) (by omega) (by omega)
        refine ⟨?_, ?_⟩
        · intro v hv
          obtain ⟨p1, p2⟩ := q1 v hv
          exact ⟨by omega, by rw [p2, List.getElem?_cons_succ]⟩
        · intro hnf hle
          exact q2 (neverFails_of_fails_eq d _ rfl hnf) (by omega)
    · have hcond : ¬ ((addr + k : Nat) : Int) < ((addr + len : Nat) : Int) := by omega
      rw [if_neg hcond, iters_done _ _ (by omega)]
      exact ⟨fun v hv => absurd hv (by simp), fun _ hle => absurd hle (by omega)⟩

/-- The values `read_vars` gives are the values the loop has: a run of the loop that has fuel for
`n` passes more, from values after which the loop is running `n` passes later, is the run of the
loop from the values it has then. -/
theorem read_loop_of_vars (junk : Nat → Byte) (ms : Int) (addr len : Nat) (opcode : Nat)
    (finalAddr : Int) :
    ∀ (n fuel : Nat) (v0 v : ReadVars),
      read_vars junk ms addr len opcode finalAddr n v0 = some v →
      read_loop junk ms addr len opcode finalAddr (fuel + n) v0.currentAddr v0.dataSize v0.bufP
          v0.dev v0.buf =
        read_loop junk ms addr len opcode finalAddr fuel v.currentAddr v.dataSize v.bufP v.dev
          v.buf := by
  intro n
  induction n with
  | zero =>
    intro fuel v0 v hv
    rw [read_vars] at hv
    cases hv
    rfl
  | succ n ih =>
    intro fuel v0 v hv
    rw [read_vars] at hv
    by_cases hcond : v0.currentAddr < finalAddr
    · rw [if_pos hcond] at hv
      rw [show fuel + (n + 1) = (fuel + n) + 1 from rfl, read_loop, if_pos hcond]
      cases hbody : read_body junk ms addr len opcode finalAddr v0 with
      | error e => rw [hbody] at hv; exact absurd hv (by simp)
      | ok x =>
        cases x with
        | returned r => rw [hbody] at hv; exact absurd hv (by simp)
        | again v2 =>
          rw [hbody] at hv
          exact ih fuel v2 v hv
    · rw [if_neg hcond] at hv
      exact absurd hv (by simp)

/-! ## One iteration of the writer, whatever the device does -/

theorem cursorsFrom_block (base : Nat) (h : base % 256 = 0) :
    cursorsFrom (base + 256) base = [base] := by
  unfold cursorsFrom iters
  rw [if_pos (by omega), show (base + 256 - 1) / 256 - base / 256 + 1 = 1 by omega]
  show [max base ((base / 256 + 0) * 256)] = [base]
  rw [show max base ((base / 256 + 0) * 256) = base by omega]

/-- The nested read of the block that starts at `base` into the array `loader`, whatever the
device does. -/
theorem nested_read_run (junk : Nat → Byte) (fuelR : Nat) (ms : Int) (hms : ms ≠ 0)
    (lo hi cur base : Nat) (d : Jbod) (hbase : base % 256 = 0) (hcb : cur / 256 = base / 256)
    (h1 : lo ≤ cur) (h2 : cur < hi) (h3 : cur < 1048576) :
    (mdadm_read junk fuelR ⟨ms, d⟩ base 256 (some (loaderDecl junk)) = .error .outOfFuel ∧
      fuelR = 0) ∨
    (∃ rr o g, mdadm_read junk fuelR ⟨ms, d⟩ base 256 (some (loaderDecl junk)) = .ok rr ∧
      rr.buf = some o ∧ o.length = 256 ∧ rr.m.jbod.log = d.log ++ g ∧
      rr.m.jbod.fails = d.fails ∧ Positioned lo hi g ∧
      (g = readGroup base ∨ FailGroup base readOp g) ∧
      (NeverFails d → g = readGroup base)) := by
  rcases mdadm_read_run junk fuelR ⟨ms, d⟩ base 256 (loaderDecl junk) hms (by omega) (by omega)
    (by omega) (by rw [loaderDecl_length]) with ⟨herr, hlt⟩ | ⟨rr, o, g, hr, ho, hol, hlog, hfl,
      hpos, htr, hnever⟩
  · left
    refine ⟨herr, ?_⟩
    unfold iters at hlt
    rw [if_pos (by omega)] at hlt
    omega
  · right
    refine ⟨rr, o, g, hr, ho, by rw [hol, loaderDecl_length], hlog, hfl, ?_, ?_, ?_⟩
    · exact positioned_block base (base + 256) lo hi cur g (fun a g1 g2 => by omega) h1 h2 h3
        hpos
    · rw [cursorsFrom_block base hbase, ReadTrace] at htr
      rcases htr with hf | ⟨l2, hl, hnil⟩
      · exact Or.inr hf
      · rw [ReadTrace] at hnil
        subst hnil
        left
        rw [hl, List.append_nil]
    · intro hnf
      obtain ⟨_, _, q3⟩ := hnever hnf
      rw [q3, cursorsFrom_block base hbase]
      simp [readGroup]

/-- The case analysis of one iteration of the writer at a state of a valid request, whatever the
device does: it takes `min (256 - offset) remaining` bytes, the array `loader` has 256 bytes, and
the log gains the entries of the nested read exactly when the block is not wholly covered. -/
theorem write_fill_run (junk : Nat → Byte) (fuelR : Nat) (ms : Int) (hms : ms ≠ 0)
    (addr len k : Nat) (d : Jbod) (b : List Byte) (hk : k < len) (h2 : len ≤ 1024)
    (hrange : addr + len ≤ 1048576) (hal : (addr + k) % 256 = 0 ∨ k = 0) (hb : len ≤ b.length) :
    (write_fill junk fuelR ms len ((addr + len : Nat) : Int) ((addr + k : Nat) : Int)
        (((addr + k) % 256 : Nat) : Int) (k : Int) d (some b) = .error .outOfFuel ∧
      fuelR = 0) ∨
    (∃ dev1 loader g, write_fill junk fuelR ms len ((addr + len : Nat) : Int)
        ((addr + k : Nat) : Int) (((addr + k) % 256 : Nat) : Int) (k : Int) d (some b) =
          .ok (((min (256 - (addr + k) % 256) (len - k) : Nat) : Int), dev1, loader) ∧
      loader.length = 256 ∧ dev1.log = d.log ++ g ∧ dev1.fails = d.fails ∧
      Positioned addr (addr + len) g ∧ NestedGroup addr len (addr + k) g ∧
      (NeverFails d → g = if covers addr len (addr + k) then []
        else readGroup (addr + k - (addr + k) % 256))) := by
  have h256 : toU32 JBOD_BLOCK_SIZE = 256 := by decide
  have hlenI : toI32 len = (len : Int) := toI32_small len (by omega)
  have hu : toU32 (((addr + k) % 256 : Nat) : Int) = (addr + k) % 256 := toU32_ofNat _ (by omega)
  have hbase : toU32 (((addr + k : Nat) : Int) - (((addr + k) % 256 : Nat) : Int)) =
      addr + k - (addr + k) % 256 := by unfold toU32; omega
  have hcur : toU32 ((addr + k : Nat) : Int) = addr + k := toU32_ofNat _ (by omega)
  generalize hn : min (256 - (addr + k) % 256) (len - k) = n
  unfold write_fill
  rw [h256, hlenI, hu, hbase, hcur, show JBOD_BLOCK_SIZE = 256 from rfl]
  by_cases hoff : (addr + k) % 256 = 0
  · rw [if_pos (by omega)]
    by_cases hshort : ((addr + len : Nat) : Int) - ((addr + k : Nat) : Int) < 256
    · rw [if_pos hshort]
      have hncov : ¬ covers addr len (addr + k) := by unfold covers; omega
      rcases nested_read_run junk fuelR ms hms addr (addr + len) (addr + k) (addr + k) d hoff
        rfl (by omega) (by omega) (by omega) with ⟨herr, hz⟩ | ⟨rr, o, g, hr, ho, hol, hlog,
          hfl, hpos, hshape, hnever⟩
      · left
        simp only [herr]
        exact ⟨trivial, hz⟩
      · right
        obtain ⟨loader, hm, hlen, _⟩ := memcpy_int o b 0 (k : Int)
          (((addr + len : Nat) : Int) - ((addr + k : Nat) : Int)) 0 k n rfl rfl (by omega)
          (by omega) (by omega)
        simp only [hr, ho, hm]
        have hds : ((addr + len : Nat) : Int) - ((addr + k : Nat) : Int) = (n : Int) := by omega
        refine ⟨rr.m.jbod, loader, g, by rw [hds], hlen.trans hol, hlog, hfl, hpos,
          Or.inr ⟨hncov, by
            rw [show addr + k - (addr + k) % 256 = addr + k by omega]; exact hshape⟩, ?_⟩
        intro hnf
        rw [if_neg hncov, hnever hnf, show addr + k - (addr + k) % 256 = addr + k by omega]
    · rw [if_neg hshort]
      right
      have hcov : covers addr len (addr + k) := by unfold covers; omega
      obtain ⟨loader, hm, hlen, _⟩ := memcpy_int (loaderDecl junk) b 0 (k : Int) 256 0 k 256
        (by omega) rfl (by omega) (by rw [loaderDecl_length]) (by omega)
      simp only [hm]
      have hn256 : (256 : Int) = (n : Int) := by omega
      refine ⟨d, loader, [], by rw [hn256], hlen.trans (loaderDecl_length junk), by simp, rfl,
        positioned_nil _ _, Or.inl ⟨hcov, rfl⟩, ?_⟩
      intro _
      rw [if_pos hcov]
  · have hk0 : k = 0 := by omega
    subst hk0
    rw [if_neg (by omega)]
    have hncov : ¬ covers addr len (addr + 0) := by unfold covers; omega
    rcases nested_read_run junk fuelR ms hms addr (addr + len) (addr + 0)
      (addr + 0 - (addr + 0) % 256) d (by omega) (by omega) (by omega) (by omega) (by omega)
      with ⟨herr, hz⟩ | ⟨rr, o, g, hr, ho, hol, hlog, hfl, hpos, hshape, hnever⟩
    · left
      by_cases hlong : ((addr + 0) % 256 + len) % 4294967296 > 256
      · rw [if_pos hlong]
        simp only [herr]
        exact ⟨trivial, hz⟩
      · rw [if_neg hlong]
        simp only [herr]
        exact ⟨trivial, hz⟩
    · right
      by_cases hlong : ((addr + 0) % 256 + len) % 4294967296 > 256
      · rw [if_pos hlong]
        obtain ⟨loader, hm, hlen, _⟩ := memcpy_int o b (((addr + 0) % 256 : Nat) : Int)
          ((0 : Nat) : Int) (256 - (((addr + 0) % 256 : Nat) : Int)) ((addr + 0) % 256) 0 n
          rfl rfl (by omega) (by omega) (by omega)
        simp only [hr, ho, hm]
        have hds : (256 - (((addr + 0) % 256 : Nat) : Int)) = (n : Int) := by omega
        refine ⟨rr.m.jbod, loader, g, by rw [hds], hlen.trans hol, hlog, hfl, hpos,
          Or.inr ⟨hncov, hshape⟩, ?_⟩
        intro hnf
        rw [if_neg hncov, hnever hnf]
      · rw [if_neg hlong]
        obtain ⟨loader, hm, hlen, _⟩ := memcpy_int o b (((addr + 0) % 256 : Nat) : Int)
          ((0 : Nat) : Int) (len : Int) ((addr + 0) % 256) 0 n
          rfl rfl (by omega) (by omega) (by omega)
        simp only [hr, ho, hm]
        have hds : (len : Int) = (n : Int) := by omega
        refine ⟨rr.m.jbod, loader, g, by rw [hds], hlen.trans hol, hlog, hfl, hpos,
          Or.inr ⟨hncov, hshape⟩, ?_⟩
        intro hnf
        rw [if_neg hncov, hnever hnf]

theorem store_ok (d : Jbod) (a : Nat) (loader : List Byte)
    (h : d.fails (d.log.length + 2) = false) :
    jbod_operation (d.sought a) writeOp (some loader) = (0, d.stored a loader, some loader) := by
  have h' : (d.sought a).fails (d.sought a).log.length = false := by
    simpa [Jbod.sought] using h
  rw [jbod_operation_write (d.sought a) loader h']
  simp [Jbod.record, Jbod.sought, Jbod.stored]

theorem store_fail (d : Jbod) (a : Nat) (loader : List Byte)
    (h : d.fails (d.log.length + 2) = true) :
    jbod_operation (d.sought a) writeOp (some loader) =
      (-1, (d.sought a).record writeOp (-1), some loader) :=
  jbod_operation_failing _ _ _ (by simpa [Jbod.sought] using h)

/-- The second seek of an iteration of the writer and the block write, whatever the device
does. -/
theorem store_log_cases (d : Jbod) (a : Nat) (loader : List Byte) (ha : a < 1048576) :
    ((seek d a).1 = -1 ∧ (∃ g, (seek d a).2.log = d.log ++ g ∧ FailGroup a writeOp g) ∧
      (seek d a).2.fails = d.fails ∧ ∃ j, d.fails j = true) ∨
    ((seek d a).1 = ((a % 256 : Nat) : Int) ∧
      (jbod_operation (seek d a).2 writeOp (some loader)).1 = -1 ∧
      (∃ g, (jbod_operation (seek d a).2 writeOp (some loader)).2.1.log = d.log ++ g ∧
        FailGroup a writeOp g) ∧
      (jbod_operation (seek d a).2 writeOp (some loader)).2.1.fails = d.fails ∧
      ∃ j, d.fails j = true) ∨
    ((seek d a).1 = ((a % 256 : Nat) : Int) ∧
      jbod_operation (seek d a).2 writeOp (some loader) =
        (0, d.stored a loader, some loader)) := by
  by_cases h0 : d.fails d.log.length = true
  · left
    rw [seek_fail_disk d a h0]
    exact ⟨rfl, ⟨_, rfl, Or.inl rfl⟩, rfl, _, h0⟩
  have h0f : d.fails d.log.length = false := by simpa using h0
  by_cases h1 : d.fails (d.log.length + 1) = true
  · left
    rw [seek_fail_block d a ha h0f h1]
    exact ⟨rfl, ⟨_, rfl, Or.inr (Or.inl rfl)⟩, rfl, _, h1⟩
  have h1f : d.fails (d.log.length + 1) = false := by simpa using h1
  right
  rw [seek_ok d a ha h0f h1f]
  by_cases h2 : d.fails (d.log.length + 2) = true
  · left
    rw [store_fail d a loader h2]
    refine ⟨rfl, rfl, ⟨_, ?_, Or.inr (Or.inr rfl)⟩, rfl, _, h2⟩
    simp [Jbod.record, Jbod.sought]
  have h2f : d.fails (d.log.length + 2) = false := by simpa using h2
  right
  exact ⟨rfl, store_ok d a loader h2f⟩

/-- One pass through the body of the writer at a state of a valid request, whatever the device
does: an operation of the writer itself fails and the pass returns `-1` (log `WriteStop`), or
the nested read runs out of fuel, or the pass ends with `currentAddr` advanced by
`min (256 - offset) remaining` bytes (log `WritePass`); every block transfer in the log the pass
adds is positioned, and over a device that never fails the log it adds is `writeGroup`. -/
theorem write_body_cases (junk : Nat → Byte) (fuelR : Nat) (ms : Int) (hms : ms ≠ 0)
    (addr len : Nat) (h2 : len ≤ 1024) (hrange : addr + len ≤ 1048576) (b : List Byte)
    (hb : len ≤ b.length) (k : Nat) (d : Jbod) (hk : k < len)
    (hal : (addr + k) % 256 = 0 ∨ k = 0) :
    (∃ e g, write_body junk fuelR ms len writeOp ((addr + len : Nat) : Int) (some b)
        ⟨((addr + k : Nat) : Int), (k : Int), d⟩ = .ok (.returned ⟨-1, ⟨ms, e⟩, some b⟩) ∧
      e.log = d.log ++ g ∧ e.fails = d.fails ∧ Positioned addr (addr + len) g ∧
      WriteStop addr len (addr + k) g ∧ ∃ j, d.fails j = true) ∨
    (write_body junk fuelR ms len writeOp ((addr + len : Nat) : Int) (some b)
        ⟨((addr + k : Nat) : Int), (k : Int), d⟩ = .error .outOfFuel ∧ fuelR = 0) ∨
    (∃ e g, write_body junk fuelR ms len writeOp ((addr + len : Nat) : Int) (some b)
        ⟨((addr + k : Nat) : Int), (k : Int), d⟩ =
      .ok (.again ⟨((addr + (k + min (256 - (addr + k) % 256) (len - k)) : Nat) : Int),
        ((k + min (256 - (addr + k) % 256) (len - k) : Nat) : Int), e⟩) ∧
      e.log = d.log ++ g ∧ e.fails = d.fails ∧ Positioned addr (addr + len) g ∧
      WritePass addr len (addr + k) g ∧
      (NeverFails d → g = writeGroup addr len (addr + k))) := by
  have hcond : ((addr + k : Nat) : Int) < ((addr + len : Nat) : Int) := by omega
  have hoff : ¬ (((addr + k) % 256 : Nat) : Int) = -1 := by omega
  have hin : addr + k < 1048576 := by omega
  unfold write_body
  dsimp only
  -- the first seek
  by_cases h0 : d.fails d.log.length = true
  · left
    rw [seek_fail_disk d _ h0]
    exact ⟨d.record (seekDiskOp ((addr + k : Nat) : Int)) (-1),
      [(seekDiskOp ((addr + k : Nat) : Int), -1)], by simp only [if_true], rfl, rfl,
      positioned_seek_disk _ _ _ _ hin, Or.inl rfl, _, h0⟩
  have h0f : d.fails d.log.length = false := by simpa using h0
  by_cases h1 : d.fails (d.log.length + 1) = true
  · left
    rw [seek_fail_block d _ hin h0f h1]
    exact ⟨{ d with
        disk := (addr + k) / 65536
        log := d.log ++ [(seekDiskOp ((addr + k : Nat) : Int), 0),
          (seekBlockOp ((addr + k : Nat) : Int), -1)] },
      [(seekDiskOp ((addr + k : Nat) : Int), 0), (seekBlockOp ((addr + k : Nat) : Int), -1)],
      by simp only [if_true], rfl, rfl, positioned_seeks _ _ _ _ _ hin, Or.inr (Or.inl rfl), _,
      h1⟩
  have h1f : d.fails (d.log.length + 1) = false := by simpa using h1
  rw [seek_ok d _ hin h0f h1f]
  simp only [hoff, if_false]
  -- the case analysis and the nested read
  rcases write_fill_run junk fuelR ms hms addr len k (d.sought (addr + k)) b hk h2 hrange hal hb
    with ⟨herr, hz⟩ | ⟨dev1, loader, g1, hfill, hll, hlog1, hfl1, hpos1, hshape1, hnever1⟩
  · right; left
    simp only [herr]
    exact ⟨trivial, hz⟩
  generalize hn : min (256 - (addr + k) % 256) (len - k) = n at *
  simp only [hfill]
  have hfl1' : dev1.fails = d.fails := hfl1
  have hlog1' : dev1.log = d.log ++ ([(seekDiskOp ((addr + k : Nat) : Int), 0), (seekBlockOp ((addr + k : Nat) : Int), 0)]
      ++ g1) := by
    rw [hlog1]; simp [Jbod.sought]
  have hposA : Positioned addr (addr + len)
      ([(seekDiskOp ((addr + k : Nat) : Int), (0 : Int)), (seekBlockOp ((addr + k : Nat) : Int), 0)] ++ g1) :=
    positioned_append _ _ _ _ (positioned_seeks _ _ _ _ _ hin) hpos1
  -- the second seek and the block write
  rcases store_log_cases dev1 (addr + k) loader hin with
    ⟨e1, ⟨g, hg, hf⟩, hfl, j, hj⟩ | ⟨e1, e2, ⟨g, hg, hf⟩, hfl, j, hj⟩ | ⟨e1, e2⟩
  · left
    refine ⟨_, ([(seekDiskOp ((addr + k : Nat) : Int), 0), (seekBlockOp ((addr + k : Nat) : Int), 0)] ++ g1) ++ g,
      by simp only [e1, if_true], ?_, hfl.trans hfl1', ?_,
      Or.inr (Or.inr ⟨g1, g, hshape1, hf, rfl⟩), j, by rw [← hfl1']; exact hj⟩
    · rw [hg, hlog1', List.append_assoc]
    · exact positioned_append _ _ _ _ hposA
        (positioned_failGroup _ _ _ _ g (by omega) (by omega) hin hf)
  · left
    refine ⟨_, ([(seekDiskOp ((addr + k : Nat) : Int), 0), (seekBlockOp ((addr + k : Nat) : Int), 0)] ++ g1) ++ g,
      by simp only [e1, hoff, if_false, e2, if_true], ?_, hfl.trans hfl1', ?_,
      Or.inr (Or.inr ⟨g1, g, hshape1, hf, rfl⟩), j, by rw [← hfl1']; exact hj⟩
    · rw [hg, hlog1', List.append_assoc]
    · exact positioned_append _ _ _ _ hposA
        (positioned_failGroup _ _ _ _ g (by omega) (by omega) hin hf)
  · right; right
    have hc1 : ((addr + k : Nat) : Int) + (n : Int) = ((addr + (k + n) : Nat) : Int) := by
      push_cast; ring
    have hc2 : (k : Int) + (n : Int) = ((k + n : Nat) : Int) := by push_cast; rfl
    refine ⟨dev1.stored (addr + k) loader,
      ([(seekDiskOp ((addr + k : Nat) : Int), 0), (seekBlockOp ((addr + k : Nat) : Int), 0)] ++ g1) ++
        [(seekDiskOp ((addr + k : Nat) : Int), 0), (seekBlockOp ((addr + k : Nat) : Int), 0), (writeOp, 0)], ?_, ?_,
      hfl1', ?_, ⟨g1, hshape1, rfl⟩, ?_⟩
    · simp only [e1, hoff, if_false, e2, hc1, hc2]
      rw [if_neg (by decide)]
    · show dev1.log ++ _ = _
      rw [hlog1', List.append_assoc]
    · exact positioned_append _ _ _ _ hposA
        (positioned_transfer _ _ _ _ _ (by omega) (by omega) hin)
    · intro hnf
      rw [hnever1 (neverFails_of_fails_eq d _ rfl hnf)]
      unfold writeGroup
      rw [List.append_assoc]

/-- One iteration of the writer at a state of a valid request, whatever the device does: an
operation of the writer itself fails and the call returns `-1`, or the nested read runs out of
fuel, or the loop goes on `min (256 - offset) remaining` bytes further; every block transfer in
the log the iteration adds is positioned, and over a device that never fails the log it adds is
`writeGroup`. -/
theorem write_step (junk : Nat → Byte) (fuelR : Nat) (ms : Int) (hms : ms ≠ 0)
    (addr len : Nat) (h2 : len ≤ 1024) (hrange : addr + len ≤ 1048576) (b : List Byte)
    (hb : len ≤ b.length) (fuel k : Nat) (d : Jbod) (hk : k < len)
    (hal : (addr + k) % 256 = 0 ∨ k = 0) :
    (∃ e g, write_loop junk fuelR ms len writeOp ((addr + len : Nat) : Int) (some b) (fuel + 1)
        ((addr + k : Nat) : Int) (k : Int) d = .ok ⟨-1, ⟨ms, e⟩, some b⟩ ∧
      e.log = d.log ++ g ∧ e.fails = d.fails ∧ Positioned addr (addr + len) g ∧
      WriteStop addr len (addr + k) g ∧ ∃ j, d.fails j = true) ∨
    (write_loop junk fuelR ms len writeOp ((addr + len : Nat) : Int) (some b) (fuel + 1)
        ((addr + k : Nat) : Int) (k : Int) d = .error .outOfFuel ∧ fuelR = 0) ∨
    (∃ e g, write_loop junk fuelR ms len writeOp ((addr + len : Nat) : Int) (some b) (fuel + 1)
        ((addr + k : Nat) : Int) (k : Int) d =
      write_loop junk fuelR ms len writeOp ((addr + len : Nat) : Int) (some b) fuel
        ((addr + (k + min (256 - (addr + k) % 256) (len - k)) : Nat) : Int)
        ((k + min (256 - (addr + k) % 256) (len - k) : Nat) : Int) e ∧
      e.log = d.log ++ g ∧ e.fails = d.fails ∧ Positioned addr (addr + len) g ∧
      WritePass addr len (addr + k) g ∧
      (NeverFails d → g = writeGroup addr len (addr + k))) := by
  have hcond : ((addr + k : Nat) : Int) < ((addr + len : Nat) : Int) := by omega
  rcases write_body_cases junk fuelR ms hms addr len h2 hrange b hb k d hk hal with
    ⟨e, g, hbody, hrest⟩ | ⟨hbody, hz⟩ | ⟨e, g, hbody, hrest⟩
  · exact Or.inl ⟨e, g, by rw [write_loop, if_pos hcond, hbody], hrest⟩
  · exact Or.inr (Or.inl ⟨by rw [write_loop, if_pos hcond, hbody], hz⟩)
  · exact Or.inr (Or.inr ⟨e, g, by rw [write_loop, if_pos hcond, hbody], hrest⟩)

/-! ## The run of the writer -/

/-- The loop of the writer from a state of a valid request, whatever the device does and
whatever the fuel: it runs out of fuel only when the fuel is less than the number of iterations
left or the nested read has no fuel; otherwise it has a result, every block transfer in the log
it adds is positioned, and over a device that never fails the fuel was enough, the call returns
`len` and the log it adds is one `writeGroup` per current address. -/
theorem write_loop_run (junk : Nat → Byte) (fuelR : Nat) (ms : Int) (hms : ms ≠ 0)
    (addr len : Nat) (h2 : len ≤ 1024) (hrange : addr + len ≤ 1048576) (b : List Byte)
    (hb : len ≤ b.length) :
    ∀ (fuel k : Nat) (d : Jbod), k ≤ len → ((addr + k) % 256 = 0 ∨ k = 0 ∨ k = len) →
      (write_loop junk fuelR ms len writeOp ((addr + len : Nat) : Int) (some b) fuel
          ((addr + k : Nat) : Int) (k : Int) d = .error .outOfFuel ∧
        (fuel < iters (addr + len) (addr + k) ∨ fuelR = 0)) ∨
      (∃ r new, write_loop junk fuelR ms len writeOp ((addr + len : Nat) : Int) (some b) fuel
          ((addr + k : Nat) : Int) (k : Int) d = .ok r ∧
        r.buf = some b ∧ r.m.jbod.log = d.log ++ new ∧ r.m.jbod.fails = d.fails ∧
        Positioned addr (addr + len) new ∧
        WriteTrace addr len (cursorsFrom (addr + len) (addr + k)) new ∧
        (NeverFails d → iters (addr + len) (addr + k) ≤ fuel ∧ r.ret = len ∧
          new = (cursorsFrom (addr + len) (addr + k)).flatMap (writeGroup addr len))) := by
  intro fuel
  induction fuel with
  | zero =>
    intro k d hkl hal
    by_cases hend : k = len
    · subst hend
      right
      refine ⟨_, [], write_loop_stop _ _ _ _ _ _ _ _ _ _ _ (by omega), rfl, by simp, rfl,
        positioned_nil _ _,
        by rw [cursorsFrom_done _ _ (by omega)]; exact writeTrace_nil addr k, ?_⟩
      intro _
      rw [iters_done _ _ (by omega), cursorsFrom_done _ _ (by omega)]
      exact ⟨by omega, toI32_small k (by omega), rfl⟩
    · left
      have hcond : ((addr + k : Nat) : Int) < ((addr + len : Nat) : Int) := by omega
      exact ⟨by rw [write_loop_zero, if_pos hcond], Or.inl (iters_pos addr len k (by omega))⟩
  | succ fuel ih =>
    intro k d hkl hal
    by_cases hend : k = len
    · subst hend
      right
      refine ⟨_, [], write_loop_stop _ _ _ _ _ _ _ _ _ _ _ (by omega), rfl, by simp, rfl,
        positioned_nil _ _,
        by rw [cursorsFrom_done _ _ (by omega)]; exact writeTrace_nil addr k, ?_⟩
      intro _
      rw [iters_done _ _ (by omega), cursorsFrom_done _ _ (by omega)]
      exact ⟨by omega, toI32_small k (by omega), rfl⟩
    have hk : k < len := by omega
    rcases write_step junk fuelR ms hms addr len h2 hrange b hb fuel k d hk (by omega) with
      ⟨e, g, he, hlog, hfl, hpos, hstop, j, hj⟩ | ⟨herr, hz⟩ |
      ⟨e, g, hstep, hlog, hfl, hpos, hpass, hnever⟩
    · right
      refine ⟨_, g, he, rfl, hlog, hfl, hpos,
        by rw [cursorsFrom_step addr len k hk]; exact writeTrace_stop _ _ _ _ _ hstop, ?_⟩
      intro hnf
      rw [hnf j] at hj
      exact absurd hj (by decide)
    · exact Or.inl ⟨herr, Or.inr hz⟩
    · rw [hstep, iters_step addr len k hk, cursorsFrom_step addr len k hk]
      generalize hn : min (256 - (addr + k) % 256) (len - k) = n at *
      rcases ih (k + n) e (by omega) (by omega) with ⟨herr, hlt⟩ |
        ⟨r, new, hr, hbuf, hlog2, hfl2, hpos2, htr2, hnever2⟩
      · left
        refine ⟨herr, ?_⟩
        rcases hlt with hlt | hlt
        · exact Or.inl (by omega)
        · exact Or.inr hlt
      · right
        refine ⟨r, g ++ new, hr, hbuf, by rw [hlog2, hlog, List.append_assoc], hfl2.trans hfl,
          positioned_append _ _ _ _ hpos hpos2, writeTrace_cons _ _ _ _ _ _ hpass htr2, ?_⟩
        intro hnf
        obtain ⟨q1, q2, q3⟩ := hnever2 (neverFails_of_fails_eq d e hfl hnf)
        refine ⟨by omega, q2, ?_⟩
        rw [List.flatMap_cons, q3, hnever hnf]

/-- The writer on a valid request, whatever the device does and whatever the fuel. -/
theorem mdadm_write_run (junk : Nat → Byte) (fuel : Nat) (m : Machine) (addr len : Nat)
    (b : List Byte) (hm : m.mount_state ≠ 0) (h1 : 1 ≤ len) (h2 : len ≤ 1024)
    (hrange : addr + len ≤ 1048576) (hb : len ≤ b.length) :
    (mdadm_write junk fuel m addr len (some b) = .error .outOfFuel ∧
      fuel < iters (addr + len) addr) ∨
    (∃ r new, mdadm_write junk fuel m addr len (some b) = .ok r ∧
      r.buf = some b ∧ r.m.jbod.log = m.jbod.log ++ new ∧
      r.m.jbod.fails = m.jbod.fails ∧ Positioned addr (addr + len) new ∧
      WriteTrace addr len (cursorsFrom (addr + len) addr) new ∧
      (NeverFails m.jbod → iters (addr + len) addr ≤ fuel ∧ r.ret = len ∧
        new = (cursorsFrom (addr + len) addr).flatMap (writeGroup addr len))) := by
  have hmax : toU32 address_max = 1048575 := by decide
  have hl1 : toU32 ((len : Int) - 1) = len - 1 := by unfold toU32; omega
  have hchk : ¬ (addr + (len - 1)) % 4294967296 > 1048575 := by omega
  have hfin : toI32 ((addr + len) % 4294967296) = ((addr + len : Nat) : Int) := by
    rw [Nat.mod_eq_of_lt (by omega)]; exact toI32_small _ (by omega)
  have hcur : toI32 addr = ((addr + 0 : Nat) : Int) := toI32_small _ (by omega)
  unfold mdadm_write
  simp only [hmax, hl1, hfin, hcur]
  rw [if_neg hm, if_neg (by omega), if_neg (by omega), if_neg hchk, if_neg (by simp)]
  rcases write_loop_run junk fuel m.mount_state hm addr len h2 hrange b hb fuel 0 m.jbod
    (by omega) (by omega) with ⟨herr, hlt⟩ | hok
  · left
    refine ⟨herr, ?_⟩
    rcases hlt with hlt | hlt
    · exact hlt
    · rw [hlt]; exact iters_pos addr len 0 (by omega)
  · exact Or.inr hok

/-! ## The loop variables of the writer, pass by pass -/

/-- The loop variables of the writer after `n` passes from a state of a valid request, whatever
the device does: when the loop is still running, `n` is at most the number of iterations left
and `currentAddr` is the `n`-th current address of `cursorsFrom` (the end of the request after
the last one); over a device that never fails, with fuel for the nested reads, the loop does run
that long. -/
theorem write_vars_run (junk : Nat → Byte) (fuelR : Nat) (ms : Int) (hms : ms ≠ 0)
    (addr len : Nat) (h2 : len ≤ 1024) (hrange : addr + len ≤ 1048576) (b : List Byte)
    (hb : len ≤ b.length) :
    ∀ (n k : Nat) (d : Jbod), k ≤ len → ((addr + k) % 256 = 0 ∨ k = 0 ∨ k = len) →
      (∀ v, write_vars junk fuelR ms len writeOp ((addr + len : Nat) : Int) (some b) n
          ⟨((addr + k : Nat) : Int), (k : Int), d⟩ = some v →
        n ≤ iters (addr + len) (addr + k) ∧
        v.currentAddr =
          (((cursorsFrom (addr + len) (addr + k))[n]?.getD (addr + len) : Nat) : Int)) ∧
      (NeverFails d → 1 ≤ fuelR → n ≤ iters (addr + len) (addr + k) →
        ∃ v, write_vars junk fuelR ms len writeOp ((addr + len : Nat) : Int) (some b) n
          ⟨((addr + k : Nat) : Int), (k : Int), d⟩ = some v) := by
  intro n
  induction n with
  | zero =>
    intro k d hkl hal
    refine ⟨?_, fun _ _ _ => ⟨_, rfl⟩⟩
    intro v hv
    rw [write_vars] at hv
    cases hv
    refine ⟨Nat.zero_le _, ?_⟩
    by_cases hk : k < len
    · rw [cursorsFrom_step addr len k hk, List.getElem?_cons_zero]; rfl
    · rw [cursorsFrom_done _ _ (by omega)]
      show ((addr + k : Nat) : Int) = ((addr + len : Nat) : Int)
      omega
  | succ n ih =>
    intro k d hkl hal
    rw [write_vars]
    by_cases hk : k < len
    · have hcond : ((addr + k : Nat) : Int) < ((addr + len : Nat) : Int) := by omega
      rw [if_pos hcond, iters_step addr len k hk, cursorsFrom_step addr len k hk]
      rcases write_body_cases junk fuelR ms hms addr len h2 hrange b hb k d hk (by omega) with
        ⟨e, g, hbody, _, _, _, _, j, hj⟩ | ⟨hbody, hz⟩ | ⟨e, g, hbody, _, hfl, _⟩
      · rw [hbody]
        refine ⟨fun v hv => absurd hv (by simp), ?_⟩
        intro hnf
        rw [hnf j] at hj
        exact absurd hj (by decide)
      · rw [hbody]
        exact ⟨fun v hv => absurd hv (by simp), fun _ hf => absurd hf (by omega)⟩
      · rw [hbody]
        generalize hn : min (256 - (addr + k) % 256) (len - k) = m at *
        obtain ⟨q1, q2⟩ := ih (k + m) e (by omega) (by omega)
        refine ⟨?_, ?_⟩
        · intro v hv
          obtain ⟨p1, p2⟩ := q1 v hv
          exact ⟨by omega, by rw [p2, List.getElem?_cons_succ]⟩
        · intro hnf hf hle
          exact q2 (neverFails_of_fails_eq d e hfl hnf) hf (by omega)
    · have hcond : ¬ ((addr + k : Nat) : Int) < ((addr + len : Nat) : Int) := by omega
      rw [if_neg hcond, iters_done _ _ (by omega)]
      exact ⟨fun v hv => absurd hv (by simp), fun _ _ hle => absurd hle (by omega)⟩

/-- The values `write_vars` gives are the values the loop has: a run of the loop that has fuel
for `n` passes more, from values after which the loop is running `n` passes later, is the run of
the loop from the values it has then. -/
theorem write_loop_of_vars (junk : Nat → Byte) (fuelR : Nat) (ms : Int) (len : Nat)
    (opcode : Nat) (finalAddr : Int) (buf : Option (List Byte)) :
    ∀ (n fuel : Nat) (v0 v : WriteVars),
      write_vars junk fuelR ms len opcode finalAddr buf n v0 = some v →
      write_loop junk fuelR ms len opcode finalAddr buf (fuel + n) v0.currentAddr v0.bufP
          v0.dev =
        write_loop junk fuelR ms len opcode finalAddr buf fuel v.currentAddr v.bufP v.dev := by
  intro n
  induction n with
  | zero =>
    intro fuel v0 v hv
    rw [write_vars] at hv
    cases hv
    rfl
  | succ n ih =>
    intro fuel v0 v hv
    rw [write_vars] at hv
    by_cases hcond : v0.currentAddr < finalAddr
    · rw [if_pos hcond] at hv
      rw [show fuel + (n + 1) = (fuel + n) + 1 from rfl, write_loop, if_pos hcond]
      cases hbody : write_body junk fuelR ms len opcode finalAddr buf v0 with
      | error e => rw [hbody] at hv; exact absurd hv (by simp)
      | ok x =>
        cases x with
        | returned r => rw [hbody] at hv; exact absurd hv (by simp)
        | again v2 =>
          rw [hbody] at hv
          exact ih fuel v2 v hv
    · rw [if_neg hcond] at hv
      exact absurd hv (by simp)

/-! ## Claims about traces, bounds and iterations -/

theorem iters_le_five (addr len : Nat) (h2 : len ≤ 1024) : iters (addr + len) addr ≤ 5 := by
  unfold iters; split <;> omega

theorem iters_eq (addr len : Nat) (h1 : 1 ≤ len) :
    iters (addr + len) addr = (addr + len - 1) / 256 - addr / 256 + 1 := by
  unfold iters; rw [if_pos (by omega)]

theorem mem_cursorsFrom (final addr cur : Nat) :
    cur ∈ cursorsFrom final addr ↔
      ∃ i, i < iters final addr ∧ cur = max addr ((addr / 256 + i) * 256) := by
  unfold cursorsFrom
  rw [List.mem_map]
  constructor
  · rintro ⟨i, hi, rfl⟩
    exact ⟨i, List.mem_range.mp hi, rfl⟩
  · rintro ⟨i, hi, rfl⟩
    exact ⟨i, List.mem_range.mpr hi, rfl⟩

/-- The current addresses lie in the request, and each is the first address of the request in
its block. -/
theorem cursor_bounds (addr len cur : Nat) (h : cur ∈ cursorsFrom (addr + len) addr) :
    addr ≤ cur ∧ cur < addr + len ∧ (cur % 256 = 0 ∨ cur = addr) := by
  rw [mem_cursorsFrom] at h
  obtain ⟨i, hi, rfl⟩ := h
  unfold iters at hi
  split at hi <;> omega

theorem touched_blocks (addr len blk : Nat) (h1 : 1 ≤ len) :
    (∃ cur ∈ cursorsFrom (addr + len) addr, cur / 256 = blk) ↔
      (addr / 256 ≤ blk ∧ blk ≤ (addr + len - 1) / 256) := by
  constructor
  · rintro ⟨cur, hc, rfl⟩
    obtain ⟨q1, q2, _⟩ := cursor_bounds addr len cur hc
    omega
  · rintro ⟨g1, g2⟩
    refine ⟨max addr ((addr / 256 + (blk - addr / 256)) * 256), ?_, by omega⟩
    rw [mem_cursorsFrom]
    exact ⟨blk - addr / 256, by rw [iters_eq addr len h1]; omega, rfl⟩

theorem cursorsFrom_length (final addr : Nat) :
    (cursorsFrom final addr).length = iters final addr := by
  unfold cursorsFrom; rw [List.length_map, List.length_range]

theorem cursorsFrom_getElem? (final addr i : Nat) (hi : i < iters final addr) :
    (cursorsFrom final addr)[i]? = some (max addr ((addr / 256 + i) * 256)) := by
  unfold cursorsFrom
  rw [List.getElem?_map, List.getElem?_range hi]
  rfl

/-- The group of operations of one iteration of the writer holds a `READ_BLOCK` command exactly
when the request does not cover the whole block of the current address. -/
theorem writeGroup_read_iff (addr len cur : Nat) (hc : cur < 1048576) :
    (∃ e, e ∈ writeGroup addr len cur ∧ cmdOf e.1 = 4) ↔ ¬ covers addr len cur := by
  have a1 := cmdOf_seekDiskOp cur hc
  have a2 := cmdOf_seekBlockOp cur
  have a5 : cmdOf readOp = 4 := by decide
  have a6 : cmdOf writeOp = 5 := by decide
  by_cases h : covers addr len cur
  · constructor
    · rintro ⟨e, he, hcmd⟩
      unfold writeGroup at he
      rw [if_pos h] at he
      simp only [List.nil_append, List.cons_append, List.mem_cons, List.mem_singleton,
        List.mem_nil_iff, or_false] at he
      rcases he with rfl | rfl | rfl | rfl | rfl <;> dsimp only at hcmd <;>
        first
          | (rw [a1] at hcmd; omega)
          | (rw [a2] at hcmd; omega)
          | (rw [a6] at hcmd; omega)
    · intro hn; exact absurd h hn
  · constructor
    · intro _; exact h
    · intro _
      refine ⟨(readOp, 0), ?_, a5⟩
      unfold writeGroup readGroup
      rw [if_neg h]
      simp

theorem cursor_getD (addr len n : Nat) :
    (cursorsFrom (addr + len) addr)[n]?.getD (addr + len) =
      if n < iters (addr + len) addr then max addr ((addr / 256 + n) * 256) else addr + len := by
  by_cases h : n < iters (addr + len) addr
  · rw [if_pos h, cursorsFrom_getElem? _ _ n h]; rfl
  · rw [if_neg h, List.getElem?_eq_none (by rw [cursorsFrom_length]; omega)]; rfl

/-- The loop variables of a read call on a valid request, pass by pass, whatever the device
does; over a device that never fails the loop runs `iters` passes. -/
theorem mdadm_read_vars_run (junk : Nat → Byte) (m : Machine) (addr len : Nat) (b : List Byte)
    (h2 : len ≤ 1024) (hrange : addr + len ≤ 1048576) (hb : len ≤ b.length) :
    (∀ n v, mdadm_read_vars junk m addr len (some b) n = some v →
      n ≤ iters (addr + len) addr ∧
      v.currentAddr =
        (((cursorsFrom (addr + len) addr)[n]?.getD (addr + len) : Nat) : Int)) ∧
    (NeverFails m.jbod → ∀ n, n ≤ iters (addr + len) addr →
      ∃ v, mdadm_read_vars junk m addr len (some b) n = some v) := by
  have hfin : toI32 ((addr + len) % 4294967296) = ((addr + len : Nat) : Int) := by
    rw [Nat.mod_eq_of_lt (by omega)]; exact toI32_small _ (by omega)
  have hcur : toI32 addr = ((addr + 0 : Nat) : Int) := toI32_small _ (by omega)
  unfold mdadm_read_vars
  rw [hfin, hcur]
  constructor
  · intro n v hv
    exact (read_vars_run junk m.mount_state addr len h2 hrange n 0 0 0 m.jbod b (by omega)
      (by omega) (by simp) (fun _ => rfl) hb).1 v hv
  · intro hnf n hn
    exact (read_vars_run junk m.mount_state addr len h2 hrange n 0 0 0 m.jbod b (by omega)
      (by omega) (by simp) (fun _ => rfl) hb).2 hnf hn

/-- The loop variables of a write call on a valid request, pass by pass, whatever the device
does; over a device that never fails, with fuel for the nested reads, the loop runs `iters`
passes. -/
theorem mdadm_write_vars_run (junk : Nat → Byte) (fuel : Nat) (m : Machine) (addr len : Nat)
    (b : List Byte) (hm : m.mount_state ≠ 0) (h2 : len ≤ 1024) (hrange : addr + len ≤ 1048576)
    (hb : len ≤ b.length) :
    (∀ n v, mdadm_write_vars junk fuel m addr len (some b) n = some v →
      n ≤ iters (addr + len) addr ∧
      v.currentAddr =
        (((cursorsFrom (addr + len) addr)[n]?.getD (addr + len) : Nat) : Int)) ∧
    (NeverFails m.jbod → 1 ≤ fuel → ∀ n, n ≤ iters (addr + len) addr →
      ∃ v, mdadm_write_vars junk fuel m addr len (some b) n = some v) := by
  have hfin : toI32 ((addr + len) % 4294967296) = ((addr + len : Nat) : Int) := by
    rw [Nat.mod_eq_of_lt (by omega)]; exact toI32_small _ (by omega)
  have hcur : toI32 addr = ((addr + 0 : Nat) : Int) := toI32_small _ (by omega)
  have hk0 : (0 : Int) = ((0 : Nat) : Int) := rfl
  unfold mdadm_write_vars
  rw [hfin, hcur, hk0]
  constructor
  · intro n v hv
    exact (write_vars_run junk fuel m.mount_state hm addr len h2 hrange b hb n 0 m.jbod
      (by omega) (by omega)).1 v hv
  · intro hnf hf n hn
    exact (write_vars_run junk fuel m.mount_state hm addr len h2 hrange b hb n 0 m.jbod
      (by omega) (by omega)).2 hnf hf hn

/-- A read call on a valid request with fuel for `n` passes more is, when its loop is running
after `n` passes, the run of the loop from the values `mdadm_read_vars` gives. -/
theorem mdadm_read_of_vars (junk : Nat → Byte) (m : Machine) (addr len : Nat) (b : List Byte)
    (hm : m.mount_state ≠ 0) (h1 : 1 ≤ len) (h2 : len ≤ 1024) (hrange : addr + len ≤ 1048576)
    (n fuel : Nat) (v : ReadVars) (hv : mdadm_read_vars junk m addr len (some b) n = some v) :
    mdadm_read junk (fuel + n) m addr len (some b) =
      read_loop junk m.mount_state addr len (op_construct 0 0 JBOD_READ_BLOCK 0)
        (toI32 ((addr + len) % 4294967296)) fuel v.currentAddr v.dataSize v.bufP v.dev v.buf := by
  have hmax : toU32 address_max = 1048575 := by decide
  have hl1 : toU32 ((len : Int) - 1) = len - 1 := by unfold toU32; omega
  have hchk : ¬ (addr + (len - 1)) % 4294967296 > 1048575 := by omega
  unfold mdadm_read
  simp only [hmax, hl1]
  rw [if_neg hm, if_neg (by omega), if_neg (by omega), if_neg hchk, if_neg (by simp)]
  exact read_loop_of_vars junk m.mount_state addr len _ _ n fuel
    ⟨toI32 addr, 0, 0, m.jbod, some b⟩ v hv

/-- A write call on a valid request with fuel for `n` passes more is, when its loop is running
after `n` passes, the run of the loop from the values `mdadm_write_vars` gives. -/
theorem mdadm_write_of_vars (junk : Nat → Byte) (m : Machine) (addr len : Nat) (b : List Byte)
    (hm : m.mount_state ≠ 0) (h1 : 1 ≤ len) (h2 : len ≤ 1024) (hrange : addr + len ≤ 1048576)
    (n fuel : Nat) (v : WriteVars)
    (hv : mdadm_write_vars junk (fuel + n) m addr len (some b) n = some v) :
    mdadm_write junk (fuel + n) m addr len (some b) =
      write_loop junk (fuel + n) m.mount_state len (op_construct 0 0 JBOD_WRITE_BLOCK 0)
        (toI32 ((addr + len) % 4294967296)) (some b) fuel v.currentAddr v.bufP v.dev := by
  have hmax : toU32 address_max = 1048575 := by decide
  have hl1 : toU32 ((len : Int) - 1) = len - 1 := by unfold toU32; omega
  have hchk : ¬ (addr + (len - 1)) % 4294967296 > 1048575 := by omega
  unfold mdadm_write
  simp only [hmax, hl1]
  rw [if_neg hm, if_neg (by omega), if_neg (by omega), if_neg hchk, if_neg (by simp)]
  exact write_loop_of_vars junk (fuel + n) m.mount_state len _ _ (some b) n fuel
    ⟨toI32 addr, 0, m.jbod⟩ v hv

/-! ## Bounds of the copies, and the iterations of the loops -/

/-- C19. Buffer accesses stay in bounds: on a mounted driver, for every request with
`1 ≤ len ≤ 1024` and `addr + len - 1 ≤ 1048575` and a caller buffer of exactly `len` bytes,
whatever the device does and whatever the fuel, neither `mdadm_read` nor `mdadm_write` reaches
the out-of-bounds branch of a copy (`memcpy` checks both the 256-byte scratch block and the
caller buffer; the nested full-block read of the writer is part of the run), and with five units
of fuel both calls have a result, the read leaving a buffer of `len` bytes. -/
theorem C19_buffer_accesses_in_bounds (junk : Nat → Byte) (fuel : Nat) (m : Machine)
    (addr len : Nat) (buf : List Byte) (hm : m.mount_state = 1) (h1 : 1 ≤ len) (h2 : len ≤ 1024)
    (h3 : addr + len - 1 ≤ 1048575) (hbuf : buf.length = len) :
    mdadm_read junk fuel m addr len (some buf) ≠ .error .outOfBounds ∧
    mdadm_write junk fuel m addr len (some buf) ≠ .error .outOfBounds ∧
    (5 ≤ fuel →
      (∃ r o, mdadm_read junk fuel m addr len (some buf) = .ok r ∧ r.buf = some o ∧
        o.length = len) ∧
      ∃ w, mdadm_write junk fuel m addr len (some buf) = .ok w ∧ w.buf = some buf) := by
  have hm0 : m.mount_state ≠ 0 := by rw [hm]; decide
  have h5 := iters_le_five addr len h2
  have hR := mdadm_read_run junk fuel m addr len buf hm0 h1 h2 (by omega) (by omega)
  have hW := mdadm_write_run junk fuel m addr len buf hm0 h1 h2 (by omega) (by omega)
  refine ⟨?_, ?_, ?_⟩
  · rcases hR with ⟨he, _⟩ | ⟨r, o, new, hr, _⟩
    · rw [he]; intro h; cases h
    · rw [hr]; intro h; cases h
  · rcases hW with ⟨he, _⟩ | ⟨w, new, hw, _⟩
    · rw [he]; intro h; cases h
    · rw [hw]; intro h; cases h
  · intro hfuel
    constructor
    · rcases hR with ⟨_, hlt⟩ | ⟨r, o, new, hr, ho, hol, _⟩
      · omega
      · exact ⟨r, o, hr, ho, by rw [hol, hbuf]⟩
    · rcases hW with ⟨_, hlt⟩ | ⟨w, new, hw, hwb, _⟩
      · omega
      · exact ⟨w, hw, hwb⟩

/-- C19 on the sample device with its fifth operation failing: a write and a read of 10 bytes at
address 250 with a buffer of exactly 10 bytes. -/
theorem C19_buffer_accesses_in_bounds_witness :
    mdadm_read sampleJunk 5 ⟨1, sampleDeviceFailingFifth⟩ 250 10
        (some [1, 2, 3, 4, 5, 6, 7, 8, 9, 10]) ≠ .error .outOfBounds ∧
    mdadm_write sampleJunk 5 ⟨1, sampleDeviceFailingFifth⟩ 250 10
        (some [1, 2, 3, 4, 5, 6, 7, 8, 9, 10]) ≠ .error .outOfBounds ∧
    (5 ≤ 5 →
      (∃ r o, mdadm_read sampleJunk 5 ⟨1, sampleDeviceFailingFifth⟩ 250 10
          (some [1, 2, 3, 4, 5, 6, 7, 8, 9, 10]) = .ok r ∧ r.buf = some o ∧ o.length = 10) ∧
      ∃ w, mdadm_write sampleJunk 5 ⟨1, sampleDeviceFailingFifth⟩ 250 10
          (some [1, 2, 3, 4, 5, 6, 7, 8, 9, 10]) = .ok w ∧
        w.buf = some [1, 2, 3, 4, 5, 6, 7, 8, 9, 10]) :=
  C19_buffer_accesses_in_bounds sampleJunk 5 ⟨1, sampleDeviceFailingFifth⟩ 250 10
    [1, 2, 3, 4, 5, 6, 7, 8, 9, 10] rfl (by decide) (by decide) (by decide) rfl

/-- The loop variables of a read call over a device that never fails, in the form the claim on
the iterations needs: the pass from `n` to `n + 1`, the end, and no pass after the end. -/
theorem read_vars_never (junk : Nat → Byte) (m : Machine) (addr len : Nat) (b : List Byte)
    (hdev : NeverFails m.jbod) (h1 : 1 ≤ len) (h2 : len ≤ 1024) (hrange : addr + len ≤ 1048576)
    (hb : len ≤ b.length) :
    (∀ n, n < iters (addr + len) addr →
      ∃ v v2, mdadm_read_vars junk m addr len (some b) n = some v ∧
        mdadm_read_vars junk m addr len (some b) (n + 1) = some v2 ∧
        v.currentAddr = ((max addr ((addr / 256 + n) * 256) : Nat) : Int) ∧
        v.currentAddr < ((addr + len : Nat) : Int) ∧
        v.currentAddr + 1 ≤ v2.currentAddr ∧ v2.currentAddr ≤ v.currentAddr + 256 ∧
        v2.currentAddr ≤ ((addr + len : Nat) : Int)) ∧
    (∃ v, mdadm_read_vars junk m addr len (some b) (iters (addr + len) addr) = some v ∧
      v.currentAddr = ((addr + len : Nat) : Int)) ∧
    mdadm_read_vars junk m addr len (some b) (iters (addr + len) addr + 1) = none := by
  obtain ⟨q1, q2⟩ := mdadm_read_vars_run junk m addr len b h2 hrange hb
  have hit := iters_eq addr len h1
  refine ⟨?_, ?_, ?_⟩
  · intro n hn
    obtain ⟨v, hv⟩ := q2 hdev n (by omega)
    obtain ⟨v2, hv2⟩ := q2 hdev (n + 1) (by omega)
    have p := (q1 n v hv).2
    have p2 := (q1 (n + 1) v2 hv2).2
    rw [cursor_getD, if_pos hn] at p
    rw [cursor_getD] at p2
    refine ⟨v, v2, hv, hv2, p, ?_⟩
    rw [p, p2]
    rw [hit] at hn ⊢
    split <;> omega
  · obtain ⟨v, hv⟩ := q2 hdev (iters (addr + len) addr) (Nat.le_refl _)
    have p := (q1 _ v hv).2
    rw [cursor_getD, if_neg (Nat.lt_irrefl _)] at p
    exact ⟨v, hv, p⟩
  · cases h : mdadm_read_vars junk m addr len (some b) (iters (addr + len) addr + 1) with
    | none => rfl
    | some v => have := (q1 _ v h).1; omega

/-- The loop variables of a write call over a device that never fails, with fuel for the nested
reads: the pass from `n` to `n + 1`, the end, and no pass after the end. -/
theorem write_vars_never (junk : Nat → Byte) (fuel : Nat) (m : Machine) (addr len : Nat)
    (b : List Byte) (hm : m.mount_state ≠ 0) (hdev : NeverFails m.jbod) (hf : 1 ≤ fuel)
    (h1 : 1 ≤ len) (h2 : len ≤ 1024) (hrange : addr + len ≤ 1048576) (hb : len ≤ b.length) :
    (∀ n, n < iters (addr + len) addr →
      ∃ v v2, mdadm_write_vars junk fuel m addr len (some b) n = some v ∧
        mdadm_write_vars junk fuel m addr len (some b) (n + 1) = some v2 ∧
        v.currentAddr = ((max addr ((addr / 256 + n) * 256) : Nat) : Int) ∧
        v.currentAddr < ((addr + len : Nat) : Int) ∧
        v.currentAddr + 1 ≤ v2.currentAddr ∧ v2.currentAddr ≤ v.currentAddr + 256 ∧
        v2.currentAddr ≤ ((addr + len : Nat) : Int)) ∧
    (∃ v, mdadm_write_vars junk fuel m addr len (some b) (iters (addr + len) addr) = some v ∧
      v.currentAddr = ((addr + len : Nat) : Int)) ∧
    mdadm_write_vars junk fuel m addr len (some b) (iters (addr + len) addr + 1) = none := by
  obtain ⟨q1, q2⟩ := mdadm_write_vars_run junk fuel m addr len b hm h2 hrange hb
  have hit := iters_eq addr len h1
  refine ⟨?_, ?_, ?_⟩
  · intro n hn
    obtain ⟨v, hv⟩ := q2 hdev hf n (by omega)
    obtain ⟨v2, hv2⟩ := q2 hdev hf (n + 1) (by omega)
    have p := (q1 n v hv).2
    have p2 := (q1 (n + 1) v2 hv2).2
    rw [cursor_getD, if_pos hn] at p
    rw [cursor_getD] at p2
    refine ⟨v, v2, hv, hv2, p, ?_⟩
    rw [p, p2]
    rw [hit] at hn ⊢
    split <;> omega
  · obtain ⟨v, hv⟩ := q2 hdev hf (iters (addr + len) addr) (Nat.le_refl _)
    have p := (q1 _ v hv).2
    rw [cursor_getD, if_neg (Nat.lt_irrefl _)] at p
    exact ⟨v, hv, p⟩
  · cases h : mdadm_write_vars junk fuel m addr len (some b) (iters (addr + len) addr + 1) with
    | none => rfl
    | some v => have := (q1 _ v h).1; omega

/-- C20. The transfer loops end after one iteration per touched block: on a mounted driver over
a device none of whose operations fails, for a request with `1 ≤ len ≤ 1024` and
`addr + len - 1 ≤ 1048575`, with `N = iters (addr + len) addr`:
`N = (addr + len - 1) / 256 - addr / 256 + 1` and `N ≤ 5`; the bound `finalAddr` of both loops
is `addr + len`; the values `mdadm_read_vars` and `mdadm_write_vars` give for the loop variables
after `n` passes are those from which the call goes on.  For every `n < N` the loop of
`mdadm_read` is running after `n` passes through its body with
`currentAddr = max addr ((addr / 256 + n) * 256)` below `addr + len`, and the next pass leaves
`currentAddr` at least 1 and at most 256 bytes further and not past `addr + len`; after `N`
passes `currentAddr` is `addr + len`, so the loop condition fails, and there is no further
pass.  The same holds for the loop of `mdadm_write` (with fuel for its nested reads).  With less
fuel than `N` both calls run out of fuel, and with `N` units or more both return `len`, the
device log growing by one group of operations per pass. -/
theorem C20_loops_terminate_one_iteration_per_block (junk : Nat → Byte) (m : Machine)
    (addr len : Nat) (buf : List Byte) (hm : m.mount_state = 1) (hdev : NeverFails m.jbod)
    (h1 : 1 ≤ len) (h2 : len ≤ 1024) (h3 : addr + len - 1 ≤ 1048575) (hbuf : buf.length = len) :
    iters (addr + len) addr = (addr + len - 1) / 256 - addr / 256 + 1 ∧
    iters (addr + len) addr ≤ 5 ∧
    toI32 ((addr + len) % 4294967296) = ((addr + len : Nat) : Int) ∧
    (∀ n f v, mdadm_read_vars junk m addr len (some buf) n = some v →
      mdadm_read junk (f + n) m addr len (some buf) =
        read_loop junk m.mount_state addr len (op_construct 0 0 JBOD_READ_BLOCK 0)
          (toI32 ((addr + len) % 4294967296)) f v.currentAddr v.dataSize v.bufP v.dev
          v.buf) ∧
    (∀ n f v, mdadm_write_vars junk (f + n) m addr len (some buf) n = some v →
      mdadm_write junk (f + n) m addr len (some buf) =
        write_loop junk (f + n) m.mount_state len (op_construct 0 0 JBOD_WRITE_BLOCK 0)
          (toI32 ((addr + len) % 4294967296)) (some buf) f v.currentAddr v.bufP v.dev) ∧
    ((∀ n, n < iters (addr + len) addr →
        ∃ v v2, mdadm_read_vars junk m addr len (some buf) n = some v ∧
          mdadm_read_vars junk m addr len (some buf) (n + 1) = some v2 ∧
          v.currentAddr = ((max addr ((addr / 256 + n) * 256) : Nat) : Int) ∧
          v.currentAddr < ((addr + len : Nat) : Int) ∧
          v.currentAddr + 1 ≤ v2.currentAddr ∧ v2.currentAddr ≤ v.currentAddr + 256 ∧
          v2.currentAddr ≤ ((addr + len : Nat) : Int)) ∧
      (∃ v, mdadm_read_vars junk m addr len (some buf) (iters (addr + len) addr) = some v ∧
        v.currentAddr = ((addr + len : Nat) : Int)) ∧
      mdadm_read_vars junk m addr len (some buf) (iters (addr + len) addr + 1) = none) ∧
    (∀ fuel, 1 ≤ fuel →
      (∀ n, n < iters (addr + len) addr →
        ∃ v v2, mdadm_write_vars junk fuel m addr len (some buf) n = some v ∧
          mdadm_write_vars junk fuel m addr len (some buf) (n + 1) = some v2 ∧
          v.currentAddr = ((max addr ((addr / 256 + n) * 256) : Nat) : Int) ∧
          v.currentAddr < ((addr + len : Nat) : Int) ∧
          v.currentAddr + 1 ≤ v2.currentAddr ∧ v2.currentAddr ≤ v.currentAddr + 256 ∧
          v2.currentAddr ≤ ((addr + len : Nat) : Int)) ∧
      (∃ v, mdadm_write_vars junk fuel m addr len (some buf) (iters (addr + len) addr) =
          some v ∧ v.currentAddr = ((addr + len : Nat) : Int)) ∧
      mdadm_write_vars junk fuel m addr len (some buf) (iters (addr + len) addr + 1) = none) ∧
    (∀ fuel, fuel < iters (addr + len) addr →
      mdadm_read junk fuel m addr len (some buf) = .error .outOfFuel ∧
      mdadm_write junk fuel m addr len (some buf) = .error .outOfFuel) ∧
    (∀ fuel, iters (addr + len) addr ≤ fuel →
      (∃ r, mdadm_read junk fuel m addr len (some buf) = .ok r ∧ r.ret = len ∧
        r.m.jbod.log = m.jbod.log ++ (cursorsFrom (addr + len) addr).flatMap readGroup) ∧
      (∃ w, mdadm_write junk fuel m addr len (some buf) = .ok w ∧ w.ret = len ∧
        w.m.jbod.log =
          m.jbod.log ++ (cursorsFrom (addr + len) addr).flatMap (writeGroup addr len))) := by
  have hm0 : m.mount_state ≠ 0 := by rw [hm]; decide
  have hit := iters_eq addr len h1
  have hfin : toI32 ((addr + len) % 4294967296) = ((addr + len : Nat) : Int) := by
    rw [Nat.mod_eq_of_lt (by omega)]; exact toI32_small _ (by omega)
  refine ⟨hit, iters_le_five addr len h2, hfin,
    fun n f v hv => mdadm_read_of_vars junk m addr len buf hm0 h1 h2 (by omega) n f v hv,
    fun n f v hv => mdadm_write_of_vars junk m addr len buf hm0 h1 h2 (by omega) n f v hv,
    read_vars_never junk m addr len buf hdev h1 h2 (by omega) (by omega),
    fun fuel hf => write_vars_never junk fuel m addr len buf hm0 hdev hf h1 h2 (by omega)
      (by omega), ?_, ?_⟩
  · intro fuel hlt
    constructor
    · rcases mdadm_read_run junk fuel m addr len buf hm0 h1 h2 (by omega) (by omega) with
        ⟨he, _⟩ | ⟨r, o, new, _, _, _, _, _, _, _, hnever⟩
      · exact he
      · have := (hnever hdev).1; omega
    · rcases mdadm_write_run junk fuel m addr len buf hm0 h1 h2 (by omega) (by omega) with
        ⟨he, _⟩ | ⟨w, new, _, _, _, _, _, _, hnever⟩
      · exact he
      · have := (hnever hdev).1; omega
  · intro fuel hge
    constructor
    · rcases mdadm_read_run junk fuel m addr len buf hm0 h1 h2 (by omega) (by omega) with
        ⟨_, hlt⟩ | ⟨r, o, new, hr, _, _, hlog, _, _, _, hnever⟩
      · omega
      · obtain ⟨_, q2, q3⟩ := hnever hdev
        exact ⟨r, hr, q2, by rw [hlog, q3]⟩
    · rcases mdadm_write_run junk fuel m addr len buf hm0 h1 h2 (by omega) (by omega) with
        ⟨_, hlt⟩ | ⟨w, new, hw, _, hlog, _, _, _, hnever⟩
      · omega
      · obtain ⟨_, q2, q3⟩ := hnever hdev
        exact ⟨w, hw, q2, by rw [hlog, q3]⟩

/-- C20 on the sample device: 1024 bytes at address 250 touch five blocks; the loops take five
passes. -/
theorem C20_loops_terminate_one_iteration_per_block_witness :
    iters (250 + 1024) 250 = (250 + 1024 - 1) / 256 - 250 / 256 + 1 ∧
    iters (250 + 1024) 250 ≤ 5 ∧
    toI32 ((250 + 1024) % 4294967296) = ((250 + 1024 : Nat) : Int) ∧
    (∀ n f v, mdadm_read_vars sampleJunk sampleMachine 250 1024
        (some (List.replicate 1024 7)) n = some v →
      mdadm_read sampleJunk (f + n) sampleMachine 250 1024 (some (List.replicate 1024 7)) =
        read_loop sampleJunk sampleMachine.mount_state 250 1024
          (op_construct 0 0 JBOD_READ_BLOCK 0) (toI32 ((250 + 1024) % 4294967296)) f
          v.currentAddr v.dataSize v.bufP v.dev v.buf) ∧
    (∀ n f v, mdadm_write_vars sampleJunk (f + n) sampleMachine 250 1024
        (some (List.replicate 1024 7)) n = some v →
      mdadm_write sampleJunk (f + n) sampleMachine 250 1024 (some (List.replicate 1024 7)) =
        write_loop sampleJunk (f + n) sampleMachine.mount_state 1024
          (op_construct 0 0 JBOD_WRITE_BLOCK 0) (toI32 ((250 + 1024) % 4294967296))
          (some (List.replicate 1024 7)) f v.currentAddr v.bufP v.dev) ∧
    ((∀ n, n < iters (250 + 1024) 250 →
        ∃ v v2, mdadm_read_vars sampleJunk sampleMachine 250 1024
            (some (List.replicate 1024 7)) n = some v ∧
          mdadm_read_vars sampleJunk sampleMachine 250 1024
            (some (List.replicate 1024 7)) (n + 1) = some v2 ∧
          v.currentAddr = ((max 250 ((250 / 256 + n) * 256) : Nat) : Int) ∧
          v.currentAddr < ((250 + 1024 : Nat) : Int) ∧
          v.currentAddr + 1 ≤ v2.currentAddr ∧ v2.currentAddr ≤ v.currentAddr + 256 ∧
          v2.currentAddr ≤ ((250 + 1024 : Nat) : Int)) ∧
      (∃ v, mdadm_read_vars sampleJunk sampleMachine 250 1024 (some (List.replicate 1024 7))
          (iters (250 + 1024) 250) = some v ∧
        v.currentAddr = ((250 + 1024 : Nat) : Int)) ∧
      mdadm_read_vars sampleJunk sampleMachine 250 1024 (some (List.replicate 1024 7))
        (iters (250 + 1024) 250 + 1) = none) ∧
    (∀ fuel, 1 ≤ fuel →
      (∀ n, n < iters (250 + 1024) 250 →
        ∃ v v2, mdadm_write_vars sampleJunk fuel sampleMachine 250 1024
            (some (List.replicate 1024 7)) n = some v ∧
          mdadm_write_vars sampleJunk fuel sampleMachine 250 1024
            (some (List.replicate 1024 7)) (n + 1) = some v2 ∧
          v.currentAddr = ((max 250 ((250 / 256 + n) * 256) : Nat) : Int) ∧
          v.currentAddr < ((250 + 1024 : Nat) : Int) ∧
          v.currentAddr + 1 ≤ v2.currentAddr ∧ v2.currentAddr ≤ v.currentAddr + 256 ∧
          v2.currentAddr ≤ ((250 + 1024 : Nat) : Int)) ∧
      (∃ v, mdadm_write_vars sampleJunk fuel sampleMachine 250 1024
          (some (List.replicate 1024 7)) (iters (250 + 1024) 250) = some v ∧
        v.currentAddr = ((250 + 1024 : Nat) : Int)) ∧
      mdadm_write_vars sampleJunk fuel sampleMachine 250 1024 (some (List.replicate 1024 7))
        (iters (250 + 1024) 250 + 1) = none) ∧
    (∀ fuel, fuel < iters (250 + 1024) 250 →
      mdadm_read sampleJunk fuel sampleMachine 250 1024 (some (List.replicate 1024 7)) =
        .error .outOfFuel ∧
      mdadm_write sampleJunk fuel sampleMachine 250 1024 (some (List.replicate 1024 7)) =
        .error .outOfFuel) ∧
    (∀ fuel, iters (250 + 1024) 250 ≤ fuel →
      (∃ r, mdadm_read sampleJunk fuel sampleMachine 250 1024 (some (List.replicate 1024 7)) =
          .ok r ∧ r.ret = (1024 : Nat) ∧
        r.m.jbod.log =
          sampleMachine.jbod.log ++ (cursorsFrom (250 + 1024) 250).flatMap readGroup) ∧
      (∃ w, mdadm_write sampleJunk fuel sampleMachine 250 1024 (some (List.replicate 1024 7)) =
          .ok w ∧ w.ret = (1024 : Nat) ∧
        w.m.jbod.log =
          sampleMachine.jbod.log ++
            (cursorsFrom (250 + 1024) 250).flatMap (writeGroup 250 1024))) :=
  C20_loops_terminate_one_iteration_per_block sampleJunk sampleMachine 250 1024
    (List.replicate 1024 7) rfl (fun _ => rfl) (by decide) (by decide) (by decide)
    (List.length_replicate 1024 7)

/-! ## The traces of the reader and of the writer -/

/-- C16. Every block transfer is positioned explicitly: on a mounted driver, for a request with
`1 ≤ len ≤ 1024` and `addr + len - 1 ≤ 1048575`, whatever the device does and whatever the fuel.
The log entries a run of `mdadm_read` adds are a `ReadTrace` over the current addresses
`cursorsFrom (addr + len) addr`: pass after pass, in this order, the successful seek-to-disk and
seek-to-block for the current address of the pass and then `READ_BLOCK`, the last group
possibly cut at its first failing operation.  The entries a run of `mdadm_write` adds are a
`WriteTrace` over the same addresses: in each pass the two seeks for the current address, the
entries of the nested read (seeks for the start of the block of the current address, then
`READ_BLOCK`, possibly cut at a failing operation), then again the two seeks for the current
address and only then `WRITE_BLOCK`.  Both logs are `Positioned`, and with five units of fuel
both calls have a result.  The addresses of `cursorsFrom` are the values of `currentAddr` in the
code: whenever the loop of either function is running after `n` passes, `currentAddr` is the
`n`-th of them, and the call goes on from the values of the loop variables then.  The codes of
the seeks decode to `SEEK_TO_DISK` with disk `a / 65536` and `SEEK_TO_BLOCK` with block
`a % 65536 / 256`, and the seeks for the start of a block are the seeks for every address of
that block. -/
theorem C16_block_transfers_positioned (junk : Nat → Byte) (fuel : Nat) (m : Machine)
    (addr len : Nat) (buf : List Byte) (hm : m.mount_state = 1) (h1 : 1 ≤ len) (h2 : len ≤ 1024)
    (h3 : addr + len - 1 ≤ 1048575) (hbuf : buf.length = len) :
    (∀ r, mdadm_read junk fuel m addr len (some buf) = .ok r →
      ∃ new, r.m.jbod.log = m.jbod.log ++ new ∧
        ReadTrace (cursorsFrom (addr + len) addr) new ∧ Positioned addr (addr + len) new) ∧
    (∀ w, mdadm_write junk fuel m addr len (some buf) = .ok w →
      ∃ new, w.m.jbod.log = m.jbod.log ++ new ∧
        WriteTrace addr len (cursorsFrom (addr + len) addr) new ∧
        Positioned addr (addr + len) new) ∧
    (5 ≤ fuel → (∃ r, mdadm_read junk fuel m addr len (some buf) = .ok r) ∧
      ∃ w, mdadm_write junk fuel m addr len (some buf) = .ok w) ∧
    (∀ n v, mdadm_read_vars junk m addr len (some buf) n = some v →
      v.currentAddr =
        (((cursorsFrom (addr + len) addr)[n]?.getD (addr + len) : Nat) : Int)) ∧
    (∀ n v, mdadm_write_vars junk fuel m addr len (some buf) n = some v →
      v.currentAddr =
        (((cursorsFrom (addr + len) addr)[n]?.getD (addr + len) : Nat) : Int)) ∧
    (∀ n f v, mdadm_read_vars junk m addr len (some buf) n = some v →
      mdadm_read junk (f + n) m addr len (some buf) =
        read_loop junk m.mount_state addr len (op_construct 0 0 JBOD_READ_BLOCK 0)
          (toI32 ((addr + len) % 4294967296)) f v.currentAddr v.dataSize v.bufP v.dev
          v.buf) ∧
    (∀ n f v, mdadm_write_vars junk (f + n) m addr len (some buf) n = some v →
      mdadm_write junk (f + n) m addr len (some buf) =
        write_loop junk (f + n) m.mount_state len (op_construct 0 0 JBOD_WRITE_BLOCK 0)
          (toI32 ((addr + len) % 4294967296)) (some buf) f v.currentAddr v.bufP v.dev) ∧
    (∀ a : Nat, a < 1048576 →
      cmdOf (seekDiskOp a) = 2 ∧ diskOf (seekDiskOp a) = a / 65536 ∧
      cmdOf (seekBlockOp a) = 3 ∧ blockOf (seekBlockOp a) = a % 65536 / 256 ∧
      seekDiskOp ((a - a % 256 : Nat) : Int) = seekDiskOp (a : Int) ∧
      seekBlockOp ((a - a % 256 : Nat) : Int) = seekBlockOp (a : Int)) := by
  have hm0 : m.mount_state ≠ 0 := by rw [hm]; decide
  have h5 := iters_le_five addr len h2
  have hrange : addr + len ≤ 1048576 := by omega
  have hb : len ≤ buf.length := by omega
  have hR := mdadm_read_run junk fuel m addr len buf hm0 h1 h2 hrange hb
  have hW := mdadm_write_run junk fuel m addr len buf hm0 h1 h2 hrange hb
  refine ⟨?_, ?_, ?_, ?_, ?_,
    fun n f v hv => mdadm_read_of_vars junk m addr len buf hm0 h1 h2 hrange n f v hv,
    fun n f v hv => mdadm_write_of_vars junk m addr len buf hm0 h1 h2 hrange n f v hv, ?_⟩
  · intro r hr
    rcases hR with ⟨he, _⟩ | ⟨r2, o, new, hr2, _, _, hlog, _, hpos, htr, _⟩
    · rw [he] at hr; cases hr
    · rw [hr2] at hr; cases hr
      exact ⟨new, hlog, htr, hpos⟩
  · intro w hw
    rcases hW with ⟨he, _⟩ | ⟨w2, new, hw2, _, hlog, _, hpos, htr, _⟩
    · rw [he] at hw; cases hw
    · rw [hw2] at hw; cases hw
      exact ⟨new, hlog, htr, hpos⟩
  · intro hfuel
    constructor
    · rcases hR with ⟨_, hlt⟩ | ⟨r, _, _, hr, _⟩
      · omega
      · exact ⟨r, hr⟩
    · rcases hW with ⟨_, hlt⟩ | ⟨w, _, hw, _⟩
      · omega
      · exact ⟨w, hw⟩
  · intro n v hv
    exact ((mdadm_read_vars_run junk m addr len buf h2 hrange hb).1 n v hv).2
  · intro n v hv
    exact ((mdadm_write_vars_run junk fuel m addr len buf hm0 h2 hrange hb).1 n v hv).2
  · intro a ha
    obtain ⟨c1, c2⟩ := seekOps_congr (a - a % 256) a (by omega) ha (by omega)
    exact ⟨cmdOf_seekDiskOp a ha, diskOf_seekDiskOp a ha, cmdOf_seekBlockOp a,
      blockOf_seekBlockOp a, c1, c2⟩

/-- C16 on the sample device with its fifth operation failing (the `READ_BLOCK` of the first
nested read of the write, the `READ_BLOCK` of the second pass of the read): 10 bytes at address
250, across a block boundary. -/
theorem C16_block_transfers_positioned_witness :
    (∀ r, mdadm_read sampleJunk 5 ⟨1, sampleDeviceFailingFifth⟩ 250 10
        (some [1, 2, 3, 4, 5, 6, 7, 8, 9, 10]) = .ok r →
      ∃ new, r.m.jbod.log = sampleDeviceFailingFifth.log ++ new ∧
        ReadTrace (cursorsFrom (250 + 10) 250) new ∧ Positioned 250 (250 + 10) new) ∧
    (∀ w, mdadm_write sampleJunk 5 ⟨1, sampleDeviceFailingFifth⟩ 250 10
        (some [1, 2, 3, 4, 5, 6, 7, 8, 9, 10]) = .ok w →
      ∃ new, w.m.jbod.log = sampleDeviceFailingFifth.log ++ new ∧
        WriteTrace 250 10 (cursorsFrom (250 + 10) 250) new ∧
        Positioned 250 (250 + 10) new) ∧
    (5 ≤ 5 → (∃ r, mdadm_read sampleJunk 5 ⟨1, sampleDeviceFailingFifth⟩ 250 10
        (some [1, 2, 3, 4, 5, 6, 7, 8, 9, 10]) = .ok r) ∧
      ∃ w, mdadm_write sampleJunk 5 ⟨1, sampleDeviceFailingFifth⟩ 250 10
        (some [1, 2, 3, 4, 5, 6, 7, 8, 9, 10]) = .ok w) ∧
    (∀ n v, mdadm_read_vars sampleJunk ⟨1, sampleDeviceFailingFifth⟩ 250 10
        (some [1, 2, 3, 4, 5, 6, 7, 8, 9, 10]) n = some v →
      v.currentAddr = (((cursorsFrom (250 + 10) 250)[n]?.getD (250 + 10) : Nat) : Int)) ∧
    (∀ n v, mdadm_write_vars sampleJunk 5 ⟨1, sampleDeviceFailingFifth⟩ 250 10
        (some [1, 2, 3, 4, 5, 6, 7, 8, 9, 10]) n = some v →
      v.currentAddr = (((cursorsFrom (250 + 10) 250)[n]?.getD (250 + 10) : Nat) : Int)) ∧
    (∀ n f v, mdadm_read_vars sampleJunk ⟨1, sampleDeviceFailingFifth⟩ 250 10
        (some [1, 2, 3, 4, 5, 6, 7, 8, 9, 10]) n = some v →
      mdadm_read sampleJunk (f + n) ⟨1, sampleDeviceFailingFifth⟩ 250 10
          (some [1, 2, 3, 4, 5, 6, 7, 8, 9, 10]) =
        read_loop sampleJunk (⟨1, sampleDeviceFailingFifth⟩ : Machine).mount_state 250 10
          (op_construct 0 0 JBOD_READ_BLOCK 0) (toI32 ((250 + 10) % 4294967296)) f
          v.currentAddr v.dataSize v.bufP v.dev v.buf) ∧
    (∀ n f v, mdadm_write_vars sampleJunk (f + n) ⟨1, sampleDeviceFailingFifth⟩ 250 10
        (some [1, 2, 3, 4, 5, 6, 7, 8, 9, 10]) n = some v →
      mdadm_write sampleJunk (f + n) ⟨1, sampleDeviceFailingFifth⟩ 250 10
          (some [1, 2, 3, 4, 5, 6, 7, 8, 9, 10]) =
        write_loop sampleJunk (f + n) (⟨1, sampleDeviceFailingFifth⟩ : Machine).mount_state 10
          (op_construct 0 0 JBOD_WRITE_BLOCK 0) (toI32 ((250 + 10) % 4294967296))
          (some [1, 2, 3, 4, 5, 6, 7, 8, 9, 10]) f v.currentAddr v.bufP v.dev) ∧
    (∀ a : Nat, a < 1048576 →
      cmdOf (seekDiskOp a) = 2 ∧ diskOf (seekDiskOp a) = a / 65536 ∧
      cmdOf (seekBlockOp a) = 3 ∧ blockOf (seekBlockOp a) = a % 65536 / 256 ∧
      seekDiskOp ((a - a % 256 : Nat) : Int) = seekDiskOp (a : Int) ∧
      seekBlockOp ((a - a % 256 : Nat) : Int) = seekBlockOp (a : Int)) :=
  C16_block_transfers_positioned sampleJunk 5 ⟨1, sampleDeviceFailingFifth⟩ 250 10
    [1, 2, 3, 4, 5, 6, 7, 8, 9, 10] rfl (by decide) (by decide) (by decide) rfl

/-- C15. Read-modify-write happens exactly for partially covered blocks: on a mounted driver
over a device none of whose operations fails, a write of `buf` with `1 ≤ len ≤ 1024` and
`addr + len - 1 ≤ 1048575` returns `len`, and the device log grows by one `writeGroup` per
current address.  The blocks of the current addresses are exactly the blocks
`addr / 256 .. (addr + len - 1) / 256` the request touches.  For each current address `cur`
the group holds a `READ_BLOCK` command if and only if the request does not cover the whole
256-byte block of `cur`; the block is covered exactly when the offset of `cur` is 0 and at
least 256 bytes remain, and then the group is two seeks, two seeks again and the `WRITE_BLOCK`,
and all 256 bytes stored in the block afterwards are bytes of the caller buffer. -/
theorem C15_read_modify_write_iff_partial (junk : Nat → Byte) (fuel : Nat) (m : Machine)
    (addr len : Nat) (buf : List Byte) (hfuel : 5 ≤ fuel) (hm : m.mount_state = 1)
    (hdev : NeverFails m.jbod) (h1 : 1 ≤ len) (h2 : len ≤ 1024)
    (h3 : addr + len - 1 ≤ 1048575) (hbuf : buf.length = len) :
    ∃ w, mdadm_write junk fuel m addr len (some buf) = .ok w ∧ w.ret = len ∧
      w.m.jbod.log =
        m.jbod.log ++ (cursorsFrom (addr + len) addr).flatMap (writeGroup addr len) ∧
      (∀ blk, (∃ cur, cur ∈ cursorsFrom (addr + len) addr ∧ cur / 256 = blk) ↔
        (addr / 256 ≤ blk ∧ blk ≤ (addr + len - 1) / 256)) ∧
      ∀ cur, cur ∈ cursorsFrom (addr + len) addr →
        ((∃ e, e ∈ writeGroup addr len cur ∧ cmdOf e.1 = JBOD_READ_BLOCK.toNat) ↔
          ¬ covers addr len cur) ∧
        (covers addr len cur ↔ (cur % 256 = 0 ∧ 256 ≤ addr + len - cur)) ∧
        (covers addr len cur →
          writeGroup addr len cur =
            [(seekDiskOp cur, 0), (seekBlockOp cur, 0), (seekDiskOp cur, 0),
              (seekBlockOp cur, 0), (writeOp, 0)] ∧
          ∀ j, j < 256 →
            w.m.jbod.byteAt (cur / 256 * 256 + j) = buf.getD (cur / 256 * 256 + j - addr) 0) := by
  have hm0 : m.mount_state ≠ 0 := by rw [hm]; decide
  have h5 := iters_le_five addr len h2
  obtain ⟨w0, hw0, _, _, _, _, hbytes⟩ := mdadm_write_ok junk fuel hfuel m addr len buf hm0 h1 h2
    (by omega) (by omega) hdev
  rcases mdadm_write_run junk fuel m addr len buf hm0 h1 h2 (by omega) (by omega) with
    ⟨_, hlt⟩ | ⟨w, new, hw, _, hlog, _, _, _, hnever⟩
  · omega
  obtain ⟨_, q2, q3⟩ := hnever hdev
  have hww : w0 = w := by rw [hw0] at hw; cases hw; rfl
  subst hww
  refine ⟨w0, hw0, q2, by rw [hlog, q3], ?_, ?_⟩
  · intro blk
    have := touched_blocks addr len blk h1
    constructor
    · rintro ⟨cur, hc, hb⟩; exact this.mp ⟨cur, hc, hb⟩
    · intro h; obtain ⟨cur, hc, hb⟩ := this.mpr h; exact ⟨cur, hc, hb⟩
  · intro cur hcur
    obtain ⟨c1, c2, c3⟩ := cursor_bounds addr len cur hcur
    refine ⟨writeGroup_read_iff addr len cur (by omega), ?_, ?_⟩
    · unfold covers; omega
    · intro hcov
      constructor
      · unfold writeGroup; rw [if_pos hcov]; rfl
      · intro j hj
        have hc := hcov
        unfold covers at hc
        rw [hbytes, if_pos (by omega)]

/-- C15 on the sample device: 600 bytes at address 250 touch the blocks 0 to 3. -/
theorem C15_read_modify_write_iff_partial_witness :
    ∃ w, mdadm_write sampleJunk 5 sampleMachine 250 600 (some (List.replicate 600 7)) = .ok w ∧
      w.ret = (600 : Nat) ∧
      w.m.jbod.log =
        sampleMachine.jbod.log ++ (cursorsFrom (250 + 600) 250).flatMap (writeGroup 250 600) ∧
      (∀ blk, (∃ cur, cur ∈ cursorsFrom (250 + 600) 250 ∧ cur / 256 = blk) ↔
        (250 / 256 ≤ blk ∧ blk ≤ (250 + 600 - 1) / 256)) ∧
      ∀ cur, cur ∈ cursorsFrom (250 + 600) 250 →
        ((∃ e, e ∈ writeGroup 250 600 cur ∧ cmdOf e.1 = JBOD_READ_BLOCK.toNat) ↔
          ¬ covers 250 600 cur) ∧
        (covers 250 600 cur ↔ (cur % 256 = 0 ∧ 256 ≤ 250 + 600 - cur)) ∧
        (covers 250 600 cur →
          writeGroup 250 600 cur =
            [(seekDiskOp cur, 0), (seekBlockOp cur, 0), (seekDiskOp cur, 0),
              (seekBlockOp cur, 0), (writeOp, 0)] ∧
          ∀ j, j < 256 →
            w.m.jbod.byteAt (cur / 256 * 256 + j) =
              (List.replicate 600 7).getD (cur / 256 * 256 + j - 250) 0) :=
  C15_read_modify_write_iff_partial sampleJunk 5 sampleMachine 250 600 (List.replicate 600 7)
    (by decide) rfl (fun _ => rfl) (by decide) (by decide) (by decide)
    (List.length_replicate 600 7)

/-! ## The case analysis of the writer against the four cases of the specification -/

/-- At a state of a valid request (the current address is block-aligned, or it is the first
iteration) the case analysis of the code and the one of the specification are the same
function. -/
theorem write_fill_eq_spec (junk : Nat → Byte) (fuelR : Nat) (ms : Int) (addr len k : Nat)
    (d : Jbod) (buf : Option (List Byte)) (hk : k < len) (h2 : len ≤ 1024)
    (hal : (addr + k) % 256 = 0 ∨ k = 0) :
    write_fill junk fuelR ms len ((addr + len : Nat) : Int) ((addr + k : Nat) : Int)
        (((addr + k) % 256 : Nat) : Int) (k : Int) d buf =
      write_fill_spec junk fuelR ms ((addr + len : Nat) : Int) ((addr + k : Nat) : Int)
        (((addr + k) % 256 : Nat) : Int) (k : Int) d buf := by
  unfold write_fill write_fill_spec
  dsimp only
  by_cases hoff : (addr + k) % 256 = 0
  · have hz : (((addr + k) % 256 : Nat) : Int) = 0 := by omega
    rw [if_pos hz, if_pos hz]
  · have hk0 : k = 0 := by omega
    subst hk0
    have hnz : ¬ (((addr + 0) % 256 : Nat) : Int) = 0 := by omega
    have hu : toU32 (((addr + 0) % 256 : Nat) : Int) = (addr + 0) % 256 :=
      toU32_ofNat _ (by omega)
    have h256 : toU32 JBOD_BLOCK_SIZE = 256 := by decide
    have hds : toI32 len = ((addr + len : Nat) : Int) - ((addr + 0 : Nat) : Int) := by
      rw [toI32_small len (by omega)]; omega
    rw [if_neg hnz, if_neg hnz, hu, h256, hds, show JBOD_BLOCK_SIZE = 256 from rfl]
    by_cases hc : (addr + 0) % 256 + len > 256
    · have c1 : ((addr + 0) % 256 + len) % 4294967296 > 256 := by omega
      have c2 : (((addr + 0) % 256 : Nat) : Int) +
          (((addr + len : Nat) : Int) - ((addr + 0 : Nat) : Int)) > 256 := by omega
      rw [if_pos c1, if_pos c2]
    · have c1 : ¬ ((addr + 0) % 256 + len) % 4294967296 > 256 := by omega
      have c2 : ¬ (((addr + 0) % 256 : Nat) : Int) +
          (((addr + len : Nat) : Int) - ((addr + 0 : Nat) : Int)) > 256 := by omega
      rw [if_neg c1, if_neg c2]

/-- The loop of the code and the loop with the case analysis of the specification run alike
from every state of a valid request, whatever the device does and whatever the fuel. -/
theorem write_loop_eq_spec (junk : Nat → Byte) (fuelR : Nat) (ms : Int) (hms : ms ≠ 0)
    (addr len : Nat) (h2 : len ≤ 1024) (hrange : addr + len ≤ 1048576) (b : List Byte)
    (hb : len ≤ b.length) :
    ∀ (fuel k : Nat) (d : Jbod), k ≤ len → ((addr + k) % 256 = 0 ∨ k = 0 ∨ k = len) →
      write_loop junk fuelR ms len writeOp ((addr + len : Nat) : Int) (some b) fuel
          ((addr + k : Nat) : Int) (k : Int) d =
        write_loop_spec junk fuelR ms len writeOp ((addr + len : Nat) : Int) (some b) fuel
          ((addr + k : Nat) : Int) (k : Int) d := by
  intro fuel
  induction fuel with
  | zero =>
    intro k d _ _
    rw [write_loop_zero, write_loop_spec]
  | succ fuel ih =>
    intro k d hkl hal
    rw [write_loop_succ, write_loop_spec]
    by_cases hcond : ((addr + k : Nat) : Int) < ((addr + len : Nat) : Int)
    · rw [if_pos hcond, if_pos hcond]
      have hk : k < len := by omega
      have hin : addr + k < 1048576 := by omega
      have hoff : ¬ (((addr + k) % 256 : Nat) : Int) = -1 := by omega
      by_cases h0 : d.fails d.log.length = true
      · rw [seek_fail_disk d _ h0]; simp only [if_true]
      have h0f : d.fails d.log.length = false := by simpa using h0
      by_cases h1 : d.fails (d.log.length + 1) = true
      · rw [seek_fail_block d _ hin h0f h1]; simp only [if_true]
      have h1f : d.fails (d.log.length + 1) = false := by simpa using h1
      rw [seek_ok d _ hin h0f h1f]
      simp only [hoff, if_false]
      rw [← write_fill_eq_spec junk fuelR ms addr len k (d.sought (addr + k)) (some b) hk h2
        (by omega)]
      rcases write_fill_run junk fuelR ms hms addr len k (d.sought (addr + k)) b hk h2 hrange
        (by omega) hb with ⟨herr, _⟩ | ⟨dev1, loader, g1, hfill, _⟩
      · simp only [herr]
      · generalize hn : min (256 - (addr + k) % 256) (len - k) = n at *
        have hc1 : ((addr + k : Nat) : Int) + (n : Int) = ((addr + (k + n) : Nat) : Int) := by
          push_cast; ring
        have hc2 : (k : Int) + (n : Int) = ((k + n : Nat) : Int) := by push_cast; rfl
        simp only [hfill, hc1, hc2]
        rw [ih (k + n) _ (by omega) (by omega)]
    · rw [if_neg hcond, if_neg hcond]

/-- The writer of the code and the writer with the case analysis of the specification run alike
on every valid request. -/
theorem mdadm_write_eq_spec (junk : Nat → Byte) (fuel : Nat) (m : Machine) (addr len : Nat)
    (b : List Byte) (hm : m.mount_state ≠ 0) (h1 : 1 ≤ len) (h2 : len ≤ 1024)
    (hrange : addr + len ≤ 1048576) (hb : len ≤ b.length) :
    mdadm_write junk fuel m addr len (some b) = mdadm_write_spec junk fuel m addr len (some b) := by
  have hmax : toU32 address_max = 1048575 := by decide
  have hl1 : toU32 ((len : Int) - 1) = len - 1 := by unfold toU32; omega
  have hchk : ¬ (addr + (len - 1)) % 4294967296 > 1048575 := by omega
  have hfin : toI32 ((addr + len) % 4294967296) = ((addr + len : Nat) : Int) := by
    rw [Nat.mod_eq_of_lt (by omega)]; exact toI32_small _ (by omega)
  have hcur : toI32 addr = ((addr + 0 : Nat) : Int) := toI32_small _ (by omega)
  unfold mdadm_write mdadm_write_spec
  simp only [hmax, hl1, hfin, hcur]
  rw [if_neg hm, if_neg (by omega), if_neg (by omega), if_neg hchk, if_neg (by simp),
    if_neg hm, if_neg (by omega), if_neg (by omega), if_neg hchk, if_neg (by simp)]
  exact write_loop_eq_spec junk fuel m.mount_state hm addr len h2 hrange b hb fuel 0 m.jbod
    (by omega) (by omega)

/-- C17. The case selection of the writer agrees with the four cases of the specification: on a
mounted driver, for a request with `1 ≤ len ≤ 1024` and `addr + len - 1 ≤ 1048575`, whatever the
device does and whatever the fuel, `mdadm_write` (tests on the original length) and
`mdadm_write_spec` (cases C and D on the remaining length) are the same run.  At every state of
the loop (`k` bytes done, `k < len`, the current address `addr + k` block-aligned or `k = 0`)
the two case analyses are the same function, with any fuel for the nested read the code takes
`min (256 - offset) (len - k)` bytes, and the next state is block-aligned or the end of the
request, so that the offset is 0 in every iteration after the first; an offset other than 0
occurs only at `k = 0`, where the test of the code and the test of the specification are
equivalent and `len` is the remaining length.  Every current address after the first one is a
multiple of 256, and over a device that never fails the log of the write is one group per
current address. -/
theorem C17_case_selection_agrees_with_spec (junk : Nat → Byte) (fuel : Nat) (m : Machine)
    (addr len : Nat) (buf : List Byte) (hm : m.mount_state = 1) (h1 : 1 ≤ len) (h2 : len ≤ 1024)
    (h3 : addr + len - 1 ≤ 1048575) (hbuf : buf.length = len) :
    mdadm_write junk fuel m addr len (some buf) =
      mdadm_write_spec junk fuel m addr len (some buf) ∧
    (∀ (k : Nat) (d : Jbod) (fuelR : Nat), k < len → ((addr + k) % 256 = 0 ∨ k = 0) →
      write_fill junk fuelR m.mount_state len ((addr + len : Nat) : Int) ((addr + k : Nat) : Int)
          (((addr + k) % 256 : Nat) : Int) (k : Int) d (some buf) =
        write_fill_spec junk fuelR m.mount_state ((addr + len : Nat) : Int)
          ((addr + k : Nat) : Int) (((addr + k) % 256 : Nat) : Int) (k : Int) d (some buf) ∧
      (1 ≤ fuelR → ∃ dev1 loader,
        write_fill junk fuelR m.mount_state len ((addr + len : Nat) : Int)
          ((addr + k : Nat) : Int) (((addr + k) % 256 : Nat) : Int) (k : Int) d (some buf) =
          .ok (((min (256 - (addr + k) % 256) (len - k) : Nat) : Int), dev1, loader)) ∧
      ((addr + (k + min (256 - (addr + k) % 256) (len - k))) % 256 = 0 ∨
        k + min (256 - (addr + k) % 256) (len - k) = len) ∧
      ((addr + k) % 256 ≠ 0 →
        k = 0 ∧
        ((toU32 (((addr + k) % 256 : Nat) : Int) + len) % 4294967296 > toU32 JBOD_BLOCK_SIZE ↔
          (((addr + k) % 256 : Nat) : Int) +
            (((addr + len : Nat) : Int) - ((addr + k : Nat) : Int)) > JBOD_BLOCK_SIZE) ∧
        toI32 len = ((addr + len : Nat) : Int) - ((addr + k : Nat) : Int))) ∧
    (∀ i, 1 ≤ i → i < iters (addr + len) addr →
      (cursorsFrom (addr + len) addr)[i]? = some (max addr ((addr / 256 + i) * 256)) ∧
      max addr ((addr / 256 + i) * 256) % 256 = 0) ∧
    (NeverFails m.jbod → 5 ≤ fuel →
      ∃ w, mdadm_write junk fuel m addr len (some buf) = .ok w ∧ w.ret = len ∧
        w.m.jbod.log =
          m.jbod.log ++ (cursorsFrom (addr + len) addr).flatMap (writeGroup addr len)) := by
  have hm0 : m.mount_state ≠ 0 := by rw [hm]; decide
  refine ⟨mdadm_write_eq_spec junk fuel m addr len buf hm0 h1 h2 (by omega) (by omega), ?_, ?_,
    ?_⟩
  · intro k d fuelR hk hal
    refine ⟨write_fill_eq_spec junk fuelR m.mount_state addr len k d (some buf) hk h2 hal, ?_,
      by omega, ?_⟩
    · intro hf
      rcases write_fill_run junk fuelR m.mount_state hm0 addr len k d buf hk h2 (by omega) hal
        (by omega) with ⟨_, hz⟩ | ⟨dev1, loader, _, hfill, _⟩
      · omega
      · exact ⟨dev1, loader, hfill⟩
    · intro hoff
      have hk0 : k = 0 := by omega
      have hu : toU32 (((addr + k) % 256 : Nat) : Int) = (addr + k) % 256 :=
        toU32_ofNat _ (by omega)
      have h256 : toU32 JBOD_BLOCK_SIZE = 256 := by decide
      refine ⟨hk0, ?_, ?_⟩
      · rw [hu, h256, show JBOD_BLOCK_SIZE = 256 from rfl]
        omega
      · rw [toI32_small len (by omega)]; omega
  · intro i hi1 hi
    refine ⟨cursorsFrom_getElem? _ _ i hi, ?_⟩
    omega
  · intro hdev hfuel
    have h5 := iters_le_five addr len h2
    rcases mdadm_write_run junk fuel m addr len buf hm0 h1 h2 (by omega) (by omega) with
      ⟨_, hlt⟩ | ⟨w, new, hw, _, hlog, _, _, _, hnever⟩
    · omega
    · obtain ⟨_, q2, q3⟩ := hnever hdev
      exact ⟨w, hw, q2, by rw [hlog, q3]⟩

/-- C17 on the sample device: 600 bytes at address 250, a first iteration at offset 250 and
three block-aligned ones. -/
theorem C17_case_selection_agrees_with_spec_witness :
    mdadm_write sampleJunk 5 sampleMachine 250 600 (some (List.replicate 600 7)) =
      mdadm_write_spec sampleJunk 5 sampleMachine 250 600 (some (List.replicate 600 7)) ∧
    (∀ (k : Nat) (d : Jbod) (fuelR : Nat), k < 600 → ((250 + k) % 256 = 0 ∨ k = 0) →
      write_fill sampleJunk fuelR sampleMachine.mount_state 600 ((250 + 600 : Nat) : Int)
          ((250 + k : Nat) : Int) (((250 + k) % 256 : Nat) : Int) (k : Int) d
          (some (List.replicate 600 7)) =
        write_fill_spec sampleJunk fuelR sampleMachine.mount_state ((250 + 600 : Nat) : Int)
          ((250 + k : Nat) : Int) (((250 + k) % 256 : Nat) : Int) (k : Int) d
          (some (List.replicate 600 7)) ∧
      (1 ≤ fuelR → ∃ dev1 loader,
        write_fill sampleJunk fuelR sampleMachine.mount_state 600 ((250 + 600 : Nat) : Int)
          ((250 + k : Nat) : Int) (((250 + k) % 256 : Nat) : Int) (k : Int) d
          (some (List.replicate 600 7)) =
          .ok (((min (256 - (250 + k) % 256) (600 - k) : Nat) : Int), dev1, loader)) ∧
      ((250 + (k + min (256 - (250 + k) % 256) (600 - k))) % 256 = 0 ∨
        k + min (256 - (250 + k) % 256) (600 - k) = 600) ∧
      ((250 + k) % 256 ≠ 0 →
        k = 0 ∧
        ((toU32 (((250 + k) % 256 : Nat) : Int) + 600) % 4294967296 > toU32 JBOD_BLOCK_SIZE ↔
          (((250 + k) % 256 : Nat) : Int) +
            (((250 + 600 : Nat) : Int) - ((250 + k : Nat) : Int)) > JBOD_BLOCK_SIZE) ∧
        toI32 600 = ((250 + 600 : Nat) : Int) - ((250 + k : Nat) : Int))) ∧
    (∀ i, 1 ≤ i → i < iters (250 + 600) 250 →
      (cursorsFrom (250 + 600) 250)[i]? = some (max 250 ((250 / 256 + i) * 256)) ∧
      max 250 ((250 / 256 + i) * 256) % 256 = 0) ∧
    (NeverFails sampleMachine.jbod → 5 ≤ 5 →
      ∃ w, mdadm_write sampleJunk 5 sampleMachine 250 600 (some (List.replicate 600 7)) =
          .ok w ∧ w.ret = (600 : Nat) ∧
        w.m.jbod.log =
          sampleMachine.jbod.log ++ (cursorsFrom (250 + 600) 250).flatMap (writeGroup 250 600)) :=
  C17_case_selection_agrees_with_spec sampleJunk 5 sampleMachine 250 600 (List.replicate 600 7)
    rfl (by decide) (by decide) (by decide) (List.length_replicate 600 7)

end MDADM
